import Mathlib

/-!
# uJSON: the `Value` type, its parser and its serializer

A shallow embedding of `src/src/ujson.cpp` and `src/include/uJSON/ujson.h`.

* A C++ `char` is modelled by a `Char` (one `Char` per byte), a `std::string` by a `List Char`.
* A `Value` is modelled as a finite tree: the `shared_ptr` handles of Array and Object bodies are
  unfolded.  The parser only ever builds unshared bodies, so this loses nothing for parsing and
  serializing.
* Where the sharing matters (a copy of a container, the state a failed call leaves behind), a
  second model keeps the bodies on a heap: an `SValue` holds the address of its body, and a member
  function is a `Method`, from the state at the call to the outcome and the state at its end.
* `std::map<std::string, Value>` is modelled by its in-order entry list (keys strictly ascending).
* An exception is an `Except.error`; a routine whose loop may run forever takes a fuel argument
  and answers `none` when the fuel is used up.
* `double` is IEEE-754 binary64; `std::stod` and `operator<<(double)` are modelled after the
  C and C++ standards in the default locale with round-to-nearest-even.
-/

namespace uJSON

/-- A `std::string`: a sequence of `char`. -/
abbrev Str := List Char

/-- The exception classes that can leave the library: the three of `ujson.h`, and the two that
`std::stod` throws. -/
inductive Exn where
  | ParseError
  | TypeError
  | RuntimeError
  | StdOutOfRange
  | StdInvalidArgument
deriving DecidableEq, Repr

deriving instance DecidableEq for Except

/-! ## `double` -/

/-- A `double`.  `fin neg m e` is the finite value `(-1)^neg * m * 2^e`, kept canonical: `m` is odd,
or `m = 0` and `e = 0` (the two zeros differ in `neg`). -/
inductive Double where
  | fin (neg : Bool) (m : Nat) (e : Int)
  | inf (neg : Bool)
  | nan
deriving DecidableEq, Repr

namespace Double

/-- Divide out the factors of two of a nonzero mantissa. -/
def stripTwos : Nat → Nat → Int → Nat × Int
  | 0, m, e => (m, e)
  | fuel + 1, m, e =>
    if m ≠ 0 ∧ m % 2 = 0 then stripTwos fuel (m / 2) (e + 1) else (m, e)

/-- The canonical finite double `(-1)^neg * m * 2^e`. -/
def canon (neg : Bool) (m : Nat) (e : Int) : Double :=
  if m = 0 then fin neg 0 0 else fin neg (stripTwos m m e).1 (stripTwos m m e).2

/-- `static_cast<double>(i)` for an `int` (exact: an `int` has at most 31 significant bits). -/
def ofInt (i : Int) : Double := canon (decide (i < 0)) i.natAbs 0

/-- Number of binary digits of `n`. -/
def bitLenAux : Nat → Nat → Nat
  | 0, _ => 0
  | fuel + 1, n => if n = 0 then 0 else bitLenAux fuel (n / 2) + 1

/-- Number of binary digits of `n` (`0` for `0`). -/
def bitLen (n : Nat) : Nat := bitLenAux n n

/-- Whether `2^g ≤ num / den`. -/
def geTwoPow (num den : Nat) (g : Int) : Bool :=
  if 0 ≤ g then decide (den * 2 ^ g.toNat ≤ num) else decide (den ≤ num * 2 ^ (-g).toNat)

/-- The binary exponent of `num / den`: `floor (log2 (num / den))`, for `num, den > 0`. -/
def ilog2 (num den : Nat) : Int :=
  let g : Int := (bitLen num : Int) - (bitLen den : Int)
  if geTwoPow num den g then g else g - 1

/-- The quotient `num / den` rounded to the nearest integer, ties to even. -/
def roundHalfEven (num den : Nat) : Nat :=
  let q := num / den
  let r := num % den
  if den < 2 * r ∨ (2 * r = den ∧ q % 2 = 1) then q + 1 else q

/-- The quotient `num / (den * 2^q)` rounded to the nearest integer, ties to even. -/
def scaledMantissa (num den : Nat) (q : Int) : Nat :=
  if 0 ≤ q then roundHalfEven num (den * 2 ^ q.toNat) else roundHalfEven (num * 2 ^ (-q).toNat) den

/-- Whether `m * 2^q = num / den` exactly. -/
def isExact (num den m : Nat) (q : Int) : Bool :=
  if 0 ≤ q then decide (m * (den * 2 ^ q.toNat) = num) else decide (m * den = num * 2 ^ (-q).toNat)

/-- The decimal `(-1)^neg * num / den` (`den > 0`) converted as `strtod` converts it: correctly
rounded to binary64.  `std::stod` throws `std::out_of_range` when `strtod` reports `ERANGE`: on
overflow, and (glibc) on a result below the normal range that is not exact. -/
def ofDecimal (neg : Bool) (num den : Nat) : Except Exn Double :=
  if num = 0 then .ok (fin neg 0 0)
  else
    let e := ilog2 num den
    let q := max e (-1022) - 52
    let m := scaledMantissa num den q
    if 1023 < e ∨ (e = 1023 ∧ m = 2 ^ 53) then .error .StdOutOfRange
    else if e < -1022 ∧ isExact num den m q = false then .error .StdOutOfRange
    else .ok (canon neg m q)

/-- The least `k` from `k` on with `den ≤ num * 10^k`. -/
def negExpAux : Nat → Nat → Nat → Nat → Nat
  | 0, _, _, k => k
  | fuel + 1, num, den, k => if den ≤ num * 10 ^ k then k else negExpAux fuel num den (k + 1)

/-- The decimal exponent of `num / den`: `floor (log10 (num / den))`, for `num, den > 0`. -/
def ilog10 (num den : Nat) : Int :=
  if den ≤ num then ((Nat.toDigits 10 (num / den)).length : Int) - 1
  else - (negExpAux den num den 1 : Int)

/-- Drop the zeros at the end of a digit string. -/
def stripZeros (ds : Str) : Str := (ds.reverse.dropWhile (fun c => c = '0')).reverse

/-- A fraction part as printed: nothing when there are no digits, else a point and the digits. -/
def fracPart (ds : Str) : Str := if ds = [] then [] else '.' :: ds

/-- The six significant decimal digits of `num / den` and its decimal exponent, as the `%e`
conversion with precision 5 rounds them. -/
def sixDigits (num den : Nat) : Nat × Int :=
  let x := ilog10 num den
  let d := if 5 ≤ x then roundHalfEven num (den * 10 ^ (x - 5).toNat)
           else roundHalfEven (num * 10 ^ (5 - x).toNat) den
  if d = 1000000 then (100000, x + 1) else (d, x)

/-- The exponent field of the `%e` style: a sign and at least two digits. -/
def expField (x : Int) : Str :=
  let ds := Nat.toDigits 10 x.natAbs
  'e' :: (if x < 0 then '-' else '+') :: (if ds.length < 2 then '0' :: ds else ds)

/-- The magnitude `m * 2^e` (`m > 0`) as `%g` with precision 6 prints it. -/
def fmtMagnitude (m : Nat) (e : Int) : Str :=
  let num := if 0 ≤ e then m * 2 ^ e.toNat else m
  let den := if 0 ≤ e then 1 else 2 ^ (-e).toNat
  let dx := sixDigits num den
  let ds := Nat.toDigits 10 dx.1
  let x := dx.2
  if -4 ≤ x ∧ x < 6 then
    if 0 ≤ x then ds.take (x.toNat + 1) ++ fracPart (stripZeros (ds.drop (x.toNat + 1)))
    else '0' :: '.' :: (List.replicate ((-x).toNat - 1) '0' ++ stripZeros ds)
  else ds.take 1 ++ fracPart (stripZeros (ds.drop 1)) ++ expField x

/-- The text of `os << d` for a `double` on a stream in its default state: `printf("%g", d)` with
precision 6. -/
def format : Double → Str
  | nan => ['n', 'a', 'n']
  | inf neg => (if neg then ['-'] else []) ++ ['i', 'n', 'f']
  | fin neg m e => (if neg then ['-'] else []) ++ (if m = 0 then ['0'] else fmtMagnitude m e)

/-- The value of `static_cast<int>(d)`: truncation toward zero.  `none` where the C++ standard
leaves the conversion undefined (the truncated value is not an `int`, or `d` is not finite). -/
def toInt : Double → Option Int
  | fin neg m e =>
    let t : Nat := if 0 ≤ e then m * 2 ^ e.toNat else m / 2 ^ (-e).toNat
    let i : Int := if neg then - (t : Int) else t
    if -2147483648 ≤ i ∧ i ≤ 2147483647 then some i else none
  | _ => none

/-- Whether `std::modf(d, &intpart) == 0.0`: the fractional part of `d` is zero. -/
def fracIsZero : Double → Bool
  | fin _ _ e => decide (0 ≤ e)
  | inf _ => true
  | nan => false

end Double

/-- `isdigit(c)` in the "C" locale. -/
def isdigit (c : Char) : Bool := decide (48 ≤ c.toNat ∧ c.toNat ≤ 57)

/-- `isspace(c)` in the "C" locale: space, `\t`, `\n`, `\v`, `\f`, `\r`. -/
def isspace (c : Char) : Bool := decide (c.toNat = 32 ∨ (9 ≤ c.toNat ∧ c.toNat ≤ 13))

/-- The value of a decimal digit string. -/
def decimalValue (ds : Str) : Nat := ds.foldl (fun a c => 10 * a + (c.toNat - 48)) 0

/-- `std::stod(numStr)` on the strings `Parser::parseNumber` builds: an optional `-`, digits, and
optionally a point and digits.  The whole string is converted. -/
def stod (numStr : Str) : Except Exn Double :=
  let neg := decide (numStr.head? = some '-')
  let s1 := if neg then numStr.drop 1 else numStr
  let ip := s1.takeWhile isdigit
  let fp := match s1.dropWhile isdigit with
    | '.' :: r => r.takeWhile isdigit
    | _ => []
  if ip = [] ∧ fp = [] then .error .StdInvalidArgument
  else Double.ofDecimal neg (decimalValue (ip ++ fp)) (10 ^ fp.length)

/-! ## `Value` -/

/-- The `Type` tag of `ujson.h`. -/
inductive Type_ where
  | Null
  | Boolean
  | Number
  | String
  | Array
  | Object
deriving DecidableEq, Repr

/-- A `Value`: the tag `type_` together with the payload `data_` it selects.  An Array body is the
sequence of its elements, an Object body the entries of its `std::map` in iteration order. -/
inductive Value where
  | null
  | boolean (b : Bool)
  | number (d : Double)
  | string (s : Str)
  | array (a : List Value)
  | object (o : List (Str × Value))

/-- `Value::ArrayType`, a `std::vector<Value>`. -/
abbrev ArrayType := List Value

/-- `Value::ObjectType`, a `std::map<std::string, Value>`, as its in-order entry list. -/
abbrev ObjectType := List (Str × Value)

/-- `size_t` is 64 bits wide: `SIZE_MAX + 1`. -/
def sizeModulus : Nat := 2 ^ 64

/-- `operator<` of `std::string`: lexicographic, characters compared by their codes. -/
def strLt : Str → Str → Bool
  | [], [] => false
  | [], _ :: _ => true
  | _ :: _, [] => false
  | a :: as, b :: bs =>
    if a.toNat < b.toNat then true else if b.toNat < a.toNat then false else strLt as bs

/-- `std::map::find`: skip the entries whose key is less than `key`; the entry reached is a hit
unless `key` is less than its key. -/
def mapFind (key : Str) : ObjectType → Option Value
  | [] => none
  | (k, v) :: r =>
    if strLt k key then mapFind key r else if strLt key k then none else some v

/-- `std::map::operator[]`: when no entry has the key, one holding a default `Value` (Null) is
inserted at its place in the order; the map is otherwise unchanged. -/
def mapIndex (key : Str) : ObjectType → ObjectType
  | [] => [(key, Value.null)]
  | (k, v) :: r =>
    if strLt k key then (k, v) :: mapIndex key r
    else if strLt key k then (key, Value.null) :: (k, v) :: r
    else (k, v) :: r

/-- Assignment through the reference `std::map::operator[]` returned for `key`. -/
def mapStore (key : Str) (val : Value) : ObjectType → ObjectType
  | [] => []
  | (k, v) :: r =>
    if strLt k key then (k, v) :: mapStore key val r
    else if strLt key k then (k, v) :: r
    else (k, val) :: r

/-- `std::vector::resize(n)`: cut to `n` elements, or fill up to `n` with default `Value`s. -/
def vectorResize (n : Nat) (a : ArrayType) : ArrayType :=
  a.take n ++ List.replicate (n - a.length) Value.null

/-- Assignment through the reference `arr[index]`. -/
def vectorStore (index : Nat) (val : Value) (a : ArrayType) : ArrayType := a.set index val

namespace Value

/-- `Value::type`. -/
def type : Value → Type_
  | null => .Null
  | boolean _ => .Boolean
  | number _ => .Number
  | string _ => .String
  | array _ => .Array
  | object _ => .Object

/-- `Value::Value(int)`. -/
def ofInt (i : Int) : Value := number (Double.ofInt i)

/-- `Value::Value(const char*)`: a null pointer gives Null. -/
def ofCString : Option Str → Value
  | some s => string s
  | none => null

/-- `Value::is_null`. -/
def is_null (x : Value) : Bool := decide (x.type = .Null)

/-- `Value::is_boolean`. -/
def is_boolean (x : Value) : Bool := decide (x.type = .Boolean)

/-- `Value::is_number`. -/
def is_number (x : Value) : Bool := decide (x.type = .Number)

/-- `Value::is_string`. -/
def is_string (x : Value) : Bool := decide (x.type = .String)

/-- `Value::is_array`. -/
def is_array (x : Value) : Bool := decide (x.type = .Array)

/-- `Value::is_object`. -/
def is_object (x : Value) : Bool := decide (x.type = .Object)

/-- `Value::is_number_integer`. -/
def is_number_integer : Value → Bool
  | number d => d.fracIsZero
  | _ => false

/-- `Value::contains`. -/
def contains (x : Value) (key : Str) : Bool :=
  match x with
  | object o => (mapFind key o).isSome
  | _ => false

/-- `Value::at(const std::string&)`. -/
def at_key (x : Value) (key : Str) : Except Exn Value :=
  match x with
  | object o =>
    match mapFind key o with
    | some v => .ok v
    | none => .error .RuntimeError
  | _ => .error .TypeError

/-- `Value::operator[](const std::string&)`: the state of `*this` when the call returns (the
reference returned is to the entry of `key`). -/
def index_key (x : Value) (key : Str) : Except Exn Value :=
  match x with
  | object o => .ok (object (mapIndex key o))
  | null => .ok (object (mapIndex key []))
  | _ => .error .TypeError

/-- `Value::operator[](const char*)`; `none` is the null pointer. -/
def index_cstr (x : Value) (key : Option Str) : Except Exn Value :=
  match key with
  | none => .error .RuntimeError
  | some k => x.index_key k

/-- The statement `x[key] = val;`: the state of `x` afterwards. -/
def assign_key (x : Value) (key : Str) (val : Value) : Except Exn Value :=
  match x.index_key key with
  | .ok (object o) => .ok (object (mapStore key val o))
  | .ok y => .ok y
  | .error e => .error e

/-- `Value::push_back`: the state of `*this` afterwards. -/
def push_back (x : Value) (v : Value) : Except Exn Value :=
  match x with
  | array a => .ok (array (a ++ [v]))
  | null => .ok (array ([] ++ [v]))
  | _ => .error .TypeError

/-- `Value::at(size_t)`, which `operator[](size_t) const` forwards to. -/
def at_index (x : Value) (index : Nat) : Except Exn Value :=
  match x with
  | array a =>
    match a.get? index with
    | some v => .ok v
    | none => .error .RuntimeError
  | _ => .error .TypeError

/-- `Value::operator[](int) const`. -/
def at_int (x : Value) (index : Int) : Except Exn Value :=
  if index < 0 then .error .RuntimeError else x.at_index index.toNat

/-- The body of an Array after `if (index >= arr.size()) arr.resize(index + 1);`, the sum taken
in `size_t`. -/
def growTo (index : Nat) (a : ArrayType) : ArrayType :=
  if a.length ≤ index then vectorResize ((index + 1) % sizeModulus) a else a

/-- `Value::operator[](size_t)`: the state of `*this` when the call returns (the reference
returned is to the element at `index`; at `index = SIZE_MAX`, where `index + 1` wraps to zero,
the array is emptied and that reference is past its end). -/
def index_idx (x : Value) (index : Nat) : Except Exn Value :=
  match x with
  | array a => .ok (array (growTo index a))
  | null => .ok (array (growTo index []))
  | _ => .error .TypeError

/-- `Value::operator[](int)`. -/
def index_int (x : Value) (index : Int) : Except Exn Value :=
  if index < 0 then .error .RuntimeError else x.index_idx index.toNat

/-- The statement `x[index] = val;` for a `size_t` index: the state of `x` afterwards. -/
def assign_idx (x : Value) (index : Nat) (val : Value) : Except Exn Value :=
  match x.index_idx index with
  | .ok (array a) => .ok (array (vectorStore index val a))
  | .ok y => .ok y
  | .error e => .error e

/-- `Value::size`. -/
def size : Value → Nat
  | array a => a.length
  | object o => o.length
  | _ => 0

/-- `Value::get<bool>`. -/
def get_bool : Value → Except Exn Bool
  | boolean b => .ok b
  | _ => .error .TypeError

/-- `Value::get<double>`. -/
def get_double : Value → Except Exn Double
  | number d => .ok d
  | _ => .error .TypeError

/-- `Value::get<int>`: `static_cast<int>` of the stored double (`none` where that is undefined). -/
def get_int : Value → Except Exn (Option Int)
  | number d => .ok d.toInt
  | _ => .error .TypeError

/-- `Value::get<std::string>`. -/
def get_string : Value → Except Exn Str
  | null => .error .TypeError
  | string s => .ok s
  | _ => .error .TypeError

end Value

/-! ## The parser -/

namespace Parser

/-- A parsing routine that returns: the result and the input left in the stream, or the
exception thrown. -/
abbrev Result (α : Type) := Except Exn (α × Str)

/-- What `static_cast<char>(is_.peek())` and `static_cast<char>(is_.get())` give at the end of
the input: the `char` with all bits set, converted from `EOF`. -/
def eofChar : Char := Char.ofNat 255

/-- `Parser::peek` on a stream whose unread characters are `is`. -/
def peek : Str → Char
  | [] => eofChar
  | c :: _ => c

/-- `Parser::get`: the character read and the stream afterwards.  At the end of the input nothing
is consumed. -/
def get : Str → Char × Str
  | [] => (eofChar, [])
  | c :: r => (c, r)

/-- `is_.eof()` as `Parser::parse` asks it, right after a `peek`: the end-of-file flag is set
exactly when that `peek` found no character. -/
def eof (is : Str) : Bool := is.isEmpty

/-- `Parser::skipWhitespace`: `while (isspace(peek())) get();`.  The loop stops at the end of
the input, where `peek` gives `eofChar`, which is no whitespace. -/
def skipWhitespace : Str → Str
  | [] => []
  | c :: r => if isspace c then skipWhitespace r else c :: r

/-- The character a backslash escape stands for (`switch (c)` in `parseStringValue`). -/
def unescape (c : Char) : Char :=
  if c = '"' then '"'
  else if c = '\\' then '\\'
  else if c = '/' then '/'
  else if c = 'b' then Char.ofNat 8
  else if c = 'f' then Char.ofNat 12
  else if c = 'n' then Char.ofNat 10
  else if c = 'r' then Char.ofNat 13
  else if c = 't' then Char.ofNat 9
  else c

/-- The `while (true)` loop of `Parser::parseStringValue`, `s` being the string built so far.
One unit of fuel per iteration. -/
def parseStringLoop : Nat → Str → Str → Option (Str × Str)
  | 0, _, _ => none
  | fuel + 1, is, s =>
    let c := (get is).1
    let is := (get is).2
    if c = '"' then some (s, is)
    else if c = '\\' then
      let c := (get is).1
      let is := (get is).2
      parseStringLoop fuel is (s ++ [unescape c])
    else parseStringLoop fuel is (s ++ [c])

/-- `Parser::parseStringValue`: the string and the stream afterwards.  It throws nothing. -/
def parseStringValue (fuel : Nat) (is : Str) : Option (Str × Str) :=
  parseStringLoop fuel (get is).2 []

/-- `Parser::parseString`. -/
def parseString (fuel : Nat) (is : Str) : Option (Result Value) :=
  match parseStringValue fuel is with
  | none => none
  | some (s, is) => some (.ok (Value.string s, is))

/-- `Parser::parseBoolean`: four or five calls of `get`, whatever they read. -/
def parseBoolean (is : Str) : Result Value :=
  if peek is = 't' then .ok (Value.boolean true, (get (get (get (get is).2).2).2).2)
  else .ok (Value.boolean false, (get (get (get (get (get is).2).2).2).2).2)

/-- `Parser::parseNull`: four calls of `get`, whatever they read. -/
def parseNull (is : Str) : Result Value :=
  .ok (Value.null, (get (get (get (get is).2).2).2).2)

/-- `Parser::parseNumber`.  The loops `while (isdigit(peek())) numStr += get();` stop at the
first character that is no digit, at the latest at the end of the input. -/
def parseNumber (is : Str) : Result Value :=
  let sign : Str := if peek is = '-' then [(get is).1] else []
  let is := if peek is = '-' then (get is).2 else is
  if isdigit (peek is) = false then .error .ParseError
  else
    let intPart := is.takeWhile isdigit
    let is := is.dropWhile isdigit
    let frac : Str := if peek is = '.' then (get is).1 :: (get is).2.takeWhile isdigit else []
    let is := if peek is = '.' then (get is).2.dropWhile isdigit else is
    match stod (sign ++ intPart ++ frac) with
    | .ok d => .ok (Value.number d, is)
    | .error e => .error e

mutual

/-- `Parser::parse`.  One unit of fuel per call. -/
def parse : Nat → Str → Option (Result Value)
  | 0, _ => none
  | fuel + 1, is =>
    let is := skipWhitespace is
    let c := peek is
    if eof is then some (.ok (Value.null, is))
    else if c = '{' then parseObject fuel is
    else if c = '[' then parseArray fuel is
    else if c = '"' then parseString fuel is
    else if c = 't' ∨ c = 'f' then some (parseBoolean is)
    else if c = 'n' then some (parseNull is)
    else if c = '-' ∨ isdigit c then some (parseNumber is)
    else some (.error .ParseError)

/-- `Parser::parseObject` up to its loop. -/
def parseObject : Nat → Str → Option (Result Value)
  | 0, _ => none
  | fuel + 1, is =>
    let v := Value.object []
    let is := (get is).2
    let is := skipWhitespace is
    if peek is = '}' then some (.ok (v, (get is).2))
    else parseObjectLoop fuel is v

/-- The `while (true)` loop of `Parser::parseObject`, `v` being the object built so far. -/
def parseObjectLoop : Nat → Str → Value → Option (Result Value)
  | 0, _, _ => none
  | fuel + 1, is, v =>
    let is := skipWhitespace is
    if peek is ≠ '"' then some (.error .ParseError)
    else
      match parseStringValue fuel is with
      | none => none
      | some (key, is) =>
        let is := skipWhitespace is
        if (get is).1 ≠ ':' then some (.error .ParseError)
        else
          match parse fuel (get is).2 with
          | none => none
          | some (.error e) => some (.error e)
          | some (.ok (val, is)) =>
            match v.assign_key key val with
            | .error e => some (.error e)
            | .ok v =>
              let is := skipWhitespace is
              let c := (get is).1
              let is := (get is).2
              if c = '}' then some (.ok (v, is))
              else if c ≠ ',' then some (.error .ParseError)
              else parseObjectLoop fuel is v

/-- `Parser::parseArray` up to its loop. -/
def parseArray : Nat → Str → Option (Result Value)
  | 0, _ => none
  | fuel + 1, is =>
    let v := Value.array []
    let is := (get is).2
    let is := skipWhitespace is
    if peek is = ']' then some (.ok (v, (get is).2))
    else parseArrayLoop fuel is v

/-- The `while (true)` loop of `Parser::parseArray`, `v` being the array built so far. -/
def parseArrayLoop : Nat → Str → Value → Option (Result Value)
  | 0, _, _ => none
  | fuel + 1, is, v =>
    match parse fuel is with
    | none => none
    | some (.error e) => some (.error e)
    | some (.ok (val, is)) =>
      match v.push_back val with
      | .error e => some (.error e)
      | .ok v =>
        let is := skipWhitespace is
        let c := (get is).1
        let is := (get is).2
        if c = ']' then some (.ok (v, is))
        else if c ≠ ',' then some (.error .ParseError)
        else parseArrayLoop fuel is v

end

end Parser

/-- `Value::parse(const std::string&)`: the `Value` returned or the exception thrown; `none` when
the parser is still running after `fuel` steps. -/
def Value.parse (fuel : Nat) (s : Str) : Option (Except Exn Value) :=
  match Parser.parse fuel s with
  | none => none
  | some (.ok (v, _)) => some (.ok v)
  | some (.error e) => some (.error e)

/-! ## The serializer -/

/-- `operator<<(std::ostream&, const Value&)`: the text written. -/
def serialize : Value → Str
  | .null => ['n', 'u', 'l', 'l']
  | .boolean b => if b then ['t', 'r', 'u', 'e'] else ['f', 'a', 'l', 's', 'e']
  | .number d => d.format
  | .string s => '"' :: s ++ ['"']
  | .array a => '[' :: serializeElements a ++ [']']
  | .object o => '{' :: serializeEntries o ++ ['}']
where
  /-- The array loop: each element, and a comma after every element but the last. -/
  serializeElements : List Value → Str
    | [] => []
    | [x] => serialize x
    | x :: y :: r => serialize x ++ ',' :: serializeElements (y :: r)
  /-- The object loop: each entry as `"key":value`, and a comma after every entry but the last. -/
  serializeEntries : List (Str × Value) → Str
    | [] => []
    | [(k, x)] => '"' :: k ++ '"' :: ':' :: serialize x
    | (k, x) :: y :: r => '"' :: k ++ '"' :: ':' :: serialize x ++ ',' :: serializeEntries (y :: r)

/-! ## Predicates on values used by the statements below -/

/-- The entries of a map are in strictly ascending key order, as `std::map` keeps them. -/
def keysAscending : ObjectType → Bool
  | [] => true
  | [_] => true
  | (k1, _) :: (k2, v2) :: r => strLt k1 k2 && keysAscending ((k2, v2) :: r)

/-- The data-model invariant of a `Value` tree: every Object body is a `std::map`, its entries in
strictly ascending key order. -/
def Value.wellFormed : Value → Bool
  | .array a => elements a
  | .object o => keysAscending o && entries o
  | _ => true
where
  /-- Every element is well formed. -/
  elements : List Value → Bool
    | [] => true
    | x :: r => Value.wellFormed x && elements r
  /-- Every entry value is well formed. -/
  entries : List (Str × Value) → Bool
    | [] => true
    | (_, x) :: r => Value.wellFormed x && entries r

/-- A string without double quote and without backslash. -/
def plainStr (s : Str) : Bool := s.all (fun c => decide (c ≠ '"' ∧ c ≠ '\\'))

/-- A text of the shape the parser reads as one number: an optional `-`, one or more digits, and
optionally a point followed by digits. -/
def isPlainDecimal (t : Str) : Bool :=
  let s1 := if t.head? = some '-' then t.drop 1 else t
  let r := s1.dropWhile isdigit
  !(s1.takeWhile isdigit).isEmpty && (r.isEmpty || (decide (r.head? = some '.') && (r.drop 1).all isdigit))

/-- The default text of the double is a plain decimal that `std::stod` converts back to it. -/
def Double.readsBack (d : Double) : Bool :=
  isPlainDecimal d.format && decide (stod d.format = .ok d)

/-- No string and no key of the tree holds a double quote or a backslash, and the default text of
every number reads back as that number. -/
def Value.plain : Value → Bool
  | .number d => d.readsBack
  | .string s => plainStr s
  | .array a => elements a
  | .object o => entries o
  | _ => true
where
  /-- Every element is plain. -/
  elements : List Value → Bool
    | [] => true
    | x :: r => Value.plain x && elements r
  /-- Every key and every entry value is plain. -/
  entries : List (Str × Value) → Bool
    | [] => true
    | (k, x) :: r => plainStr k && Value.plain x && entries r

/-- The tree holds no Number node. -/
def Value.numberFree : Value → Bool
  | .number _ => false
  | .array a => elements a
  | .object o => entries o
  | _ => true
where
  /-- No element holds a Number node. -/
  elements : List Value → Bool
    | [] => true
    | x :: r => Value.numberFree x && elements r
  /-- No entry value holds a Number node. -/
  entries : List (Str × Value) → Bool
    | [] => true
    | (_, x) :: r => Value.numberFree x && entries r

/-- The object that `x[k] = v;` for each `(k, v)` of `kvs` in turn builds from the map `o`. -/
def assignAll (o : ObjectType) (kvs : List (Str × Value)) : ObjectType :=
  kvs.foldl (fun acc kv => mapStore kv.1 kv.2 (mapIndex kv.1 acc)) o

/-- What stands after a number lets the number end there: it starts with neither a digit nor a
point. -/
def numberEnds (rest : Str) : Prop :=
  isdigit (Parser.peek rest) = false ∧ Parser.peek rest ≠ '.'

/-- The parser reads the text of `v` back as `v`, whatever follows that lets a number end. -/
def ReadsBack (v : Value) : Prop :=
  ∀ rest, numberEnds rest → ∃ n, Parser.parse n (serialize v ++ rest) = some (.ok (v, rest))

/-- The value of the last member of `kvs` whose key is `k`: what "last write wins" asks an object
parsed from the members `kvs` to hold for `k`. -/
def lastValue (k : Str) : List (Str × Value) → Option Value
  | [] => none
  | (k1, v1) :: r =>
    match lastValue k r with
    | some v => some v
    | none => if k1 = k then some v1 else none

/-! ## Texts and trees of the examples -/

/-- The text of the concrete scenario of the spec. -/
def scenarioText : Str := "\x7b\"a\":1,\"b\":[true,null,\"x\"]\x7d".toList

/-- The tree the scenario text stands for. -/
def scenarioTree : Value :=
  Value.object
    [(['a'], Value.number (Double.fin false 1 0)),
     (['b'], Value.array [Value.boolean true, Value.null, Value.string ['x']])]

/-- A tree with every kind of node, the numbers `1` and `-1.5`. -/
def sampleTree : Value :=
  Value.object
    [(['a'], Value.number (Double.fin false 1 0)),
     (['b'], Value.array [Value.boolean true, Value.null, Value.string ['x'],
        Value.number (Double.fin true 3 (-1))]),
     (['c', 'd'], Value.object [])]

/-- Object members in which the key `a` occurs twice. -/
def sampleMembers : List (Str × Value) :=
  [(['a'], Value.number (Double.fin false 1 0)), (['b'], Value.boolean true), (['a'], Value.null)]

/-- The document of `test_parsing` in `examples/main.cpp`, as the raw string literal spells it. -/
def prettyDocument : Str :=
  ("\n        \x7b\n            \"name\": \"uJSON\",\n            \"version\": 1.0,\n" ++
   "            \"features\": [\"fast\", \"lightweight\", \"no-dependencies\"],\n" ++
   "            \"is_awesome\": true,\n            \"meta\": \x7b\n" ++
   "                \"author\": \"Trae\",\n                \"year\": 2025\n            \x7d\n" ++
   "        \x7d\n    ").toList

/-- The same document without any whitespace. -/
def compactDocument : Str :=
  ("\x7b\"name\":\"uJSON\",\"version\":1.0," ++
   "\"features\":[\"fast\",\"lightweight\",\"no-dependencies\"]," ++
   "\"is_awesome\":true,\"meta\":\x7b\"author\":\"Trae\",\"year\":2025\x7d\x7d").toList

/-- The tree of that document. -/
def documentTree : Value :=
  Value.object
    [("features".toList,
        Value.array [Value.string "fast".toList, Value.string "lightweight".toList,
          Value.string "no-dependencies".toList]),
     ("is_awesome".toList, Value.boolean true),
     ("meta".toList,
        Value.object [("author".toList, Value.string "Trae".toList),
          ("year".toList, Value.number (Double.fin false 2025 0))]),
     ("name".toList, Value.string "uJSON".toList),
     ("version".toList, Value.number (Double.fin false 1 0))]

/-! ## Values that share their bodies -/

/-- A `Value` object as it lies in memory: the tag `type_` with the payload `data_`.  The payload
of an Array or Object is the `shared_ptr` to its body, here the address of the body. -/
inductive SValue where
  | null
  | boolean (b : Bool)
  | number (d : Double)
  | string (s : Str)
  | array (p : Nat)
  | object (p : Nat)
deriving DecidableEq, Repr

/-- The bodies that `std::make_shared` has allocated, each at its address: the `ArrayType` bodies
and the `ObjectType` bodies (entries in ascending key order). -/
structure Heap where
  arrays : List (List SValue)
  objects : List (List (Str × SValue))
deriving DecidableEq, Repr

/-- The state a member function of `Value` runs in: the heap and the object `*this`. -/
structure Frame where
  heap : Heap
  self : SValue
deriving DecidableEq, Repr

/-- A member function of `Value`: from the state at the call to the outcome (the result, or the
exception thrown) and the state when the call ends.  What was written before a `throw` stays
written. -/
def Method (α : Type) : Type := Frame → Except Exn α × Frame

namespace Method

/-- The statement `return a;`. -/
def ret {α : Type} (a : α) : Method α := fun f => (.ok a, f)

/-- The statement `throw e;`. -/
def throw {α : Type} (e : Exn) : Method α := fun f => (.error e, f)

/-- One statement after another; an exception ends the sequence. -/
def seq {α β : Type} (m : Method α) (k : α → Method β) : Method β := fun f =>
  match m f with
  | (.ok a, f1) => k a f1
  | (.error e, f1) => (.error e, f1)

instance : Monad Method where
  pure := ret
  bind := seq

/-- The object `*this`. -/
def self : Method SValue := fun f => (.ok f.self, f)

/-- The assignment `*this = v;`. -/
def assignSelf (v : SValue) : Method Unit := fun f => (.ok (), { f with self := v })

/-- `Value::object()`: a `Value` of type Object with a freshly allocated empty body. -/
def makeObject : Method SValue := fun f =>
  (.ok (SValue.object f.heap.objects.length),
    { f with heap := { f.heap with objects := f.heap.objects ++ [[]] } })

/-- `Value::array()`: a `Value` of type Array with a freshly allocated empty body. -/
def makeArray : Method SValue := fun f =>
  (.ok (SValue.array f.heap.arrays.length),
    { f with heap := { f.heap with arrays := f.heap.arrays ++ [[]] } })

/-- The Array body at the address `p`. -/
def arrayBody (p : Nat) : Method (List SValue) := fun f => (.ok (f.heap.arrays.getD p []), f)

/-- The Object body at the address `p`. -/
def objectBody (p : Nat) : Method (List (Str × SValue)) := fun f =>
  (.ok (f.heap.objects.getD p []), f)

/-- A write to the Array body at the address `p`. -/
def setArrayBody (p : Nat) (body : List SValue) : Method Unit := fun f =>
  (.ok (), { f with heap := { f.heap with arrays := f.heap.arrays.set p body } })

/-- A write to the Object body at the address `p`. -/
def setObjectBody (p : Nat) (body : List (Str × SValue)) : Method Unit := fun f =>
  (.ok (), { f with heap := { f.heap with objects := f.heap.objects.set p body } })

end Method

/-- `std::map::find` on the entries of a shared Object body. -/
def entriesFind (key : Str) : List (Str × SValue) → Option SValue
  | [] => none
  | (k, v) :: r =>
    if strLt k key then entriesFind key r else if strLt key k then none else some v

/-- `std::map::operator[]` on the entries of a shared Object body. -/
def entriesIndex (key : Str) : List (Str × SValue) → List (Str × SValue)
  | [] => [(key, SValue.null)]
  | (k, v) :: r =>
    if strLt k key then (k, v) :: entriesIndex key r
    else if strLt key k then (key, SValue.null) :: (k, v) :: r
    else (k, v) :: r

/-- Assignment through the reference `std::map::operator[]` returned for `key`. -/
def entriesStore (key : Str) (val : SValue) : List (Str × SValue) → List (Str × SValue)
  | [] => []
  | (k, v) :: r =>
    if strLt k key then (k, v) :: entriesStore key val r
    else if strLt key k then (k, v) :: r
    else (k, val) :: r

/-- `std::vector::resize(n)` on a shared Array body. -/
def elementsResize (n : Nat) (a : List SValue) : List SValue :=
  a.take n ++ List.replicate (n - a.length) SValue.null

/-- A `Value&` that a mutable `operator[]` returns: the entry of a key in the Object body at an
address, or the element at an index in the Array body at an address. -/
inductive Ref where
  | entry (p : Nat) (key : Str)
  | element (p : Nat) (index : Nat)
deriving DecidableEq, Repr

namespace SValue
open Method

/-- The copy constructor of `Value`: tag and payload are copied, the payload of a container being
the `shared_ptr`, so the copy has the same body. -/
def copy (a : SValue) : SValue := a

/-- `Value::type`. -/
def type : Method Type_ := do
  match (← self) with
  | null => pure .Null
  | boolean _ => pure .Boolean
  | number _ => pure .Number
  | string _ => pure .String
  | array _ => pure .Array
  | object _ => pure .Object

/-- `Value::is_null`. -/
def is_null : Method Bool := do pure (decide ((← type) = .Null))

/-- `Value::is_boolean`. -/
def is_boolean : Method Bool := do pure (decide ((← type) = .Boolean))

/-- `Value::is_number`. -/
def is_number : Method Bool := do pure (decide ((← type) = .Number))

/-- `Value::is_string`. -/
def is_string : Method Bool := do pure (decide ((← type) = .String))

/-- `Value::is_array`. -/
def is_array : Method Bool := do pure (decide ((← type) = .Array))

/-- `Value::is_object`. -/
def is_object : Method Bool := do pure (decide ((← type) = .Object))

/-- `Value::is_number_integer`. -/
def is_number_integer : Method Bool := do
  match (← self) with
  | number d => pure d.fracIsZero
  | _ => pure false

/-- `*std::get<std::shared_ptr<ArrayType>>(data_)`: the body of `*this`, an Array (for a `Value`
that is no Array, which no caller passes, the empty body). -/
def getArray : Method (Nat × List SValue) := do
  match (← self) with
  | array p => pure (p, ← arrayBody p)
  | _ => pure (0, [])

/-- `*std::get<std::shared_ptr<ObjectType>>(data_)`: the body of `*this`, an Object (for a
`Value` that is no Object, which no caller passes, the empty body). -/
def getObject : Method (Nat × List (Str × SValue)) := do
  match (← self) with
  | object p => pure (p, ← objectBody p)
  | _ => pure (0, [])

/-- `Value::contains`. -/
def contains (key : Str) : Method Bool := do
  if !(← is_object) then return false
  let (_, obj) ← getObject
  return (entriesFind key obj).isSome

/-- `Value::at(const std::string&)`. -/
def at_key (key : Str) : Method SValue := do
  if !(← is_object) then throw .TypeError
  let (_, obj) ← getObject
  match entriesFind key obj with
  | none => throw .RuntimeError
  | some v => return v

/-- `Value::operator[](const std::string&)`. -/
def index_key (key : Str) : Method Ref := do
  if !(← is_object) then
    if (← is_null) then assignSelf (← makeObject)
    else throw .TypeError
  let (p, obj) ← getObject
  setObjectBody p (entriesIndex key obj)
  return Ref.entry p key

/-- `Value::operator[](const char*)`; `none` is the null pointer. -/
def index_cstr (key : Option Str) : Method Ref := do
  match key with
  | none => throw .RuntimeError
  | some k => index_key k

/-- `Value::push_back`. -/
def push_back (v : SValue) : Method Unit := do
  if !(← is_array) then
    if (← is_null) then assignSelf (← makeArray)
    else throw .TypeError
  let (p, arr) ← getArray
  setArrayBody p (arr ++ [v])

/-- `Value::at(size_t)`, which `operator[](size_t) const` forwards to. -/
def at_index (index : Nat) : Method SValue := do
  if !(← is_array) then throw .TypeError
  let (_, arr) ← getArray
  match arr.get? index with
  | none => throw .RuntimeError
  | some v => return v

/-- `Value::operator[](size_t)`. -/
def index_idx (index : Nat) : Method Ref := do
  if !(← is_array) then
    if (← is_null) then assignSelf (← makeArray)
    else throw .TypeError
  let (p, arr) ← getArray
  if arr.length ≤ index then
    setArrayBody p (elementsResize ((index + 1) % sizeModulus) arr)
  return Ref.element p index

/-- `Value::operator[](int)`. -/
def index_int (index : Int) : Method Ref := do
  if index < 0 then throw .RuntimeError
  index_idx index.toNat

/-- `Value::operator[](int) const`. -/
def at_int (index : Int) : Method SValue := do
  if index < 0 then throw .RuntimeError
  at_index index.toNat

/-- `Value::size`. -/
def size : Method Nat := do
  if (← is_array) then return (← getArray).2.length
  if (← is_object) then return (← getObject).2.length
  return 0

/-- `Value::get<bool>`. -/
def get_bool : Method Bool := do
  if !(← is_boolean) then throw .TypeError
  match (← self) with
  | boolean b => return b
  | _ => return false

/-- `Value::get<int>`: `static_cast<int>` of the stored double (`none` where that is undefined). -/
def get_int : Method (Option Int) := do
  if !(← is_number) then throw .TypeError
  match (← self) with
  | number d => return d.toInt
  | _ => return none

/-- `Value::get<double>`. -/
def get_double : Method Double := do
  if !(← is_number) then throw .TypeError
  match (← self) with
  | number d => return d
  | _ => return Double.nan

/-- `Value::get<std::string>`. -/
def get_string : Method Str := do
  if (← type) = .Null then throw .TypeError
  if (← is_string) then
    match (← self) with
    | string s => return s
    | _ => return []
  throw .TypeError

end SValue

/-- Assignment `ref = val` through a reference that a mutable `operator[]` returned: tag and
payload of `val` are copied into the entry or element. -/
def Heap.store (h : Heap) (r : Ref) (val : SValue) : Heap :=
  match r with
  | .entry p key =>
    { h with objects := h.objects.set p (entriesStore key val (h.objects.getD p [])) }
  | .element p index =>
    { h with arrays := h.arrays.set p ((h.arrays.getD p []).set index val) }

/-- The statement `x[key] = val;`. -/
def SValue.assign_key (key : Str) (val : SValue) : Method Unit := fun f =>
  match SValue.index_key key f with
  | (.ok r, f1) => (.ok (), { f1 with heap := f1.heap.store r val })
  | (.error e, f1) => (.error e, f1)

/-- The statement `x[index] = val;` for a `size_t` index. -/
def SValue.assign_idx (index : Nat) (val : SValue) : Method Unit := fun f =>
  match SValue.index_idx index f with
  | (.ok r, f1) => (.ok (), { f1 with heap := f1.heap.store r val })
  | (.error e, f1) => (.error e, f1)

/-- The mutations of a `Value` through its own member functions: `push_back`, keyed and indexed
assignment, and the mutable `operator[]` alone (which may insert an entry or grow an array). -/
inductive Mutation where
  | push_back (v : SValue)
  | assign_key (key : Str) (val : SValue)
  | assign_idx (index : Nat) (val : SValue)
  | index_key (key : Str)
  | index_cstr (key : Option Str)
  | index_idx (index : Nat)
  | index_int (index : Int)

/-- The call that a mutation stands for. -/
def Mutation.run : Mutation → Method Unit
  | .push_back v => SValue.push_back v
  | .assign_key key val => SValue.assign_key key val
  | .assign_idx index val => SValue.assign_idx index val
  | .index_key key => do let _ ← SValue.index_key key
  | .index_cstr key => do let _ ← SValue.index_cstr key
  | .index_idx index => do let _ ← SValue.index_idx index
  | .index_int index => do let _ ← SValue.index_int index

/-- The read-only member functions of `Value`, each with its arguments. -/
inductive Query where
  | type
  | is_null
  | is_boolean
  | is_number
  | is_number_integer
  | is_string
  | is_array
  | is_object
  | contains (key : Str)
  | size
  | at_key (key : Str)
  | at_index (index : Nat)
  | at_int (index : Int)
  | get_bool
  | get_int
  | get_double
  | get_string

/-- What a read-only member function answers. -/
inductive Answer where
  | tag (t : Type_)
  | bool (b : Bool)
  | nat (n : Nat)
  | int (i : Option Int)
  | double (d : Double)
  | str (s : Str)
  | value (v : SValue)
deriving DecidableEq, Repr

/-- The call that a query stands for. -/
def Query.run : Query → Method Answer
  | .type => do return .tag (← SValue.type)
  | .is_null => do return .bool (← SValue.is_null)
  | .is_boolean => do return .bool (← SValue.is_boolean)
  | .is_number => do return .bool (← SValue.is_number)
  | .is_number_integer => do return .bool (← SValue.is_number_integer)
  | .is_string => do return .bool (← SValue.is_string)
  | .is_array => do return .bool (← SValue.is_array)
  | .is_object => do return .bool (← SValue.is_object)
  | .contains key => do return .bool (← SValue.contains key)
  | .size => do return .nat (← SValue.size)
  | .at_key key => do return .value (← SValue.at_key key)
  | .at_index index => do return .value (← SValue.at_index index)
  | .at_int index => do return .value (← SValue.at_int index)
  | .get_bool => do return .bool (← SValue.get_bool)
  | .get_int => do return .int (← SValue.get_int)
  | .get_double => do return .double (← SValue.get_double)
  | .get_string => do return .str (← SValue.get_string)

/-! ## Predicates and examples for the serializer and the string literals -/

/-- No string and no key of the tree holds a double quote or a backslash. -/
def Value.stringsPlain : Value → Bool
  | .string s => plainStr s
  | .array a => elements a
  | .object o => entries o
  | _ => true
where
  /-- No string and no key in the elements holds a double quote or a backslash. -/
  elements : List Value → Bool
    | [] => true
    | x :: r => Value.stringsPlain x && elements r
  /-- No key and no string in the entries holds a double quote or a backslash. -/
  entries : List (Str × Value) → Bool
    | [] => true
    | (k, x) :: r => plainStr k && Value.stringsPlain x && entries r

/-- The text of one entry as the specification gives it: the key between double quotes, a colon,
the text of the value. -/
def entryText (kv : Str × Value) : Str := '"' :: kv.1 ++ '"' :: ':' :: serialize kv.2

/-- One item of a string literal between its double quotes: a character that stands for itself,
or a backslash with the character after it. -/
inductive StringItem where
  | plain (c : Char)
  | escape (c : Char)
deriving DecidableEq, Repr

namespace StringItem

/-- The characters of the item in the text. -/
def text : StringItem → Str
  | plain c => [c]
  | escape c => ['\\', c]

/-- An item may stand inside a literal: an unescaped character is neither the double quote, which
ends the literal, nor the backslash, which starts an escape. -/
def inside : StringItem → Bool
  | plain c => decide (c ≠ '"' ∧ c ≠ '\\')
  | escape _ => true

/-- The character an item stands for, by the table of the specification: `\"`, `\\` and `\/`
stand for the character after the backslash, `\b`, `\f`, `\n`, `\r`, `\t` for backspace, form
feed, line feed, carriage return and tab, a backslash before any other character for that
character, an unescaped character for itself. -/
def decoded : StringItem → Char
  | plain c => c
  | escape 'b' => Char.ofNat 8
  | escape 'f' => Char.ofNat 12
  | escape 'n' => Char.ofNat 10
  | escape 'r' => Char.ofNat 13
  | escape 't' => Char.ofNat 9
  | escape c => c

end StringItem

/-- What stands between the quotes of a literal that spells a Unicode escape, `u0041` after a
backslash: one escape and four characters. -/
def unicodeItems : List StringItem :=
  [.escape 'u', .plain '0', .plain '0', .plain '4', .plain '1']

/-- Items with every escape of the table and one outside it. -/
def escapeItems : List StringItem :=
  [.plain 'a', .escape '"', .escape '\\', .escape '/', .escape 'b', .escape 'f', .escape 'n',
    .escape 'r', .escape 't', .escape 'x', .plain ' ']

/-- A tree without Number node, with every other kind of node. -/
def numberFreeTree : Value :=
  Value.object
    [(['a'], Value.array [Value.boolean true, Value.null, Value.string ['x', ' ', 'y'],
        Value.array []]),
     (['b'], Value.boolean false),
     (['c', 'd'], Value.object [([], Value.string [])])]

/-- Members in an order that is not the order of their keys, the key `b` twice. -/
def shuffledMembers : List (Str × Value) :=
  [(['b'], Value.null), (['c'], Value.string ['x']), (['a'], Value.array []),
    (['b'], Value.boolean true)]

/-- The members of `shuffledMembers` that last, in another order. -/
def sortedMembers : List (Str × Value) :=
  [(['a'], Value.array []), (['b'], Value.boolean true), (['c'], Value.string ['x'])]

/-! ## Lemmas -/

open Parser

/-! ### More fuel changes no result -/

/-- A result of the string loop is the result for every larger fuel. -/
theorem parseStringLoop_mono (n : Nat) : ∀ (is s : Str) (r : Str × Str),
    parseStringLoop n is s = some r → ∀ m, n ≤ m → parseStringLoop m is s = some r := by
  induction n with
  | zero => intro is s r h; simp [parseStringLoop] at h
  | succ n ih =>
    intro is s r h m hm
    obtain ⟨m, rfl⟩ : ∃ k, m = k + 1 := ⟨m - 1, by omega⟩
    have hm2 : n ≤ m := by omega
    simp only [parseStringLoop] at h ⊢
    split
    · rename_i hc; simpa [hc] using h
    · rename_i hc
      split
      · rename_i hb; simp only [hc, hb, if_true, if_false] at h; exact ih _ _ _ h m hm2
      · rename_i hb; simp only [hc, hb, if_true, if_false] at h; exact ih _ _ _ h m hm2

/-- A result of `parseStringValue` is the result for every larger fuel. -/
theorem parseStringValue_mono (n : Nat) (is : Str) (r : Str × Str)
    (h : parseStringValue n is = some r) (m : Nat) (hm : n ≤ m) : parseStringValue m is = some r :=
  parseStringLoop_mono n _ _ r h m hm

/-- A result of `parseString` is the result for every larger fuel. -/
theorem parseString_mono (n : Nat) (is : Str) (r : Result Value)
    (h : parseString n is = some r) (m : Nat) (hm : n ≤ m) : parseString m is = some r := by
  unfold parseString at h ⊢
  cases hs : parseStringValue n is with
  | none => simp [hs] at h
  | some p => rw [parseStringValue_mono n is p hs m hm]; simpa [hs] using h

/-- A result of any of the five mutually recursive routines is the result for every larger fuel. -/
theorem parse_mono_all (n : Nat) : ∀ m, n ≤ m →
    (∀ is r, parse n is = some r → parse m is = some r) ∧
    (∀ is r, parseObject n is = some r → parseObject m is = some r) ∧
    (∀ is v r, parseObjectLoop n is v = some r → parseObjectLoop m is v = some r) ∧
    (∀ is r, parseArray n is = some r → parseArray m is = some r) ∧
    (∀ is v r, parseArrayLoop n is v = some r → parseArrayLoop m is v = some r) := by
  induction n with
  | zero =>
    intro m _
    refine ⟨?_, ?_, ?_, ?_, ?_⟩ <;> intros <;> rename_i h <;>
      simp [parse, parseObject, parseObjectLoop, parseArray, parseArrayLoop] at h
  | succ n ih =>
    intro m hm
    obtain ⟨m, rfl⟩ : ∃ k, m = k + 1 := ⟨m - 1, by omega⟩
    have hm2 : n ≤ m := by omega
    obtain ⟨ihP, ihO, ihOL, ihA, ihAL⟩ := ih m hm2
    refine ⟨?_, ?_, ?_, ?_, ?_⟩
    · intro is r h
      simp only [parse] at h ⊢
      split_ifs at h ⊢ with h1 h2 h3 h4 h5 h6 h7
      · exact h
      · exact ihO _ _ h
      · exact ihA _ _ h
      · exact parseString_mono _ _ _ h _ hm2
      · exact h
      · exact h
      · exact h
      · exact h
    · intro is r h
      simp only [parseObject] at h ⊢
      split_ifs at h ⊢ with h1
      · exact h
      · exact ihOL _ _ _ h
    · intro is v r h
      simp only [parseObjectLoop] at h ⊢
      split_ifs at h ⊢ with h1
      · exact h
      · cases hk : parseStringValue n (skipWhitespace is) with
        | none => simp [hk] at h
        | some p =>
          obtain ⟨key, is1⟩ := p
          rw [parseStringValue_mono n _ _ hk m hm2]
          simp only [hk] at h ⊢
          split_ifs at h ⊢ with h2
          · exact h
          · cases hp : parse n (Parser.get (skipWhitespace is1)).2 with
            | none => simp [hp] at h
            | some pr =>
              rw [ihP _ _ hp]
              simp only [hp] at h ⊢
              cases pr with
              | error e => exact h
              | ok vr =>
                obtain ⟨val, is2⟩ := vr
                simp only at h ⊢
                cases ha : v.assign_key key val with
                | error e => simpa [ha] using h
                | ok v2 =>
                  simp only [ha] at h ⊢
                  split_ifs at h ⊢ with h3 h4
                  · exact h
                  · exact h
                  · exact ihOL _ _ _ h
    · intro is r h
      simp only [parseArray] at h ⊢
      split_ifs at h ⊢ with h1
      · exact h
      · exact ihAL _ _ _ h
    · intro is v r h
      simp only [parseArrayLoop] at h ⊢
      cases hp : parse n is with
      | none => simp [hp] at h
      | some pr =>
        rw [ihP _ _ hp]
        simp only [hp] at h ⊢
        cases pr with
        | error e => exact h
        | ok vr =>
          obtain ⟨val, is2⟩ := vr
          simp only at h ⊢
          cases ha : v.push_back val with
          | error e => simpa [ha] using h
          | ok v2 =>
            simp only [ha] at h ⊢
            split_ifs at h ⊢ with h3 h4
            · exact h
            · exact h
            · exact ihAL _ _ _ h

/-! ### Reading strings and numbers -/

/-- A run of characters that satisfy `p`, followed by a text that starts with none, is what `takeWhile p` takes and `dropWhile p` drops. -/
theorem takeWhile_append_stop (p : Char → Bool) (a b : Str) (ha : ∀ c ∈ a, p c = true)
    (hb : p (peek b) = false) : (a ++ b).takeWhile p = a ∧ (a ++ b).dropWhile p = b := by
  induction a with
  | nil =>
    cases b with
    | nil => simp
    | cons c r => simp only [peek] at hb; simp [List.takeWhile, List.dropWhile, hb]
  | cons c r ih =>
    have hc : p c = true := ha c (List.mem_cons_self _ _)
    have hr := ih (fun d hd => ha d (List.mem_cons_of_mem _ hd))
    simp [List.takeWhile, List.dropWhile, hc, hr.1, hr.2]

/-- `get` on a stream that is not at its end. -/
theorem get_cons (c : Char) (r : Str) : Parser.get (c :: r) = (c, r) := rfl

/-- `peek` on a stream that is not at its end. -/
theorem peek_cons (c : Char) (r : Str) : peek (c :: r) = c := rfl

/-- One iteration of the string loop. -/
theorem parseStringLoop_succ (fuel : Nat) (is s : Str) :
    parseStringLoop (fuel + 1) is s =
      if (Parser.get is).1 = '"' then some (s, (Parser.get is).2)
      else if (Parser.get is).1 = '\\' then
        parseStringLoop fuel (Parser.get (Parser.get is).2).2
          (s ++ [unescape (Parser.get (Parser.get is).2).1])
      else parseStringLoop fuel (Parser.get is).2 (s ++ [(Parser.get is).1]) := rfl

/-- The string loop copies a plain string up to the closing double quote. -/
theorem parseStringLoop_plain (s : Str) (hs : plainStr s = true) (rest acc : Str) (k : Nat) :
    parseStringLoop (k + s.length + 1) (s ++ '"' :: rest) acc = some (acc ++ s, rest) := by
  induction s generalizing acc with
  | nil => simp [parseStringLoop_succ, get_cons]
  | cons c r ih =>
    simp only [plainStr, List.all_cons, Bool.and_eq_true, decide_eq_true_eq] at hs
    obtain ⟨⟨h1, h2⟩, hr⟩ := hs
    show parseStringLoop ((k + r.length + 1) + 1) _ _ = _
    rw [parseStringLoop_succ]
    simp only [List.cons_append, get_cons, h1, h2, if_false]
    rw [ih hr]
    simp

/-- `parseStringValue` reads a quoted plain string back. -/
theorem parseStringValue_plain (s : Str) (hs : plainStr s = true) (rest : Str) (k : Nat) :
    parseStringValue (k + s.length + 1) ('"' :: (s ++ '"' :: rest)) = some (s, rest) := by
  have := parseStringLoop_plain s hs rest [] k
  simpa [parseStringValue, Parser.get] using this

/-- A digit is no minus sign. -/
theorem isdigit_ne_minus (c : Char) (h : isdigit c = true) : c ≠ '-' := by
  intro hc; subst hc; revert h; decide

/-- A plain decimal splits into sign, integer digits and fraction. -/
theorem isPlainDecimal_split (t : Str) (ht : isPlainDecimal t = true) :
    ∃ sign ip fr : Str, t = sign ++ ip ++ fr ∧ (sign = [] ∨ sign = ['-']) ∧
      ip ≠ [] ∧ (∀ c ∈ ip, isdigit c = true) ∧
      (fr = [] ∨ ∃ fp, fr = '.' :: fp ∧ ∀ c ∈ fp, isdigit c = true) := by
  unfold isPlainDecimal at ht
  simp only [Bool.and_eq_true, Bool.or_eq_true, Bool.not_eq_true', decide_eq_true_eq,
    List.isEmpty_eq_true, List.all_eq_true] at ht
  obtain ⟨h1, h2⟩ := ht
  set s1 := if t.head? = some '-' then t.drop 1 else t with hs1
  refine ⟨if t.head? = some '-' then ['-'] else [], s1.takeWhile isdigit, s1.dropWhile isdigit,
    ?_, ?_, ?_, ?_, ?_⟩
  · rw [List.append_assoc, List.takeWhile_append_dropWhile]
    by_cases hh : t.head? = some '-'
    · cases t with
      | nil => simp at hh
      | cons c r => simp only [List.head?_cons, Option.some.injEq] at hh; simp [hs1, hh]
    · simp [hs1, hh]
  · by_cases hh : t.head? = some '-' <;> simp [hh]
  · intro h; rw [h] at h1; simp at h1
  · intro c hc; exact (List.mem_takeWhile_imp hc)
  · rcases h2 with h2 | ⟨h2, h3⟩
    · left; exact h2
    · right
      cases hr : s1.dropWhile isdigit with
      | nil => rw [hr] at h2; simp at h2
      | cons c r =>
        rw [hr] at h2 h3
        simp only [List.head?_cons, Option.some.injEq] at h2
        refine ⟨r, by rw [h2], ?_⟩
        simpa using h3

/-- `parseNumber` consumes exactly a sign, digits and a fraction when what follows lets the number end, and hands them to `std::stod`. -/
theorem parseNumber_split (sign ip fr : Str) (hsign : sign = [] ∨ sign = ['-'])
    (hip : ip ≠ []) (hdig : ∀ c ∈ ip, isdigit c = true)
    (hfr : fr = [] ∨ ∃ fp, fr = '.' :: fp ∧ ∀ c ∈ fp, isdigit c = true)
    (rest : Str) (hr : numberEnds rest) :
    parseNumber (sign ++ ip ++ fr ++ rest) =
      match stod (sign ++ ip ++ fr) with
      | .ok d => .ok (Value.number d, rest)
      | .error e => .error e := by
  obtain ⟨d, ip2, rfl⟩ : ∃ d ip2, ip = d :: ip2 := by
    cases ip with
    | nil => exact absurd rfl hip
    | cons d r => exact ⟨d, r, rfl⟩
  have hd : isdigit d = true := hdig d (List.mem_cons_self _ _)
  have hd2 : d ≠ '-' := isdigit_ne_minus d hd
  have hstop : isdigit (peek (fr ++ rest)) = false := by
    rcases hfr with rfl | ⟨fp, rfl, _⟩
    · exact hr.1
    · show isdigit '.' = false
      decide
  have htw := takeWhile_append_stop isdigit (d :: ip2) (fr ++ rest) hdig hstop
  have hfrac : (if peek (fr ++ rest) = '.' then
        (Parser.get (fr ++ rest)).1 :: (Parser.get (fr ++ rest)).2.takeWhile isdigit else []) = fr
      ∧ (if peek (fr ++ rest) = '.' then (Parser.get (fr ++ rest)).2.dropWhile isdigit
        else fr ++ rest) = rest := by
    rcases hfr with rfl | ⟨fp, rfl, hfp⟩
    · simp [hr.2]
    · have := takeWhile_append_stop isdigit fp rest hfp hr.1
      simp [peek_cons, get_cons, this.1, this.2]
  rcases hsign with rfl | rfl
  · unfold parseNumber
    simp only [List.nil_append, List.cons_append, List.append_assoc, List.singleton_append,
      peek_cons, get_cons, hd2, hd, if_true, if_false] at htw ⊢
    rw [htw.1, htw.2, hfrac.1, hfrac.2]
    rfl
  · unfold parseNumber
    simp only [List.nil_append, List.cons_append, List.append_assoc, List.singleton_append,
      peek_cons, get_cons, hd2, hd, if_true, if_false] at htw ⊢
    rw [htw.1, htw.2, hfrac.1, hfrac.2]
    rfl

/-- `parseNumber` reads a plain decimal as the double `std::stod` makes of it. -/
theorem isPlainDecimal_parseNumber (t : Str) (d : Double) (ht : isPlainDecimal t = true)
    (hd : stod t = .ok d) (rest : Str) (hr : numberEnds rest) :
    parseNumber (t ++ rest) = .ok (Value.number d, rest) := by
  obtain ⟨sign, ip, fr, rfl, h1, h2, h3, h4⟩ := isPlainDecimal_split t ht
  rw [parseNumber_split sign ip fr h1 h2 h3 h4 rest hr, hd]

/-- A result of `parse` is the result for every larger fuel. -/
theorem parse_mono {n : Nat} {is : Str} {r : Result Value} (h : parse n is = some r) {m : Nat}
    (hm : n ≤ m) : parse m is = some r := (parse_mono_all n m hm).1 is r h

/-- A result of the object loop is the result for every larger fuel. -/
theorem parseObjectLoop_mono {n : Nat} {is : Str} {v : Value} {r : Result Value}
    (h : parseObjectLoop n is v = some r) {m : Nat} (hm : n ≤ m) :
    parseObjectLoop m is v = some r := (parse_mono_all n m hm).2.2.1 is v r h

/-- A result of the array loop is the result for every larger fuel. -/
theorem parseArrayLoop_mono {n : Nat} {is : Str} {v : Value} {r : Result Value}
    (h : parseArrayLoop n is v = some r) {m : Nat} (hm : n ≤ m) :
    parseArrayLoop m is v = some r := (parse_mono_all n m hm).2.2.2.2 is v r h

/-! ### Reading back arrays and objects -/

/-- A comma lets a number end. -/
theorem numberEnds_comma (r : Str) : numberEnds (',' :: r) :=
  ⟨by show isdigit ',' = false; decide, by show (',' : Char) ≠ '.'; decide⟩

/-- A closing bracket lets a number end. -/
theorem numberEnds_bracket (r : Str) : numberEnds (']' :: r) :=
  ⟨by show isdigit ']' = false; decide, by show (']' : Char) ≠ '.'; decide⟩

/-- A closing brace lets a number end. -/
theorem numberEnds_brace (r : Str) : numberEnds ('}' :: r) :=
  ⟨by show isdigit '}' = false; decide, by show ('}' : Char) ≠ '.'; decide⟩

/-- The end of the input lets a number end. -/
theorem numberEnds_nil : numberEnds [] := by
  constructor <;> decide

/-- One iteration of the array loop. -/
theorem parseArrayLoop_succ (fuel : Nat) (is : Str) (v : Value) :
    parseArrayLoop (fuel + 1) is v =
      match parse fuel is with
      | none => none
      | some (.error e) => some (.error e)
      | some (.ok (val, is)) =>
        match v.push_back val with
        | .error e => some (.error e)
        | .ok v =>
          if (Parser.get (skipWhitespace is)).1 = ']' then
            some (.ok (v, (Parser.get (skipWhitespace is)).2))
          else if (Parser.get (skipWhitespace is)).1 ≠ ',' then some (.error .ParseError)
          else parseArrayLoop fuel (Parser.get (skipWhitespace is)).2 v := by
  rfl

/-- The array loop reads the serialized elements back and appends them to the array built so far. -/
theorem parseArrayLoop_elements (xs : List Value) (hne : xs ≠ []) (hxs : ∀ x ∈ xs, ReadsBack x)
    (acc : List Value) (rest : Str) :
    ∃ n, parseArrayLoop n (serialize.serializeElements xs ++ ']' :: rest) (Value.array acc) =
      some (.ok (Value.array (acc ++ xs), rest)) := by
  induction xs generalizing acc with
  | nil => exact absurd rfl hne
  | cons x r ih =>
    cases r with
    | nil =>
      obtain ⟨n, hn⟩ := hxs x (List.mem_cons_self _ _) (']' :: rest) (numberEnds_bracket _)
      refine ⟨n + 1, ?_⟩
      rw [parseArrayLoop_succ]
      simp only [serialize.serializeElements]
      rw [hn]
      rfl
    | cons y r2 =>
      obtain ⟨n1, hn1⟩ := hxs x (List.mem_cons_self _ _)
        (',' :: (serialize.serializeElements (y :: r2) ++ ']' :: rest)) (numberEnds_comma _)
      obtain ⟨n2, hn2⟩ := ih (by simp) (fun z hz => hxs z (List.mem_cons_of_mem _ hz)) (acc ++ [x])
      refine ⟨max n1 n2 + 1, ?_⟩
      rw [parseArrayLoop_succ]
      simp only [serialize.serializeElements, List.append_assoc, List.cons_append]
      rw [parse_mono hn1 (le_max_left n1 n2)]
      have := parseArrayLoop_mono hn2 (le_max_right n1 n2)
      simp only [List.append_assoc, List.singleton_append] at this
      exact this

/-- `parseStringValue` reads a quoted plain string back, given fuel for its characters. -/
theorem parseStringValue_plain_le (s : Str) (hs : plainStr s = true) (rest : Str) (n : Nat)
    (hn : s.length + 1 ≤ n) : parseStringValue n ('"' :: (s ++ '"' :: rest)) = some (s, rest) := by
  have := parseStringValue_plain s hs rest (n - (s.length + 1))
  have e : n - (s.length + 1) + s.length + 1 = n := by omega
  rwa [e] at this

/-- One iteration of the object loop. -/
theorem parseObjectLoop_succ (fuel : Nat) (is : Str) (v : Value) :
    parseObjectLoop (fuel + 1) is v =
      if peek (skipWhitespace is) ≠ '"' then some (.error .ParseError)
      else
        match parseStringValue fuel (skipWhitespace is) with
        | none => none
        | some (key, is) =>
          if (Parser.get (skipWhitespace is)).1 ≠ ':' then some (.error .ParseError)
          else
            match parse fuel (Parser.get (skipWhitespace is)).2 with
            | none => none
            | some (.error e) => some (.error e)
            | some (.ok (val, is)) =>
              match v.assign_key key val with
              | .error e => some (.error e)
              | .ok v =>
                if (Parser.get (skipWhitespace is)).1 = '}' then
                  some (.ok (v, (Parser.get (skipWhitespace is)).2))
                else if (Parser.get (skipWhitespace is)).1 ≠ ',' then some (.error .ParseError)
                else parseObjectLoop fuel (Parser.get (skipWhitespace is)).2 v := by
  rfl

/-- A double quote is no whitespace. -/
theorem skipWhitespace_quote (r : Str) : skipWhitespace ('"' :: r) = '"' :: r := rfl

/-- A colon is no whitespace. -/
theorem skipWhitespace_colon (r : Str) : skipWhitespace (':' :: r) = ':' :: r := rfl

/-- `assignAll` assigns the first member, then the others. -/
theorem assignAll_cons (acc : ObjectType) (k : Str) (x : Value) (r : List (Str × Value)) :
    assignAll acc ((k, x) :: r) = assignAll (mapStore k x (mapIndex k acc)) r := rfl

/-- The object loop reads the serialized members back and assigns them, in their order, to the object built so far. -/
theorem parseObjectLoop_entries (kvs : List (Str × Value)) (hne : kvs ≠ [])
    (hk : ∀ kv ∈ kvs, plainStr kv.1 = true) (hv : ∀ kv ∈ kvs, ReadsBack kv.2)
    (acc : ObjectType) (rest : Str) :
    ∃ n, parseObjectLoop n (serialize.serializeEntries kvs ++ '}' :: rest) (Value.object acc) =
      some (.ok (Value.object (assignAll acc kvs), rest)) := by
  induction kvs generalizing acc with
  | nil => exact absurd rfl hne
  | cons kx r ih =>
    obtain ⟨k, x⟩ := kx
    have hkp : plainStr k = true := hk (k, x) (List.mem_cons_self _ _)
    cases r with
    | nil =>
      obtain ⟨n, hn⟩ := hv (k, x) (List.mem_cons_self _ _) ('}' :: rest) (numberEnds_brace _)
      refine ⟨max n (k.length + 1) + 1, ?_⟩
      rw [parseObjectLoop_succ]
      simp only [serialize.serializeEntries, List.append_assoc, List.cons_append,
        skipWhitespace_quote, peek_cons, ne_eq, not_true_eq_false, if_false]
      rw [parseStringValue_plain_le k hkp _ _ (le_max_right _ _)]
      simp only [skipWhitespace_colon, get_cons, ne_eq, not_true_eq_false, if_false]
      rw [parse_mono hn (le_max_left _ _)]
      rfl
    | cons y r2 =>
      obtain ⟨n1, hn1⟩ := hv (k, x) (List.mem_cons_self _ _)
        (',' :: (serialize.serializeEntries (y :: r2) ++ '}' :: rest)) (numberEnds_comma _)
      obtain ⟨n2, hn2⟩ := ih (by simp) (fun z hz => hk z (List.mem_cons_of_mem _ hz))
        (fun z hz => hv z (List.mem_cons_of_mem _ hz)) (mapStore k x (mapIndex k acc))
      refine ⟨max (max n1 n2) (k.length + 1) + 1, ?_⟩
      rw [parseObjectLoop_succ]
      simp only [serialize.serializeEntries, List.append_assoc, List.cons_append,
        skipWhitespace_quote, peek_cons, ne_eq, not_true_eq_false, if_false]
      rw [parseStringValue_plain_le k hkp _ _ (le_max_right _ _)]
      simp only [skipWhitespace_colon, get_cons, ne_eq, not_true_eq_false, if_false]
      rw [parse_mono hn1 (le_trans (le_max_left n1 n2) (le_max_left _ _))]
      have := parseObjectLoop_mono hn2 (le_trans (le_max_right n1 n2) (le_max_left _ (k.length + 1)))
      rw [assignAll_cons]
      exact this

/-! ### The order of keys, and maps -/

/-- No string is less than itself. -/
theorem strLt_irrefl (a : Str) : strLt a a = false := by
  induction a with
  | nil => rfl
  | cons c r ih => simp [strLt, ih]

/-- The order of strings is transitive. -/
theorem strLt_trans : ∀ (a b c : Str), strLt a b = true → strLt b c = true → strLt a c = true := by
  intro a
  induction a with
  | nil =>
    intro b c h1 h2
    cases b with
    | nil => simp [strLt] at h1
    | cons y b =>
      cases c with
      | nil => simp [strLt] at h2
      | cons z c => simp [strLt]
  | cons x a ih =>
    intro b c h1 h2
    cases b with
    | nil => simp [strLt] at h1
    | cons y b =>
      cases c with
      | nil => simp [strLt] at h2
      | cons z c =>
        simp only [strLt] at h1 h2 ⊢
        split_ifs at h1 h2 ⊢ with p1 p2 p3 p4 p5 p6 <;> first
          | rfl
          | omega
          | exact ih b c h1 h2

/-- The order of strings is asymmetric. -/
theorem strLt_asymm (a b : Str) (h : strLt a b = true) : strLt b a = false := by
  cases hb : strLt b a with
  | false => rfl
  | true => have := strLt_trans a b a h hb; rw [strLt_irrefl] at this; exact absurd this (by simp)

/-- Two strings neither of which is less than the other are equal. -/
theorem strLt_connex : ∀ (a b : Str), strLt a b = false → strLt b a = false → a = b := by
  intro a
  induction a with
  | nil =>
    intro b h1 h2
    cases b with
    | nil => rfl
    | cons y b => simp [strLt] at h1
  | cons x a ih =>
    intro b h1 h2
    cases b with
    | nil => simp [strLt] at h2
    | cons y b =>
      simp only [strLt] at h1 h2
      by_cases p1 : x.toNat < y.toNat
      · simp [p1] at h1
      · by_cases p2 : y.toNat < x.toNat
        · simp [p2] at h2
        · simp only [p1, p2, if_false] at h1 h2
          have hxy : x = y := by
            apply Char.ext; apply UInt32.ext
            have : x.toNat = y.toNat := by omega
            exact this
          rw [hxy, ih b h1 h2]

/-- Entries are in ascending key order when the first key is less than every later key and the later entries are in ascending key order. -/
theorem keysAscending_cons (k : Str) (v : Value) (l : ObjectType) :
    keysAscending ((k, v) :: l) = true ↔
      (∀ kv ∈ l, strLt k kv.1 = true) ∧ keysAscending l = true := by
  induction l generalizing k v with
  | nil => simp [keysAscending]
  | cons kv r ih =>
    obtain ⟨k2, v2⟩ := kv
    simp only [keysAscending, Bool.and_eq_true, List.mem_cons, forall_eq_or_imp]
    constructor
    · rintro ⟨h1, h2⟩
      refine ⟨⟨h1, ?_⟩, h2⟩
      intro kv hkv
      exact strLt_trans _ _ _ h1 (((ih k2 v2).1 h2).1 kv hkv)
    · rintro ⟨⟨h1, _⟩, h2⟩
      exact ⟨h1, h2⟩

/-- In ascending entries every key is less than the keys after it. -/
theorem keysAscending_append_cons (a : ObjectType) (k : Str) (x : Value) (r : ObjectType)
    (h : keysAscending (a ++ (k, x) :: r) = true) : ∀ kv ∈ a, strLt kv.1 k = true := by
  induction a with
  | nil => simp
  | cons kv a ih =>
    obtain ⟨k1, v1⟩ := kv
    rw [List.cons_append, keysAscending_cons] at h
    intro kv hkv
    rcases List.mem_cons.1 hkv with rfl | hmem
    · exact h.1 (k, x) (by simp)
    · exact ih h.2 kv hmem

/-- `std::map::operator[]` with a key greater than every key of the map appends an entry. -/
theorem mapIndex_of_allLt (k : Str) (o : ObjectType) (h : ∀ kv ∈ o, strLt kv.1 k = true) :
    mapIndex k o = o ++ [(k, Value.null)] := by
  induction o with
  | nil => rfl
  | cons kv r ih =>
    obtain ⟨k1, v1⟩ := kv
    have h1 : strLt k1 k = true := h (k1, v1) (List.mem_cons_self _ _)
    simp [mapIndex, h1, ih (fun kv hkv => h kv (List.mem_cons_of_mem _ hkv))]

/-- Assignment to the last entry of a map. -/
theorem mapStore_of_allLt (k : Str) (v x : Value) (o : ObjectType)
    (h : ∀ kv ∈ o, strLt kv.1 k = true) : mapStore k v (o ++ [(k, x)]) = o ++ [(k, v)] := by
  induction o with
  | nil => simp [mapStore, strLt_irrefl]
  | cons kv r ih =>
    obtain ⟨k1, v1⟩ := kv
    have h1 : strLt k1 k = true := h (k1, v1) (List.mem_cons_self _ _)
    simp [mapStore, h1, ih (fun kv hkv => h kv (List.mem_cons_of_mem _ hkv))]

/-- Assigning the entries of an ascending sequence one after another appends them. -/
theorem assignAll_of_ascending (kvs : List (Str × Value)) (acc : ObjectType)
    (h : keysAscending (acc ++ kvs) = true) : assignAll acc kvs = acc ++ kvs := by
  induction kvs generalizing acc with
  | nil => simp [assignAll]
  | cons kv r ih =>
    obtain ⟨k, x⟩ := kv
    have hlt := keysAscending_append_cons acc k x r h
    rw [assignAll_cons, mapIndex_of_allLt k acc hlt, mapStore_of_allLt k x _ acc hlt]
    have e : acc ++ (k, x) :: r = (acc ++ [(k, x)]) ++ r := by simp
    rw [e] at h ⊢
    exact ih _ h

/-! ### The round trip -/

/-- A plain decimal starts with a minus sign or a digit. -/
theorem isPlainDecimal_head (t : Str) (ht : isPlainDecimal t = true) :
    ∃ c r, t = c :: r ∧ (c = '-' ∨ isdigit c = true) := by
  obtain ⟨sign, ip, fr, rfl, h1, h2, h3, _⟩ := isPlainDecimal_split t ht
  obtain ⟨d, ip2, rfl⟩ : ∃ d ip2, ip = d :: ip2 := by
    cases ip with
    | nil => exact absurd rfl h2
    | cons d r => exact ⟨d, r, rfl⟩
  rcases h1 with rfl | rfl
  · exact ⟨d, ip2 ++ fr, by simp, Or.inr (h3 d (List.mem_cons_self _ _))⟩
  · exact ⟨'-', d :: ip2 ++ fr, by simp, Or.inl rfl⟩

/-- A minus sign or digit is no whitespace and none of the other characters `parse` dispatches on. -/
theorem number_start (c : Char) (h : c = '-' ∨ isdigit c = true) :
    isspace c = false ∧ c ≠ '{' ∧ c ≠ '[' ∧ c ≠ '"' ∧ c ≠ 't' ∧ c ≠ 'f' ∧ c ≠ 'n' ∧ c ≠ ']' := by
  rcases h with rfl | h
  · decide
  · refine ⟨?_, ?_, ?_, ?_, ?_, ?_, ?_, ?_⟩
    · simp only [isdigit, isspace, decide_eq_true_eq, decide_eq_false_iff_not] at h ⊢
      omega
    all_goals (intro hc; subst hc; revert h; decide)

/-- On a minus sign or a digit `parse` calls `parseNumber`. -/
theorem parse_number_start (fuel : Nat) (c : Char) (r : Str) (h : c = '-' ∨ isdigit c = true) :
    parse (fuel + 1) (c :: r) = some (parseNumber (c :: r)) := by
  obtain ⟨h0, h1, h2, h3, h4, h5, h6, _⟩ := number_start c h
  have h' : (c = '-' ∨ isdigit c = true) = True := eq_true h
  simp only [parse, skipWhitespace, h0, eof, peek_cons, List.isEmpty_cons, h1, h2, h3, h4, h5, h6,
    h', if_true, or_self, Bool.false_eq_true, if_false]

/-- The text of a plain value starts with a character that is no whitespace and no closing bracket. -/
theorem serialize_head (v : Value) (hp : v.plain = true) :
    ∃ c t, serialize v = c :: t ∧ isspace c = false ∧ c ≠ ']' := by
  cases v with
  | null => exact ⟨'n', _, rfl, by decide, by decide⟩
  | boolean b => cases b <;> exact ⟨_, _, rfl, by decide, by decide⟩
  | number d =>
    simp only [Value.plain, Double.readsBack, Bool.and_eq_true] at hp
    obtain ⟨c, r, hc, hh⟩ := isPlainDecimal_head _ hp.1
    have := number_start c hh
    exact ⟨c, r, hc, this.1, this.2.2.2.2.2.2.2⟩
  | string s => exact ⟨'"', _, rfl, by decide, by decide⟩
  | array a => exact ⟨'[', _, rfl, by decide, by decide⟩
  | object o => exact ⟨'{', _, rfl, by decide, by decide⟩

/-- A number whose text reads back is read back by `parse`. -/
theorem readsBack_number (d : Double) (hp : d.readsBack = true) : ReadsBack (Value.number d) := by
  intro rest hr
  simp only [Double.readsBack, Bool.and_eq_true, decide_eq_true_eq] at hp
  obtain ⟨c, r, hc, hh⟩ := isPlainDecimal_head _ hp.1
  refine ⟨1, ?_⟩
  have e : serialize (Value.number d) = d.format := rfl
  rw [e]
  have hn := isPlainDecimal_parseNumber d.format d hp.1 hp.2 rest hr
  rw [hc] at hn ⊢
  rw [List.cons_append] at hn ⊢
  rw [parse_number_start 0 c _ hh, hn]

/-- A plain string is read back by `parse`. -/
theorem readsBack_string (s : Str) (hp : plainStr s = true) : ReadsBack (Value.string s) := by
  intro rest _
  refine ⟨s.length + 2, ?_⟩
  have e : serialize (Value.string s) ++ rest = '"' :: (s ++ '"' :: rest) := by
    simp [serialize]
  rw [e]
  have h1 : parse (s.length + 1 + 1) ('"' :: (s ++ '"' :: rest)) =
      parseString (s.length + 1) ('"' :: (s ++ '"' :: rest)) := rfl
  rw [h1]
  unfold parseString
  rw [parseStringValue_plain_le s hp rest _ (le_refl _)]

/-- An array is read back when its elements are. -/
theorem readsBack_array (a : List Value) (ha : ∀ x ∈ a, ReadsBack x)
    (hp : ∀ x ∈ a, x.plain = true) : ReadsBack (Value.array a) := by
  intro rest _
  cases a with
  | nil => exact ⟨2, rfl⟩
  | cons x r =>
    obtain ⟨n, hn⟩ := parseArrayLoop_elements (x :: r) (by simp) ha [] rest
    refine ⟨n + 2, ?_⟩
    obtain ⟨c, t, hc, hs, hb⟩ := serialize_head x (hp x (List.mem_cons_self _ _))
    have hhead : ∃ t2, serialize.serializeElements (x :: r) ++ ']' :: rest = c :: t2 := by
      cases r with
      | nil => exact ⟨t ++ ']' :: rest, by simp [serialize.serializeElements, hc]⟩
      | cons y r2 => exact ⟨_, by simp only [serialize.serializeElements, hc, List.cons_append]; rfl⟩
    obtain ⟨t2, ht2⟩ := hhead
    have e : serialize (Value.array (x :: r)) ++ rest =
        '[' :: (serialize.serializeElements (x :: r) ++ ']' :: rest) := by
      simp [serialize]
    rw [e]
    have h1 : parse (n + 1 + 1) ('[' :: (serialize.serializeElements (x :: r) ++ ']' :: rest)) =
        parseArray (n + 1) ('[' :: (serialize.serializeElements (x :: r) ++ ']' :: rest)) := rfl
    rw [h1]
    simp only [parseArray, get_cons]
    rw [ht2] at hn ⊢
    simp only [skipWhitespace, hs, peek_cons, hb, if_false, Bool.false_eq_true]
    simpa using hn

/-- The text of an object with the members `o` is read as the object that assigning the members builds. -/
theorem readsBack_object (o : ObjectType) (hk : ∀ kv ∈ o, plainStr kv.1 = true)
    (hv : ∀ kv ∈ o, ReadsBack kv.2) (rest : Str) :
    ∃ n, parse n ('{' :: (serialize.serializeEntries o ++ '}' :: rest)) =
      some (.ok (Value.object (assignAll [] o), rest)) := by
  cases o with
  | nil => exact ⟨2, rfl⟩
  | cons kx r =>
    obtain ⟨n, hn⟩ := parseObjectLoop_entries (kx :: r) (by simp) hk hv [] rest
    refine ⟨n + 2, ?_⟩
    obtain ⟨k, x⟩ := kx
    have hhead : ∃ t2, serialize.serializeEntries ((k, x) :: r) ++ '}' :: rest = '"' :: t2 := by
      cases r with
      | nil => exact ⟨_, by simp only [serialize.serializeEntries, List.cons_append]; rfl⟩
      | cons y r2 => exact ⟨_, by simp only [serialize.serializeEntries, List.cons_append]; rfl⟩
    obtain ⟨t2, ht2⟩ := hhead
    have h1 : parse (n + 1 + 1) ('{' :: (serialize.serializeEntries ((k, x) :: r) ++ '}' :: rest)) =
        parseObject (n + 1) ('{' :: (serialize.serializeEntries ((k, x) :: r) ++ '}' :: rest)) := rfl
    rw [h1]
    simp only [parseObject, get_cons]
    rw [ht2] at hn ⊢
    simp only [skipWhitespace_quote, peek_cons]
    simpa using hn

mutual

/-- Every well-formed plain `Value` is read back from its text. -/
theorem readsBack_of_plain (v : Value) (hp : v.plain = true) (hw : v.wellFormed = true) :
    ReadsBack v :=
  match v with
  | .null => fun rest _ => ⟨1, rfl⟩
  | .boolean true => fun rest _ => ⟨1, rfl⟩
  | .boolean false => fun rest _ => ⟨1, rfl⟩
  | .number d => readsBack_number d (by simpa [Value.plain] using hp)
  | .string s => readsBack_string s (by simpa [Value.plain] using hp)
  | .array a => by
    have h1 : Value.plain.elements a = true := by simpa [Value.plain] using hp
    have h2 : Value.wellFormed.elements a = true := by simpa [Value.wellFormed] using hw
    have := readsBack_elements a h1 h2
    exact readsBack_array a (fun x hx => (this x hx).2) (fun x hx => (this x hx).1)
  | .object o => by
    have h1 : Value.plain.entries o = true := by simpa [Value.plain] using hp
    simp only [Value.wellFormed, Bool.and_eq_true] at hw
    have := readsBack_entries o h1 hw.2
    intro rest _
    obtain ⟨n, hn⟩ := readsBack_object o (fun kv hkv => (this kv hkv).1)
      (fun kv hkv => (this kv hkv).2) rest
    refine ⟨n, ?_⟩
    have e : serialize (Value.object o) ++ rest = '{' :: (serialize.serializeEntries o ++ '}' :: rest) := by
      simp [serialize]
    rw [e, hn, assignAll_of_ascending o [] (by simpa using hw.1)]
    simp

/-- Every element of a list of well-formed plain values is plain and is read back. -/
theorem readsBack_elements (a : List Value) (hp : Value.plain.elements a = true)
    (hw : Value.wellFormed.elements a = true) : ∀ x ∈ a, x.plain = true ∧ ReadsBack x :=
  match a with
  | [] => fun x hx => absurd hx (List.not_mem_nil x)
  | y :: r => by
    simp only [Value.plain.elements, Value.wellFormed.elements, Bool.and_eq_true] at hp hw
    intro x hx
    rcases List.mem_cons.1 hx with rfl | hmem
    · exact ⟨hp.1, readsBack_of_plain _ hp.1 hw.1⟩
    · exact readsBack_elements r hp.2 hw.2 x hmem

/-- Every entry of a list of well-formed plain entries has a plain key and a value that is read
back. -/
theorem readsBack_entries (o : List (Str × Value)) (hp : Value.plain.entries o = true)
    (hw : Value.wellFormed.entries o = true) : ∀ kv ∈ o, plainStr kv.1 = true ∧ ReadsBack kv.2 :=
  match o with
  | [] => fun x hx => absurd hx (List.not_mem_nil x)
  | (k, y) :: r => by
    simp only [Value.plain.entries, Value.wellFormed.entries, Bool.and_eq_true] at hp hw
    intro kv hx
    rcases List.mem_cons.1 hx with rfl | hmem
    · exact ⟨hp.1.1, readsBack_of_plain _ hp.1.2 hw.1⟩
    · exact readsBack_entries r hp.2 hw.2 kv hmem

end

/-! ### Assignment to a key -/

/-- A string less than another differs from it. -/
theorem strLt_ne (a b : Str) (h : strLt a b = true) : a ≠ b := by
  intro e; subst e; rw [strLt_irrefl] at h; exact absurd h (by simp)

/-- After `o[k] = v` the map holds `v` for `k`. -/
theorem mapFind_set_same (k : Str) (v : Value) (o : ObjectType) :
    mapFind k (mapStore k v (mapIndex k o)) = some v := by
  induction o with
  | nil => simp [mapIndex, mapStore, mapFind, strLt_irrefl]
  | cons kv r ih =>
    obtain ⟨k1, v1⟩ := kv
    by_cases h1 : strLt k1 k = true
    · simp [mapIndex, mapStore, mapFind, h1, ih]
    · by_cases h2 : strLt k k1 = true
      · simp [mapIndex, mapStore, mapFind, h1, h2, strLt_irrefl]
      · simp [mapIndex, mapStore, mapFind, h1, h2]

/-- `o[k] = v` changes no lookup of another key. -/
theorem mapFind_set_other (k k2 : Str) (v : Value) (o : ObjectType) (hne : k2 ≠ k) :
    mapFind k2 (mapStore k v (mapIndex k o)) = mapFind k2 o := by
  induction o with
  | nil =>
    simp only [mapIndex, mapStore, mapFind, strLt_irrefl, Bool.false_eq_true, if_false]
    by_cases h1 : strLt k k2 = true
    · simp [h1]
    · by_cases h2 : strLt k2 k = true
      · simp [h1, h2]
      · exact absurd (strLt_connex k2 k (by simpa using h2) (by simpa using h1)) hne
  | cons kv r ih =>
    obtain ⟨k1, v1⟩ := kv
    by_cases h1 : strLt k1 k = true
    · simp only [mapIndex, mapStore, mapFind, h1, if_true, ih]
    · by_cases h2 : strLt k k1 = true
      · simp only [mapIndex, mapStore, mapFind, h1, h2, if_true, if_false, strLt_irrefl,
          Bool.false_eq_true]
        by_cases h3 : strLt k k2 = true
        · simp [h3]
        · by_cases h4 : strLt k2 k = true
          · have h5 : strLt k2 k1 = true := strLt_trans _ _ _ h4 h2
            have h6 : strLt k1 k2 = false := strLt_asymm _ _ h5
            simp [h3, h4, h5, h6]
          · exact absurd (strLt_connex k2 k (by simpa using h4) (by simpa using h3)) hne
      · simp only [mapIndex, mapStore, mapFind, h1, h2, if_false]
        have e1 : k1 = k := strLt_connex k1 k (by simpa using h1) (by simpa using h2)
        subst e1
        by_cases h3 : strLt k1 k2 = true
        · simp [h3]
        · by_cases h4 : strLt k2 k1 = true
          · simp [h3, h4]
          · exact absurd (strLt_connex k2 k1 (by simpa using h4) (by simpa using h3)) hne

/-- `o[k] = v` adds one entry when `k` was absent and none otherwise. -/
theorem length_set (k : Str) (v : Value) (o : ObjectType) :
    (mapStore k v (mapIndex k o)).length = o.length + (if (mapFind k o).isSome then 0 else 1) := by
  induction o with
  | nil => simp [mapIndex, mapStore, mapFind, strLt_irrefl]
  | cons kv r ih =>
    obtain ⟨k1, v1⟩ := kv
    by_cases h1 : strLt k1 k = true
    · simp only [mapIndex, mapStore, mapFind, h1, if_true, List.length_cons, ih]; omega
    · by_cases h2 : strLt k k1 = true
      · simp [mapIndex, mapStore, mapFind, h1, h2, strLt_irrefl]
      · simp [mapIndex, mapStore, mapFind, h1, h2]

/-- `o[k] = v` keeps exactly the entries of the other keys. -/
theorem mem_set_other (k : Str) (v : Value) (o : ObjectType) (kv : Str × Value) (hne : kv.1 ≠ k) :
    kv ∈ mapStore k v (mapIndex k o) ↔ kv ∈ o := by
  have hkv : ∀ w, kv ≠ (k, w) := fun w e => hne (by rw [e])
  induction o with
  | nil => simp [mapIndex, mapStore, strLt_irrefl, hkv]
  | cons e r ih =>
    obtain ⟨k1, v1⟩ := e
    by_cases h1 : strLt k1 k = true
    · simp [mapIndex, mapStore, h1, ih]
    · by_cases h2 : strLt k k1 = true
      · simp [mapIndex, mapStore, h1, h2, strLt_irrefl, hkv]
      · have e1 : k1 = k := strLt_connex k1 k (by simpa using h1) (by simpa using h2)
        subst e1
        simp [mapIndex, mapStore, h1, hkv]

/-- An entry of the map after `o[k] = v` has the key `k` or was there before. -/
theorem keys_set (k : Str) (v : Value) (o : ObjectType) (kv : Str × Value)
    (h : kv ∈ mapStore k v (mapIndex k o)) : kv.1 = k ∨ kv ∈ o := by
  by_cases e : kv.1 = k
  · exact Or.inl e
  · exact Or.inr ((mem_set_other k v o kv e).1 h)

/-- `o[k] = v` keeps the entries in ascending key order. -/
theorem keysAscending_set (k : Str) (v : Value) (o : ObjectType) (h : keysAscending o = true) :
    keysAscending (mapStore k v (mapIndex k o)) = true := by
  induction o with
  | nil => simp [mapIndex, mapStore, strLt_irrefl, keysAscending]
  | cons e r ih =>
    obtain ⟨k1, v1⟩ := e
    rw [keysAscending_cons] at h
    by_cases h1 : strLt k1 k = true
    · simp only [mapIndex, mapStore, h1, if_true]
      rw [keysAscending_cons]
      refine ⟨?_, ih h.2⟩
      intro kv hkv
      rcases keys_set k v r kv hkv with e | hm
      · rw [e]; exact h1
      · exact h.1 kv hm
    · by_cases h2 : strLt k k1 = true
      · simp only [mapIndex, mapStore, h1, h2, if_true, if_false, strLt_irrefl, Bool.false_eq_true]
        rw [keysAscending_cons]
        refine ⟨?_, (keysAscending_cons k1 v1 r).2 h⟩
        intro kv hkv
        rcases List.mem_cons.1 hkv with rfl | hm
        · exact h2
        · exact strLt_trans _ _ _ h2 (h.1 kv hm)
      · simp only [mapIndex, mapStore, h1, h2, if_false]
        exact (keysAscending_cons k1 v r).2 h

/-- In ascending entries at most one entry has the key `k`: the one `find` finds. -/
theorem filter_key_of_ascending (k : Str) (o : ObjectType) (h : keysAscending o = true) :
    o.filter (fun kv => decide (kv.1 = k)) =
      match mapFind k o with
      | some v => [(k, v)]
      | none => [] := by
  induction o with
  | nil => rfl
  | cons e r ih =>
    obtain ⟨k1, v1⟩ := e
    rw [keysAscending_cons] at h
    have hgt : strLt k k1 = true ∨ k = k1 → r.filter (fun kv => decide (kv.1 = k)) = [] := by
      intro hk
      rw [List.filter_eq_nil_iff]
      intro kv hkv
      have h3 : strLt k kv.1 = true := by
        rcases hk with hk | hk
        · exact strLt_trans _ _ _ hk (h.1 kv hkv)
        · rw [hk]; exact h.1 kv hkv
      simpa using (strLt_ne _ _ h3).symm
    by_cases h1 : strLt k1 k = true
    · have : k1 ≠ k := strLt_ne _ _ h1
      simp only [List.filter_cons, this, decide_False, Bool.false_eq_true, if_false, mapFind, h1,
        if_true]
      exact ih h.2
    · by_cases h2 : strLt k k1 = true
      · have : k1 ≠ k := (strLt_ne _ _ h2).symm
        simp only [List.filter_cons, this, decide_False, Bool.false_eq_true, if_false, mapFind, h1,
          h2, if_true]
        exact hgt (Or.inl h2)
      · have e1 : k1 = k := strLt_connex k1 k (by simpa using h1) (by simpa using h2)
        subst e1
        simp only [List.filter_cons, decide_True, if_true, mapFind, h1, if_false]
        rw [hgt (Or.inr rfl)]
        simp

/-- Assigning members one after another keeps the entries in ascending key order. -/
theorem keysAscending_assignAll (kvs : List (Str × Value)) (acc : ObjectType)
    (h : keysAscending acc = true) : keysAscending (assignAll acc kvs) = true := by
  induction kvs generalizing acc with
  | nil => exact h
  | cons kv r ih =>
    obtain ⟨k, x⟩ := kv
    rw [assignAll_cons]
    exact ih _ (keysAscending_set k x acc h)

/-- After assigning the members `kvs` the map holds for `k` the value of the last member with that key, or what it held before when there is none. -/
theorem mapFind_assignAll (k : Str) (kvs : List (Str × Value)) (acc : ObjectType) :
    mapFind k (assignAll acc kvs) =
      match lastValue k kvs with
      | some v => some v
      | none => mapFind k acc := by
  induction kvs generalizing acc with
  | nil => rfl
  | cons kv r ih =>
    obtain ⟨k1, v1⟩ := kv
    rw [assignAll_cons, ih]
    simp only [lastValue]
    cases lastValue k r with
    | some v => rfl
    | none =>
      by_cases e : k1 = k
      · subst e; simp [mapFind_set_same]
      · simp [e, mapFind_set_other k1 k v1 acc (fun h => e h.symm)]

/-! ### Strings without end, and whitespace -/

/-- On a text without double quote and backslash the string loop uses up any fuel: at the end of the input `get` returns `eofChar` again and again. -/
theorem parseStringLoop_unterminated (fuel : Nat) : ∀ (s acc : Str), plainStr s = true →
    parseStringLoop fuel s acc = none := by
  induction fuel with
  | zero => intro s acc _; rfl
  | succ n ih =>
    intro s acc hs
    rw [parseStringLoop_succ]
    cases s with
    | nil =>
      have h1 : (Parser.get ([] : Str)).1 ≠ '"' := by decide
      have h2 : (Parser.get ([] : Str)).1 ≠ '\\' := by decide
      simp only [h1, h2, if_false]
      exact ih _ _ hs
    | cons c r =>
      simp only [plainStr, List.all_cons, Bool.and_eq_true, decide_eq_true_eq] at hs
      simp only [get_cons, hs.1.1, hs.1.2, if_false]
      exact ih _ _ hs.2

/-- `skipWhitespace` consumes a text of whitespace. -/
theorem skipWhitespace_of_all (s : Str) (h : ∀ c ∈ s, isspace c = true) :
    skipWhitespace s = [] := by
  induction s with
  | nil => rfl
  | cons c r ih =>
    have hc : isspace c = true := h c (List.mem_cons_self _ _)
    have hr : ∀ d ∈ r, isspace d = true := fun d hd => h d (List.mem_cons_of_mem _ hd)
    simp [skipWhitespace, hc, ih hr]

/-- After `skipWhitespace` there is no whitespace to skip. -/
theorem skipWhitespace_idem (s : Str) : skipWhitespace (skipWhitespace s) = skipWhitespace s := by
  induction s with
  | nil => rfl
  | cons c r ih =>
    by_cases h : isspace c = true
    · simp [skipWhitespace, h, ih]
    · simp [skipWhitespace, h]

/-- `skipWhitespace` consumes leading whitespace. -/
theorem skipWhitespace_append (ws is : Str) (h : ∀ c ∈ ws, isspace c = true) :
    skipWhitespace (ws ++ is) = skipWhitespace is := by
  induction ws with
  | nil => rfl
  | cons c r ih =>
    have hc : isspace c = true := h c (List.mem_cons_self _ _)
    simp [skipWhitespace, hc, ih (fun d hd => h d (List.mem_cons_of_mem _ hd))]

/-- Whitespace before a value does not change what `parse` returns. -/
theorem parse_leading_whitespace (ws is : Str) (h : ∀ c ∈ ws, isspace c = true) (fuel : Nat) :
    parse fuel (ws ++ is) = parse fuel is := by
  cases fuel with
  | zero => rfl
  | succ n => simp only [parse, skipWhitespace_append ws is h]

/-! ### What the parser returns is well formed -/

/-- `o[k] = v` with a well-formed `v` keeps the entry values well formed. -/
theorem wellFormed_entries_set (k : Str) (val : Value) (o : ObjectType)
    (ho : Value.wellFormed.entries o = true) (hv : val.wellFormed = true) :
    Value.wellFormed.entries (mapStore k val (mapIndex k o)) = true := by
  induction o with
  | nil => simp [mapIndex, mapStore, strLt_irrefl, Value.wellFormed.entries, hv]
  | cons e r ih =>
    obtain ⟨k1, v1⟩ := e
    simp only [Value.wellFormed.entries, Bool.and_eq_true] at ho
    by_cases h1 : strLt k1 k = true
    · simp [mapIndex, mapStore, h1, Value.wellFormed.entries, ho.1, ih ho.2]
    · by_cases h2 : strLt k k1 = true
      · simp [mapIndex, mapStore, h1, h2, strLt_irrefl, Value.wellFormed.entries, ho.1, ho.2, hv]
      · simp [mapIndex, mapStore, h1, h2, Value.wellFormed.entries, ho.2, hv]

/-- Appending a well-formed element keeps the elements well formed. -/
theorem wellFormed_elements_append (a : ArrayType) (val : Value)
    (ha : Value.wellFormed.elements a = true) (hv : val.wellFormed = true) :
    Value.wellFormed.elements (a ++ [val]) = true := by
  induction a with
  | nil => simp [Value.wellFormed.elements, hv]
  | cons x r ih =>
    simp only [Value.wellFormed.elements, Bool.and_eq_true, List.cons_append] at ha ⊢
    exact ⟨ha.1, ih ha.2⟩

/-- `x[key] = val` on a well-formed `x` with a well-formed `val` gives a well-formed `Value`. -/
theorem wellFormed_assign_key (acc val v2 : Value) (key : Str) (ha : acc.wellFormed = true)
    (hv : val.wellFormed = true) (h : acc.assign_key key val = .ok v2) :
    v2.wellFormed = true := by
  cases acc with
  | object o =>
    simp only [Value.assign_key, Value.index_key, Except.ok.injEq] at h
    subst h
    simp only [Value.wellFormed, Bool.and_eq_true] at ha ⊢
    exact ⟨keysAscending_set key val o ha.1, wellFormed_entries_set key val o ha.2 hv⟩
  | null =>
    simp only [Value.assign_key, Value.index_key, Except.ok.injEq] at h
    subst h
    simp [Value.wellFormed, mapIndex, mapStore, strLt_irrefl, keysAscending,
      Value.wellFormed.entries, hv]
  | boolean b => simp [Value.assign_key, Value.index_key] at h
  | number d => simp [Value.assign_key, Value.index_key] at h
  | string s => simp [Value.assign_key, Value.index_key] at h
  | array a => simp [Value.assign_key, Value.index_key] at h

/-- `push_back` of a well-formed `Value` on a well-formed one gives a well-formed `Value`. -/
theorem wellFormed_push_back (acc val v2 : Value) (ha : acc.wellFormed = true)
    (hv : val.wellFormed = true) (h : acc.push_back val = .ok v2) : v2.wellFormed = true := by
  cases acc with
  | array a =>
    simp only [Value.push_back, Except.ok.injEq] at h
    subst h
    simp only [Value.wellFormed] at ha ⊢
    exact wellFormed_elements_append a val ha hv
  | null =>
    simp only [Value.push_back, Except.ok.injEq] at h
    subst h
    simp [Value.wellFormed, Value.wellFormed.elements, hv]
  | boolean b => simp [Value.push_back] at h
  | number d => simp [Value.push_back] at h
  | string s => simp [Value.push_back] at h
  | object o => simp [Value.push_back] at h

/-- What `parseBoolean` returns is well formed. -/
theorem wellFormed_parseBoolean (is : Str) (v : Value) (r : Str)
    (h : parseBoolean is = .ok (v, r)) : v.wellFormed = true := by
  unfold parseBoolean at h
  split_ifs at h <;> simp only [Except.ok.injEq, Prod.mk.injEq] at h <;> rw [← h.1] <;> rfl

/-- What `parseNumber` returns is well formed. -/
theorem wellFormed_parseNumber (is : Str) (v : Value) (r : Str)
    (h : parseNumber is = .ok (v, r)) : v.wellFormed = true := by
  unfold parseNumber at h
  simp only at h
  split_ifs at h <;>
    (split at h <;> first
      | (simp only [Except.ok.injEq, Prod.mk.injEq] at h; rw [← h.1]; rfl)
      | simp at h)

/-- What any of the five mutually recursive routines returns is well formed, the loops given a well-formed `Value` to build on. -/
theorem parse_wellFormed_all (n : Nat) :
    (∀ is v r, parse n is = some (.ok (v, r)) → v.wellFormed = true) ∧
    (∀ is v r, parseObject n is = some (.ok (v, r)) → v.wellFormed = true) ∧
    (∀ is acc v r, acc.wellFormed = true → parseObjectLoop n is acc = some (.ok (v, r)) →
      v.wellFormed = true) ∧
    (∀ is v r, parseArray n is = some (.ok (v, r)) → v.wellFormed = true) ∧
    (∀ is acc v r, acc.wellFormed = true → parseArrayLoop n is acc = some (.ok (v, r)) →
      v.wellFormed = true) := by
  induction n with
  | zero =>
    refine ⟨?_, ?_, ?_, ?_, ?_⟩ <;> intros <;> rename_i h <;>
      simp [parse, parseObject, parseObjectLoop, parseArray, parseArrayLoop] at h
  | succ n ih =>
    obtain ⟨ihP, ihO, ihOL, ihA, ihAL⟩ := ih
    refine ⟨?_, ?_, ?_, ?_, ?_⟩
    · intro is v r h
      simp only [parse] at h
      split_ifs at h with h1 h2 h3 h4 h5 h6 h7
      · simp only [Option.some.injEq, Except.ok.injEq, Prod.mk.injEq] at h; rw [← h.1]; rfl
      · exact ihO _ _ _ h
      · exact ihA _ _ _ h
      · unfold parseString at h
        split at h
        · simp at h
        · simp only [Option.some.injEq, Except.ok.injEq, Prod.mk.injEq] at h; rw [← h.1]; rfl
      · exact wellFormed_parseBoolean _ _ _ (Option.some.inj h)
      · simp only [parseNull, Option.some.injEq, Except.ok.injEq, Prod.mk.injEq] at h
        rw [← h.1]; rfl
      · exact wellFormed_parseNumber _ _ _ (Option.some.inj h)
      · simp at h
    · intro is v r h
      simp only [parseObject] at h
      split_ifs at h with h1
      · simp only [Option.some.injEq, Except.ok.injEq, Prod.mk.injEq] at h; rw [← h.1]; rfl
      · exact ihOL _ (Value.object []) _ _ rfl h
    · intro is acc v r hacc h
      rw [parseObjectLoop_succ] at h
      by_cases h1 : peek (skipWhitespace is) ≠ '"'
      · rw [if_pos h1] at h; simp at h
      · rw [if_neg h1] at h
        cases hk : parseStringValue n (skipWhitespace is) with
        | none => simp [hk] at h
        | some p =>
          obtain ⟨key, is1⟩ := p
          simp only [hk] at h
          by_cases h2 : (Parser.get (skipWhitespace is1)).1 ≠ ':'
          · rw [if_pos h2] at h; simp at h
          · rw [if_neg h2] at h
            cases hp : parse n (Parser.get (skipWhitespace is1)).2 with
            | none => simp [hp] at h
            | some pr =>
              simp only [hp] at h
              cases pr with
              | error e => simp at h
              | ok vr =>
                obtain ⟨val, is2⟩ := vr
                simp only at h
                have hval := ihP _ _ _ hp
                cases ha : acc.assign_key key val with
                | error e => simp [ha] at h
                | ok v2 =>
                  have hv2 := wellFormed_assign_key acc val v2 key hacc hval ha
                  simp only [ha] at h
                  by_cases h3 : (Parser.get (skipWhitespace is2)).1 = '}'
                  · rw [if_pos h3] at h
                    simp only [Option.some.injEq, Except.ok.injEq, Prod.mk.injEq] at h
                    rw [← h.1]; exact hv2
                  · rw [if_neg h3] at h
                    by_cases h4 : (Parser.get (skipWhitespace is2)).1 ≠ ','
                    · rw [if_pos h4] at h; simp at h
                    · rw [if_neg h4] at h; exact ihOL _ _ _ _ hv2 h
    · intro is v r h
      simp only [parseArray] at h
      split_ifs at h with h1
      · simp only [Option.some.injEq, Except.ok.injEq, Prod.mk.injEq] at h; rw [← h.1]; rfl
      · exact ihAL _ (Value.array []) _ _ rfl h
    · intro is acc v r hacc h
      rw [parseArrayLoop_succ] at h
      cases hp : parse n is with
      | none => simp [hp] at h
      | some pr =>
        simp only [hp] at h
        cases pr with
        | error e => simp at h
        | ok vr =>
          obtain ⟨val, is2⟩ := vr
          simp only at h
          have hval := ihP _ _ _ hp
          cases ha : acc.push_back val with
          | error e => simp [ha] at h
          | ok v2 =>
            have hv2 := wellFormed_push_back acc val v2 hacc hval ha
            simp only [ha] at h
            by_cases h3 : (Parser.get (skipWhitespace is2)).1 = ']'
            · rw [if_pos h3] at h
              simp only [Option.some.injEq, Except.ok.injEq, Prod.mk.injEq] at h
              rw [← h.1]; exact hv2
            · rw [if_neg h3] at h
              by_cases h4 : (Parser.get (skipWhitespace is2)).1 ≠ ','
              · rw [if_pos h4] at h; simp at h
              · rw [if_neg h4] at h; exact ihAL _ _ _ _ hv2 h

/-- Whatever the text, a `Value` that `Value::parse` returns is well formed: in each of its
Objects the keys are strictly ascending, so no key occurs twice. -/
theorem Value.parse_wellFormed (fuel : Nat) (s : Str) (v : Value)
    (h : Value.parse fuel s = some (.ok v)) : v.wellFormed = true := by
  unfold Value.parse at h
  cases hp : Parser.parse fuel s with
  | none => simp [hp] at h
  | some pr =>
    cases pr with
    | error e => simp [hp] at h
    | ok vr =>
      obtain ⟨v2, r⟩ := vr
      simp only [hp, Option.some.injEq, Except.ok.injEq] at h
      rw [← h]
      exact (parse_wellFormed_all fuel).1 s v2 r hp

/-! ## The claims -/

/-- Claim C1, counterexample: the Number one million is written as `1e+06`, and the parser, which
knows no exponent, reads that text back as the Number one. -/
theorem C1_number_does_not_round_trip :
    serialize (Value.ofInt 1000000) = ['1', 'e', '+', '0', '6'] ∧
    (∀ fuel, Value.parse (fuel + 1) (serialize (Value.ofInt 1000000)) =
      some (.ok (Value.ofInt 1))) ∧
    Value.ofInt 1 ≠ Value.ofInt 1000000 :=
  ⟨by decide, fun _ => rfl, fun h => absurd (Value.number.inj h) (by decide)⟩

/-- Claim C1, as amended: for every well-formed `Value` whose strings and keys hold no double quote
and no backslash and whose numbers are written as plain decimals that `std::stod` reads back,
parsing the serialized text returns that very `Value`: with enough fuel the parser returns it, and
it never returns anything else. -/
theorem C1_round_trip_plain (v : Value) (hw : v.wellFormed = true) (hp : v.plain = true) :
    (∃ n, ∀ m, n ≤ m → Value.parse m (serialize v) = some (.ok v)) ∧
    (∀ m r, Value.parse m (serialize v) = some r → r = .ok v) := by
  obtain ⟨n, hn⟩ := readsBack_of_plain v hp hw [] numberEnds_nil
  rw [List.append_nil] at hn
  have key : ∀ m, n ≤ m → Value.parse m (serialize v) = some (.ok v) := by
    intro m hm
    simp [Value.parse, parse_mono hn hm]
  refine ⟨⟨n, key⟩, fun m r hr => ?_⟩
  have h1 := key (max n m) (le_max_left _ _)
  cases hp2 : parse m (serialize v) with
  | none => simp [Value.parse, hp2] at hr
  | some pr =>
    have h2 := parse_mono hp2 (le_max_right n m)
    simp only [Value.parse, hp2] at hr
    simp only [Value.parse, h2] at h1
    cases pr with
    | error e => simp at h1
    | ok vr =>
      obtain ⟨v2, r2⟩ := vr
      simp only [Option.some.injEq] at hr h1
      rw [← hr, h1]

/-- Claim C1, the amended statement at a tree with every kind of node. -/
theorem C1_round_trip_plain_witness :
    sampleTree.wellFormed = true ∧ sampleTree.plain = true ∧
      (∃ n, ∀ m, n ≤ m → Value.parse m (serialize sampleTree) = some (.ok sampleTree)) ∧
      (∀ m r, Value.parse m (serialize sampleTree) = some r → r = .ok sampleTree) :=
  ⟨by decide, by decide, C1_round_trip_plain sampleTree (by decide) (by decide)⟩

/-- Claim C2, the code at a failing input: on a text that opens a string literal and holds no
closing double quote (and no backslash), `Value::parse` never returns, whatever the fuel: the loop
of `parseStringValue` has no test for the end of the input. -/
theorem C2_unterminated_string_never_returns (s : Str) (hs : plainStr s = true) (fuel : Nat) :
    Value.parse fuel ('"' :: s) = none := by
  cases fuel with
  | zero => rfl
  | succ n =>
    have h1 : parse (n + 1) ('"' :: s) = parseString n ('"' :: s) := rfl
    simp only [Value.parse, h1, parseString, parseStringValue, get_cons,
      parseStringLoop_unterminated n s [] hs]

/-- Claim C2 at the text `"abc`. -/
theorem C2_unterminated_string_never_returns_witness :
    plainStr ['a', 'b', 'c'] = true ∧ ∀ fuel, Value.parse fuel ['"', 'a', 'b', 'c'] = none :=
  ⟨by decide, C2_unterminated_string_never_returns ['a', 'b', 'c'] (by decide)⟩

set_option maxRecDepth 100000 in
set_option exponentiation.threshold 2000 in
/-- A third outcome of `Value::parse`: a number of 310 digits makes `std::stod` throw
`std::out_of_range`, which is no `ParseError`. -/
theorem parse_huge_number_out_of_range (fuel : Nat) :
    Value.parse (fuel + 1) ('1' :: List.replicate 309 '0') = some (.error .StdOutOfRange) := by
  rfl

/-- Claim C3: structurally malformed input is rejected with `ParseError`.  Each routine throws
`ParseError` at the malformed point it reaches, (a) to (d), the end of the input counting as
malformed; and what an inner routine throws, the routines around it and `Value::parse` throw. -/
theorem C3_malformed_input_rejected (fuel : Nat) :
    -- (a) a value position holding a character that starts no value
    (∀ (is r : Str) (c : Char), skipWhitespace is = c :: r →
      c ≠ '{' → c ≠ '[' → c ≠ '"' → c ≠ 't' → c ≠ 'f' → c ≠ 'n' → c ≠ '-' → isdigit c = false →
      parse (fuel + 1) is = some (.error .ParseError)) ∧
    -- (d) a minus sign that no digit follows
    (∀ (is r : Str), skipWhitespace is = '-' :: r → isdigit (peek r) = false →
      parse (fuel + 1) is = some (.error .ParseError)) ∧
    -- (b) an object member that does not start with a double quote
    (∀ (is : Str) (v : Value), peek (skipWhitespace is) ≠ '"' →
      parseObjectLoop (fuel + 1) is v = some (.error .ParseError)) ∧
    (∀ (r : Str), peek (skipWhitespace r) ≠ '}' → peek (skipWhitespace r) ≠ '"' →
      parseObject (fuel + 2) ('{' :: r) = some (.error .ParseError)) ∧
    -- (b) a key that no colon follows
    (∀ (is : Str) (v : Value) (key is1 : Str), peek (skipWhitespace is) = '"' →
      parseStringValue fuel (skipWhitespace is) = some (key, is1) →
      (Parser.get (skipWhitespace is1)).1 ≠ ':' →
      parseObjectLoop (fuel + 1) is v = some (.error .ParseError)) ∧
    -- (c) an object member followed by neither comma nor closing brace
    (∀ (is : Str) (o : ObjectType) (key is1 : Str) (val : Value) (is2 : Str),
      peek (skipWhitespace is) = '"' →
      parseStringValue fuel (skipWhitespace is) = some (key, is1) →
      (Parser.get (skipWhitespace is1)).1 = ':' →
      parse fuel (Parser.get (skipWhitespace is1)).2 = some (.ok (val, is2)) →
      (Parser.get (skipWhitespace is2)).1 ≠ '}' → (Parser.get (skipWhitespace is2)).1 ≠ ',' →
      parseObjectLoop (fuel + 1) is (Value.object o) = some (.error .ParseError)) ∧
    -- (c) an array element followed by neither comma nor closing bracket
    (∀ (is : Str) (a : ArrayType) (val : Value) (is2 : Str),
      parse fuel is = some (.ok (val, is2)) →
      (Parser.get (skipWhitespace is2)).1 ≠ ']' → (Parser.get (skipWhitespace is2)).1 ≠ ',' →
      parseArrayLoop (fuel + 1) is (Value.array a) = some (.error .ParseError)) ∧
    -- the end of the input is none of the characters asked for
    (∀ (is : Str), skipWhitespace is = [] →
      peek (skipWhitespace is) ≠ '"' ∧ (Parser.get (skipWhitespace is)).1 ≠ ':' ∧
      (Parser.get (skipWhitespace is)).1 ≠ ',' ∧ (Parser.get (skipWhitespace is)).1 ≠ ']' ∧
      (Parser.get (skipWhitespace is)).1 ≠ '}') ∧
    -- an exception thrown while an element or a member value is parsed leaves the loop
    (∀ (is : Str) (v : Value) (e : Exn), parse fuel is = some (.error e) →
      parseArrayLoop (fuel + 1) is v = some (.error e)) ∧
    (∀ (is : Str) (v : Value) (key is1 : Str) (e : Exn), peek (skipWhitespace is) = '"' →
      parseStringValue fuel (skipWhitespace is) = some (key, is1) →
      (Parser.get (skipWhitespace is1)).1 = ':' →
      parse fuel (Parser.get (skipWhitespace is1)).2 = some (.error e) →
      parseObjectLoop (fuel + 1) is v = some (.error e)) ∧
    -- after a comma the loop goes on with the next element or member, whatever that yields
    (∀ (is : Str) (a : ArrayType) (val : Value) (is2 : Str),
      parse fuel is = some (.ok (val, is2)) → (Parser.get (skipWhitespace is2)).1 = ',' →
      parseArrayLoop (fuel + 1) is (Value.array a) =
        parseArrayLoop fuel (Parser.get (skipWhitespace is2)).2 (Value.array (a ++ [val]))) ∧
    (∀ (is : Str) (o : ObjectType) (key is1 : Str) (val : Value) (is2 : Str),
      peek (skipWhitespace is) = '"' →
      parseStringValue fuel (skipWhitespace is) = some (key, is1) →
      (Parser.get (skipWhitespace is1)).1 = ':' →
      parse fuel (Parser.get (skipWhitespace is1)).2 = some (.ok (val, is2)) →
      (Parser.get (skipWhitespace is2)).1 = ',' →
      parseObjectLoop (fuel + 1) is (Value.object o) =
        parseObjectLoop fuel (Parser.get (skipWhitespace is2)).2
          (Value.object (mapStore key val (mapIndex key o)))) ∧
    -- a container is parsed by its loop, and what the loop throws the container throws
    (∀ (is r : Str), skipWhitespace is = '[' :: r → peek (skipWhitespace r) ≠ ']' →
      parse (fuel + 2) is = parseArrayLoop fuel (skipWhitespace r) (Value.array [])) ∧
    (∀ (is r : Str), skipWhitespace is = '{' :: r → peek (skipWhitespace r) ≠ '}' →
      parse (fuel + 2) is = parseObjectLoop fuel (skipWhitespace r) (Value.object [])) ∧
    -- what the parser throws, `Value::parse` throws
    (∀ (s : Str) (e : Exn), parse fuel s = some (.error e) →
      Value.parse fuel s = some (.error e)) ∧
    -- the truncated text of the claim, and the one of `test_error_handling`
    Value.parse (fuel + 8) "\x7b\"key\":".toList = some (.error .ParseError) ∧
    Value.parse (fuel + 8) "\x7b \"key\": ".toList = some (.error .ParseError) := by
  refine ⟨?_, ?_, ?_, ?_, ?_, ?_, ?_, ?_, ?_, ?_, ?_, ?_, ?_, ?_, ?_, rfl, rfl⟩
  · intro is r c hs h1 h2 h3 h4 h5 h6 h7 h8
    simp [parse, hs, eof, peek_cons, h1, h2, h3, h4, h5, h6, h7, h8]
  · intro is r hs hd
    have h : parse (fuel + 1) is = some (parseNumber ('-' :: r)) := by
      simp [parse, hs, eof, peek_cons]
    rw [h]
    simp [parseNumber, peek_cons, get_cons, hd]
  · intro is v h
    rw [parseObjectLoop_succ]
    simp [h]
  · intro r h1 h2
    have e : parseObject (fuel + 1 + 1) ('{' :: r) =
        if peek (skipWhitespace r) = '}' then
          some (.ok (Value.object [], (Parser.get (skipWhitespace r)).2))
        else parseObjectLoop (fuel + 1) (skipWhitespace r) (Value.object []) := rfl
    rw [e, if_neg h1, parseObjectLoop_succ]
    have h3 : peek (skipWhitespace (skipWhitespace r)) ≠ '"' := by
      rw [skipWhitespace_idem]; exact h2
    simp [h3]
  · intro is v key is1 h1 h2 h3
    rw [parseObjectLoop_succ]
    simp [h1, h2, h3]
  · intro is o key is1 val is2 h1 h2 h3 h4 h5 h6
    rw [parseObjectLoop_succ]
    simp [h1, h2, h3, h4, h5, h6, Value.assign_key, Value.index_key]
  · intro is a val is2 h1 h2 h3
    rw [parseArrayLoop_succ]
    simp [h1, h2, h3, Value.push_back]
  · intro is h
    rw [h]
    decide
  · intro is v e h
    rw [parseArrayLoop_succ]
    simp [h]
  · intro is v key is1 e h1 h2 h3 h4
    rw [parseObjectLoop_succ]
    simp [h1, h2, h3, h4]
  · intro is a val is2 h1 h2
    rw [parseArrayLoop_succ]
    simp [h1, h2, Value.push_back]
  · intro is o key is1 val is2 h1 h2 h3 h4 h5
    rw [parseObjectLoop_succ]
    simp [h1, h2, h3, h4, h5, Value.assign_key, Value.index_key]
  · intro is r hs h
    have e : parse (fuel + 1 + 1) is = parseArray (fuel + 1) ('[' :: r) := by
      simp [parse, hs, eof, peek_cons]
    have e2 : parseArray (fuel + 1) ('[' :: r) =
        if peek (skipWhitespace r) = ']' then
          some (.ok (Value.array [], (Parser.get (skipWhitespace r)).2))
        else parseArrayLoop fuel (skipWhitespace r) (Value.array []) := rfl
    rw [e, e2, if_neg h]
  · intro is r hs h
    have e : parse (fuel + 1 + 1) is = parseObject (fuel + 1) ('{' :: r) := by
      simp [parse, hs, eof, peek_cons]
    have e2 : parseObject (fuel + 1) ('{' :: r) =
        if peek (skipWhitespace r) = '}' then
          some (.ok (Value.object [], (Parser.get (skipWhitespace r)).2))
        else parseObjectLoop fuel (skipWhitespace r) (Value.object []) := rfl
    rw [e, e2, if_neg h]
  · intro s e h
    simp [Value.parse, h]

/-- Claim C3 on whole texts, the malformed point nested in containers: an unexpected character at
a value position, a member that starts with no quote, a key without colon, a member and an element
followed by something else, a trailing comma, the end of the input after an element, and a minus
sign without digit all make `Value::parse` throw `ParseError`. -/
theorem C3_malformed_input_rejected_witness :
    Value.parse 12 "[1,\x7b\"a\":x\x7d]".toList = some (.error .ParseError) ∧
    Value.parse 12 "\x7b\"a\":\x7b1:2\x7d\x7d".toList = some (.error .ParseError) ∧
    Value.parse 12 "[\x7b\"a\" 1\x7d]".toList = some (.error .ParseError) ∧
    Value.parse 12 "\x7b\"a\":1 \"b\":2\x7d".toList = some (.error .ParseError) ∧
    Value.parse 12 "\x7b\"a\":1,\x7d".toList = some (.error .ParseError) ∧
    Value.parse 12 "[[1 2]]".toList = some (.error .ParseError) ∧
    Value.parse 12 "[1,2".toList = some (.error .ParseError) ∧
    Value.parse 12 "[-x]".toList = some (.error .ParseError) ∧
    Value.parse 12 "\x7b\"key\":".toList = some (.error .ParseError) :=
  ⟨rfl, rfl, rfl, rfl, rfl, rfl, rfl, rfl, (C3_malformed_input_rejected 4).2.2.2.2.2.2.2.2.2.2.2.2.2.2.2.1⟩

/-- Claim C4, the code at failing inputs: `parseBoolean` and `parseNull` read four or five
characters without looking at them, so `tru`, `txyz`, `nope` and `fAlse` are accepted, as Boolean
true, Boolean true, Null and Boolean false. -/
theorem C4_literals_not_validated (fuel : Nat) :
    Value.parse (fuel + 1) ['t', 'r', 'u'] = some (.ok (Value.boolean true)) ∧
    Value.parse (fuel + 1) ['t', 'x', 'y', 'z'] = some (.ok (Value.boolean true)) ∧
    Value.parse (fuel + 1) ['n', 'o', 'p', 'e'] = some (.ok Value.null) ∧
    Value.parse (fuel + 1) ['f', 'A', 'l', 's', 'e'] = some (.ok (Value.boolean false)) :=
  ⟨rfl, rfl, rfl, rfl⟩

/-- Claim C5: an input that is empty or holds only whitespace parses to Null, and does so as soon
as the parser has any fuel. -/
theorem C5_whitespace_only_parses_to_null (s : Str) (h : ∀ c ∈ s, isspace c = true)
    (fuel : Nat) : Value.parse (fuel + 1) s = some (.ok Value.null) := by
  simp [Value.parse, Parser.parse, skipWhitespace_of_all s h, Parser.eof]

/-- Claim C5 at the empty text and at a text of blank, newline, tab and carriage return. -/
theorem C5_whitespace_only_parses_to_null_witness :
    (∀ fuel, Value.parse (fuel + 1) [] = some (.ok Value.null)) ∧
    (∀ c ∈ [' ', '\n', '\t', '\r'], isspace c = true) ∧
    (∀ fuel, Value.parse (fuel + 1) [' ', '\n', '\t', '\r'] = some (.ok Value.null)) :=
  ⟨C5_whitespace_only_parses_to_null [] (by simp), by decide,
    C5_whitespace_only_parses_to_null _ (by decide)⟩

/-- Claim C6: the scenario text parses to an Object of size 2; its key `a` holds a Number whose
`get<int>` is 1, its key `b` an Array of size 3 with Boolean true, Null and String `x`; the mutable
accesses `result["b"]` and `[2]` change nothing; and the Object serializes to the same text. -/
theorem C6_scenario (fuel : Nat) :
    Value.parse (fuel + 12) scenarioText = some (.ok scenarioTree) ∧
      scenarioTree.type = Type_.Object ∧ scenarioTree.size = 2 ∧
      scenarioTree.at_key ['a'] = .ok (Value.number (Double.fin false 1 0)) ∧
      (Value.number (Double.fin false 1 0)).get_int = .ok (some 1) ∧
      scenarioTree.at_key ['b'] =
        .ok (Value.array [Value.boolean true, Value.null, Value.string ['x']]) ∧
      (Value.array [Value.boolean true, Value.null, Value.string ['x']]).size = 3 ∧
      (Value.array [Value.boolean true, Value.null, Value.string ['x']]).at_index 2 =
        .ok (Value.string ['x']) ∧
      (Value.string ['x']).get_string = .ok ['x'] ∧
      scenarioTree.index_key ['b'] = .ok scenarioTree ∧
      (Value.array [Value.boolean true, Value.null, Value.string ['x']]).index_idx 2 =
        .ok (Value.array [Value.boolean true, Value.null, Value.string ['x']]) ∧
      serialize scenarioTree = scenarioText :=
  ⟨rfl, rfl, rfl, rfl, rfl, rfl, rfl, rfl, rfl, rfl, rfl, rfl⟩

/-- Claim C7, the code at a failing input: `[tru,]x]` parses to the Array of Boolean true, the
four characters `tru,` being read as the literal; with one blank before the comma the text is
rejected with `ParseError`.  The document of `test_parsing` does parse to the tree of its compact
form. -/
theorem C7_whitespace_before_comma (fuel : Nat) :
    Value.parse (fuel + 5) "[tru,]x]".toList = some (.ok (Value.array [Value.boolean true])) ∧
    Value.parse (fuel + 5) "[tru ,]x]".toList = some (.error .ParseError) ∧
    Value.parse (fuel + 30) prettyDocument = some (.ok documentTree) ∧
    Value.parse (fuel + 30) compactDocument = some (.ok documentTree) :=
  ⟨rfl, rfl, rfl, rfl⟩

/-- Claim C8: after `o[k] = a; o[k] = b;` on an Object the entries are still in ascending key
order, exactly one entry has the key `k` and it holds `b`, the first assignment adds one to the
size exactly when `k` was absent and the second leaves the size alone, and every entry with
another key is as before.  And an object text with the members `kvs`, keys repeated or not, parses
to the Object those assignments build: one entry a key, holding the value of its last member.
Whatever the text, the object loop stores each member it reads with `v[key] = value`, and in a
`Value` that `Value::parse` returns no Object has a key twice. -/
theorem C8_keys_unique_last_write_wins (o : ObjectType) (k : Str) (a b : Value)
    (ho : keysAscending o = true) (kvs : List (Str × Value))
    (hk : ∀ kv ∈ kvs, plainStr kv.1 = true ∧ kv.2.plain = true ∧ kv.2.wellFormed = true) :
    (∃ o1 o2, (Value.object o).assign_key k a = .ok (Value.object o1) ∧
      (Value.object o1).assign_key k b = .ok (Value.object o2) ∧
      keysAscending o2 = true ∧
      o2.filter (fun kv => decide (kv.1 = k)) = [(k, b)] ∧
      (Value.object o2).at_key k = .ok b ∧
      (Value.object o1).size =
        (Value.object o).size + (if (Value.object o).contains k = true then 0 else 1) ∧
      (Value.object o2).size = (Value.object o1).size ∧
      (∀ kv : Str × Value, kv.1 ≠ k → (kv ∈ o2 ↔ kv ∈ o)) ∧
      (∀ k2, k2 ≠ k → (Value.object o2).at_key k2 = (Value.object o).at_key k2)) ∧
    (∃ n, ∀ m, n ≤ m →
      Value.parse m ('{' :: (serialize.serializeEntries kvs ++ ['}'])) =
        some (.ok (Value.object (assignAll [] kvs)))) ∧
    keysAscending (assignAll [] kvs) = true ∧
    (∀ k2, mapFind k2 (assignAll [] kvs) = lastValue k2 kvs) ∧
    (∀ k2, (assignAll [] kvs).filter (fun kv => decide (kv.1 = k2)) =
      match lastValue k2 kvs with
      | some v => [(k2, v)]
      | none => []) ∧
    (∀ (fuel : Nat) (is : Str) (m : ObjectType) (key is1 : Str) (val : Value) (is2 : Str),
      peek (skipWhitespace is) = '"' →
      parseStringValue fuel (skipWhitespace is) = some (key, is1) →
      (Parser.get (skipWhitespace is1)).1 = ':' →
      parse fuel (Parser.get (skipWhitespace is1)).2 = some (.ok (val, is2)) →
      parseObjectLoop (fuel + 1) is (Value.object m) =
        if (Parser.get (skipWhitespace is2)).1 = '}' then
          some (.ok (Value.object (mapStore key val (mapIndex key m)),
            (Parser.get (skipWhitespace is2)).2))
        else if (Parser.get (skipWhitespace is2)).1 ≠ ',' then some (.error .ParseError)
        else parseObjectLoop fuel (Parser.get (skipWhitespace is2)).2
          (Value.object (mapStore key val (mapIndex key m)))) ∧
    (∀ (fuel : Nat) (s : Str) (v : Value), Value.parse fuel s = some (.ok v) →
      v.wellFormed = true) := by
  have hasc : keysAscending (assignAll [] kvs) = true := keysAscending_assignAll kvs [] rfl
  have hfind : ∀ k2, mapFind k2 (assignAll [] kvs) = lastValue k2 kvs := by
    intro k2
    rw [mapFind_assignAll]
    try (cases lastValue k2 kvs <;> rfl)
  refine ⟨?_, ?_, hasc, hfind, ?_, ?_, Value.parse_wellFormed⟩
  · have h1 := keysAscending_set k a o ho
    have h2 := keysAscending_set k b _ h1
    have hf := mapFind_set_same k b (mapStore k a (mapIndex k o))
    refine ⟨mapStore k a (mapIndex k o), mapStore k b (mapIndex k (mapStore k a (mapIndex k o))),
      rfl, rfl, h2, ?_, ?_, ?_, ?_, ?_, ?_⟩
    · rw [filter_key_of_ascending k _ h2, hf]
    · simp [Value.at_key, hf]
    · simp only [Value.size, Value.contains]
      rw [length_set]
    · simp only [Value.size]
      rw [length_set k b, mapFind_set_same]
      simp
    · intro kv hkv
      rw [mem_set_other k b _ kv hkv, mem_set_other k a o kv hkv]
    · intro k2 hk2
      simp only [Value.at_key]
      rw [mapFind_set_other k k2 b _ hk2, mapFind_set_other k k2 a o hk2]
  · obtain ⟨n, hn⟩ := readsBack_object kvs (fun kv hkv => (hk kv hkv).1)
      (fun kv hkv => readsBack_of_plain kv.2 (hk kv hkv).2.1 (hk kv hkv).2.2) []
    refine ⟨n, fun m hm => ?_⟩
    have := parse_mono hn hm
    simp [Value.parse, this]
  · intro k2
    rw [filter_key_of_ascending k2 _ hasc, hfind]
  · intro fuel is m key is1 val is2 h1 h2 h3 h4
    rw [parseObjectLoop_succ]
    simp [h1, h2, h3, h4, Value.assign_key, Value.index_key]

/-- Claim C8 at the Object with the one entry `a`, assigned twice, and at the text
`{"a":1,"b":true,"a":null}`, which parses to an Object whose entry `a` holds Null. -/
theorem C8_keys_unique_last_write_wins_witness :
    Value.parse 20 "\x7b\"a\":1,\"b\":true,\"a\":null\x7d".toList =
      some (.ok (Value.object [(['a'], Value.null), (['b'], Value.boolean true)])) ∧
    assignAll [] sampleMembers = [(['a'], Value.null), (['b'], Value.boolean true)] ∧
    keysAscending [(['a'], Value.boolean false)] = true ∧
    (∀ kv ∈ sampleMembers,
      plainStr kv.1 = true ∧ kv.2.plain = true ∧ kv.2.wellFormed = true) ∧
    ((∃ o1 o2, (Value.object [(['a'], Value.boolean false)]).assign_key ['a'] Value.null =
        .ok (Value.object o1) ∧
      (Value.object o1).assign_key ['a'] (Value.boolean true) = .ok (Value.object o2) ∧
      keysAscending o2 = true ∧
      o2.filter (fun kv => decide (kv.1 = ['a'])) = [(['a'], Value.boolean true)] ∧
      (Value.object o2).at_key ['a'] = .ok (Value.boolean true) ∧
      (Value.object o1).size =
        (Value.object [(['a'], Value.boolean false)]).size +
          (if (Value.object [(['a'], Value.boolean false)]).contains ['a'] = true
            then 0 else 1) ∧
      (Value.object o2).size = (Value.object o1).size ∧
      (∀ kv : Str × Value, kv.1 ≠ ['a'] → (kv ∈ o2 ↔ kv ∈ [(['a'], Value.boolean false)])) ∧
      (∀ k2, k2 ≠ ['a'] →
        (Value.object o2).at_key k2 =
          (Value.object [(['a'], Value.boolean false)]).at_key k2)) ∧
    (∃ n, ∀ m, n ≤ m →
      Value.parse m ('{' :: (serialize.serializeEntries sampleMembers ++ ['}'])) =
        some (.ok (Value.object (assignAll [] sampleMembers)))) ∧
    keysAscending (assignAll [] sampleMembers) = true ∧
    (∀ k2, mapFind k2 (assignAll [] sampleMembers) = lastValue k2 sampleMembers) ∧
    (∀ k2, (assignAll [] sampleMembers).filter (fun kv => decide (kv.1 = k2)) =
      match lastValue k2 sampleMembers with
      | some v => [(k2, v)]
      | none => []) ∧
    (∀ (fuel : Nat) (is : Str) (m : ObjectType) (key is1 : Str) (val : Value) (is2 : Str),
      peek (skipWhitespace is) = '"' →
      parseStringValue fuel (skipWhitespace is) = some (key, is1) →
      (Parser.get (skipWhitespace is1)).1 = ':' →
      parse fuel (Parser.get (skipWhitespace is1)).2 = some (.ok (val, is2)) →
      parseObjectLoop (fuel + 1) is (Value.object m) =
        if (Parser.get (skipWhitespace is2)).1 = '}' then
          some (.ok (Value.object (mapStore key val (mapIndex key m)),
            (Parser.get (skipWhitespace is2)).2))
        else if (Parser.get (skipWhitespace is2)).1 ≠ ',' then some (.error .ParseError)
        else parseObjectLoop fuel (Parser.get (skipWhitespace is2)).2
          (Value.object (mapStore key val (mapIndex key m)))) ∧
    (∀ (fuel : Nat) (s : Str) (v : Value), Value.parse fuel s = some (.ok v) →
      v.wellFormed = true)) :=
  ⟨rfl, rfl, by decide, by decide,
    C8_keys_unique_last_write_wins [(['a'], Value.boolean false)] ['a'] Value.null
      (Value.boolean true) (by decide) sampleMembers (by decide)⟩

/-- Claim C9: the mutable `operator[]` with a key turns Null into the Object whose one entry is
that key, holding Null; with an index it turns Null into an Array (of `index + 1` Nulls, the sum
taken in `size_t`); on a Boolean, a Number or a String, on an Array indexed by key and on an Object
indexed by integer it throws `TypeError`.  The overloads for `const char*` and `int` forward a
non-null key and a non-negative index to these. -/
theorem C9_auto_vivification (k : Str) (i : Nat) :
    Value.null.index_key k = .ok (Value.object [(k, Value.null)]) ∧
    Value.null.index_idx i =
      .ok (Value.array (List.replicate ((i + 1) % sizeModulus) Value.null)) ∧
    (∀ x : Value, x.type = Type_.Boolean ∨ x.type = Type_.Number ∨ x.type = Type_.String →
      x.index_key k = .error .TypeError ∧ x.index_idx i = .error .TypeError) ∧
    (∀ a : ArrayType, (Value.array a).index_key k = .error .TypeError) ∧
    (∀ o : ObjectType, (Value.object o).index_idx i = .error .TypeError) ∧
    (∀ x : Value, x.index_cstr (some k) = x.index_key k ∧
      x.index_int (i : Int) = x.index_idx i) := by
  refine ⟨rfl, ?_, ?_, fun _ => rfl, fun _ => rfl, fun x => ⟨rfl, ?_⟩⟩
  · simp [Value.index_idx, Value.growTo, vectorResize]
  · intro x hx
    cases x <;> simp [Value.type] at hx <;> exact ⟨rfl, rfl⟩
  · simp [Value.index_int]

/-- Claim C10, counterexample: at the index `SIZE_MAX` the sum `index + 1` wraps to zero, so
`resize(0)` empties an Array of one element instead of growing it. -/
theorem C10_index_wraps :
    (Value.array [Value.boolean true]).index_idx 18446744073709551615 = .ok (Value.array []) ∧
    (18446744073709551615 : Nat) < sizeModulus ∧
    (Value.array []).size ≠ 18446744073709551615 + 1 :=
  ⟨rfl, by decide, by decide⟩

/-- Claim C10, as amended: for an index `k` below `SIZE_MAX`, the mutable `operator[](k)` on an
Array of size `n ≤ k` grows it to size `k + 1`, the elements at `n..k` Null and those at `0..n-1`
unchanged; for `k < n` it leaves the Array as it is and refers to the element at `k`. -/
theorem C10_array_growth (a : ArrayType) (k : Nat) (hk : k + 1 < sizeModulus) :
    (a.length ≤ k →
      ∃ a2, (Value.array a).index_idx k = .ok (Value.array a2) ∧ (Value.array a2).size = k + 1 ∧
        (∀ j, a.length ≤ j → j ≤ k → (Value.array a2).at_index j = .ok Value.null) ∧
        (∀ j, j < a.length → (Value.array a2).at_index j = (Value.array a).at_index j)) ∧
    (k < a.length →
      (Value.array a).index_idx k = .ok (Value.array a) ∧
        ∃ x, a.get? k = some x ∧ (Value.array a).at_index k = .ok x) := by
  constructor
  · intro hn
    refine ⟨a ++ List.replicate (k + 1 - a.length) Value.null, ?_, ?_, ?_, ?_⟩
    · have e : (k + 1) % sizeModulus = k + 1 := Nat.mod_eq_of_lt hk
      simp only [Value.index_idx, Value.growTo, hn, if_true, e, vectorResize]
      rw [List.take_of_length_le (by omega)]
    · simp [Value.size]; omega
    · intro j h1 h2
      simp only [Value.at_index, List.get?_eq_getElem?]
      rw [List.getElem?_append_right h1, List.getElem?_replicate]
      have : j - a.length < k + 1 - a.length := by omega
      simp [this]
    · intro j h1
      simp only [Value.at_index, List.get?_eq_getElem?]
      rw [List.getElem?_append_left h1]
  · intro hn
    refine ⟨?_, a.get ⟨k, hn⟩, ?_, ?_⟩
    · have : ¬ a.length ≤ k := by omega
      simp [Value.index_idx, Value.growTo, this]
    · simp [List.get?_eq_get hn]
    · simp [Value.at_index, List.getElem?_eq_getElem hn]

/-- Claim C10, as amended, at an Array of one element and the index 3. -/
theorem C10_array_growth_witness :
    (3 : Nat) + 1 < sizeModulus ∧
      (Value.array [Value.boolean true]).index_idx 3 =
        .ok (Value.array [Value.boolean true, Value.null, Value.null, Value.null]) ∧
      ((([Value.boolean true] : ArrayType).length ≤ 3 →
        ∃ a2, (Value.array [Value.boolean true]).index_idx 3 = .ok (Value.array a2) ∧
          (Value.array a2).size = 3 + 1 ∧
          (∀ j, ([Value.boolean true] : ArrayType).length ≤ j → j ≤ 3 →
            (Value.array a2).at_index j = .ok Value.null) ∧
          (∀ j, j < ([Value.boolean true] : ArrayType).length →
            (Value.array a2).at_index j = (Value.array [Value.boolean true]).at_index j)) ∧
      (3 < ([Value.boolean true] : ArrayType).length →
        (Value.array [Value.boolean true]).index_idx 3 = .ok (Value.array [Value.boolean true]) ∧
          ∃ x, ([Value.boolean true] : ArrayType).get? 3 = some x ∧
            (Value.array [Value.boolean true]).at_index 3 = .ok x)) :=
  ⟨by decide, rfl, C10_array_growth [Value.boolean true] 3 (by decide)⟩

/-! ## Lemmas for the accessors, the serializer and the string literals -/

/-! ### Lookups in a map -/

/-- In ascending entries `find` finds exactly the entries there are. -/
theorem mapFind_eq_some_iff_mem (k : Str) (v : Value) (o : ObjectType)
    (h : keysAscending o = true) : mapFind k o = some v ↔ (k, v) ∈ o := by
  have hf := filter_key_of_ascending k o h
  constructor
  · intro hm
    rw [hm] at hf
    have : (k, v) ∈ o.filter (fun kv => decide (kv.1 = k)) := by rw [hf]; simp
    exact (List.mem_filter.1 this).1
  · intro hm
    have : (k, v) ∈ o.filter (fun kv => decide (kv.1 = k)) :=
      List.mem_filter.2 ⟨hm, by simp⟩
    rw [hf] at this
    cases hmf : mapFind k o with
    | none => rw [hmf] at this; simp at this
    | some w =>
      rw [hmf] at this
      simp only [List.mem_singleton, Prod.mk.injEq, true_and] at this
      rw [this]

/-! ### Member functions on shared bodies -/

/-- The call `at(index)` on an Array: the element, or `RuntimeError` past the end. -/
theorem at_index_array (h : Heap) (p i : Nat) :
    SValue.at_index i ⟨h, .array p⟩ =
      (match (h.arrays.getD p []).get? i with
        | none => .error .RuntimeError
        | some v => .ok v, ⟨h, .array p⟩) := by
  show (match (h.arrays.getD p []).get? i with
        | none => (Method.throw Exn.RuntimeError : Method SValue)
        | some v => Method.ret v) ⟨h, .array p⟩ = _
  cases (h.arrays.getD p []).get? i <;> rfl

/-- The call `at(key)` on an Object: the value of the entry, or `RuntimeError` without one. -/
theorem at_key_object (h : Heap) (p : Nat) (k : Str) :
    SValue.at_key k ⟨h, .object p⟩ =
      (match entriesFind k (h.objects.getD p []) with
        | none => .error .RuntimeError
        | some v => .ok v, ⟨h, .object p⟩) := by
  show (match entriesFind k (h.objects.getD p []) with
        | none => (Method.throw Exn.RuntimeError : Method SValue)
        | some v => Method.ret v) ⟨h, .object p⟩ = _
  cases entriesFind k (h.objects.getD p []) <;> rfl

/-- The mutable `operator[](size_t)` on an Array: the body is resized when the index is at or past
the end. -/
theorem index_idx_array (h : Heap) (p i : Nat) :
    SValue.index_idx i ⟨h, .array p⟩ =
      (.ok (Ref.element p i),
        ⟨if (h.arrays.getD p []).length ≤ i then
            ⟨h.arrays.set p (elementsResize ((i + 1) % sizeModulus) (h.arrays.getD p [])),
              h.objects⟩
          else h, .array p⟩) := by
  by_cases hl : (h.arrays.getD p []).length ≤ i
  · rw [if_pos hl]
    show (if (h.arrays.getD p []).length ≤ i then _ else _ : Method Ref) _ = _
    rw [if_pos hl]
    rfl
  · rw [if_neg hl]
    show (if (h.arrays.getD p []).length ≤ i then _ else _ : Method Ref) _ = _
    rw [if_neg hl]
    rfl

/-- The const `operator[](int)` with a negative index throws `RuntimeError`. -/
theorem at_int_neg (j : Int) (hj : j < 0) (f : Frame) :
    SValue.at_int j f = (.error .RuntimeError, f) := by
  show (if j < 0 then _ else _ : Method SValue) f = _
  rw [if_pos hj]; rfl

/-- The const `operator[](int)` with a non-negative index is `at`. -/
theorem at_int_nonneg (j : Int) (hj : 0 ≤ j) (f : Frame) :
    SValue.at_int j f = SValue.at_index j.toNat f := by
  show (if j < 0 then _ else _ : Method SValue) f = _
  rw [if_neg (not_lt.2 hj)]
  rfl

/-- The mutable `operator[](int)` with a negative index throws `RuntimeError`. -/
theorem index_int_neg (j : Int) (hj : j < 0) (f : Frame) :
    SValue.index_int j f = (.error .RuntimeError, f) := by
  show (if j < 0 then _ else _ : Method Ref) f = _
  rw [if_pos hj]; rfl

/-- The mutable `operator[](int)` with a non-negative index is `operator[](size_t)`. -/
theorem index_int_nonneg (j : Int) (hj : 0 ≤ j) (f : Frame) :
    SValue.index_int j f = SValue.index_idx j.toNat f := by
  show (if j < 0 then _ else _ : Method Ref) f = _
  rw [if_neg (not_lt.2 hj)]
  rfl

/-- The call `at(index)` leaves the state as it is. -/
theorem at_index_state (i : Nat) (f : Frame) : (SValue.at_index i f).2 = f := by
  obtain ⟨h, x⟩ := f
  cases x with
  | array p => rw [at_index_array]
  | _ => rfl

/-- The call `at(key)` leaves the state as it is. -/
theorem at_key_state (k : Str) (f : Frame) : (SValue.at_key k f).2 = f := by
  obtain ⟨h, x⟩ := f
  cases x with
  | object p => rw [at_key_object]
  | _ => rfl

/-- The const `operator[](int)` leaves the state as it is. -/
theorem at_int_state (j : Int) (f : Frame) : (SValue.at_int j f).2 = f := by
  by_cases hj : j < 0
  · rw [at_int_neg j hj]
  · rw [at_int_nonneg j (not_lt.1 hj)]; exact at_index_state _ f

/-- A query maps what the member function answers and keeps its state. -/
theorem Query.run_state (q : Query) (f : Frame) : (q.run f).2 = f := by
  have lift : ∀ {α : Type} (m : Method α) (g : α → Answer), (m f).2 = f →
      ((do return g (← m) : Method Answer) f).2 = f := by
    intro α m g hm
    show (match m f with
      | (.ok a, f1) => ((Except.ok (g a) : Except Exn Answer), f1)
      | (.error e, f1) => (Except.error e, f1)).2 = f
    rcases hmf : m f with ⟨r, f1⟩
    rw [hmf] at hm
    cases r <;> exact hm
  obtain ⟨h, x⟩ := f
  cases q with
  | at_key k => exact lift (SValue.at_key k) Answer.value (at_key_state k _)
  | at_index i => exact lift (SValue.at_index i) Answer.value (at_index_state i _)
  | at_int j => exact lift (SValue.at_int j) Answer.value (at_int_state j _)
  | _ => cases x <;> rfl

/-- A call whose result is dropped ends in the state of the call. -/
theorem Method.discard_state {α : Type} (m : Method α) (f : Frame) :
    ((do let _ ← m : Method Unit) f).2 = (m f).2 := by
  show (match m f with
    | (.ok _, f1) => ((Except.ok () : Except Exn Unit), f1)
    | (.error e, f1) => (Except.error e, f1)).2 = _
  rcases m f with ⟨r, f1⟩
  cases r <;> rfl

/-- A call whose result is dropped fails exactly when the call fails. -/
theorem Method.discard_error {α : Type} (m : Method α) (f : Frame) (e : Exn)
    (h : ((do let _ ← m : Method Unit) f).1 = .error e) : (m f).1 = .error e := by
  have h2 : (match m f with
    | (.ok _, f1) => ((Except.ok () : Except Exn Unit), f1)
    | (.error e, f1) => (Except.error e, f1)).1 = .error e := h
  rcases hm : m f with ⟨r, f1⟩
  rw [hm] at h2
  cases r with
  | ok a => cases h2
  | error e2 => simpa using h2

/-- The call `push_back(v)` on an Array appends to its body. -/
theorem push_back_array (h : Heap) (p : Nat) (v : SValue) :
    SValue.push_back v ⟨h, .array p⟩ =
      (.ok (), ⟨⟨h.arrays.set p (h.arrays.getD p [] ++ [v]), h.objects⟩, .array p⟩) := rfl

/-- The call `push_back(v)` on Null allocates a body that holds `v`. -/
theorem push_back_null (h : Heap) (v : SValue) :
    SValue.push_back v ⟨h, .null⟩ =
      (.ok (), ⟨⟨h.arrays ++ [[v]], h.objects⟩, .array h.arrays.length⟩) := by
  have e : SValue.push_back v ⟨h, .null⟩ =
      SValue.push_back v ⟨⟨h.arrays ++ [[]], h.objects⟩, .array h.arrays.length⟩ := rfl
  rw [e, push_back_array]
  simp

/-- The mutable `operator[]` with a key on an Object: `std::map::operator[]` on its body. -/
theorem index_key_object (h : Heap) (p : Nat) (k : Str) :
    SValue.index_key k ⟨h, .object p⟩ =
      (.ok (Ref.entry p k),
        ⟨⟨h.arrays, h.objects.set p (entriesIndex k (h.objects.getD p []))⟩, .object p⟩) := rfl

/-- The mutable `operator[]` with a key on Null allocates a body with that key. -/
theorem index_key_null (h : Heap) (k : Str) :
    SValue.index_key k ⟨h, .null⟩ =
      (.ok (Ref.entry h.objects.length k),
        ⟨⟨h.arrays, h.objects ++ [[(k, SValue.null)]]⟩, .object h.objects.length⟩) := by
  have e : SValue.index_key k ⟨h, .null⟩ =
      SValue.index_key k ⟨⟨h.arrays, h.objects ++ [[]]⟩, .object h.objects.length⟩ := rfl
  rw [e, index_key_object]
  simp [entriesIndex]

/-- The mutable `operator[](size_t)` on Null allocates a body of Nulls. -/
theorem index_idx_null (h : Heap) (i : Nat) :
    SValue.index_idx i ⟨h, .null⟩ =
      (.ok (Ref.element h.arrays.length i),
        ⟨⟨h.arrays ++ [List.replicate ((i + 1) % sizeModulus) SValue.null], h.objects⟩,
          .array h.arrays.length⟩) := by
  have e : SValue.index_idx i ⟨h, .null⟩ =
      SValue.index_idx i ⟨⟨h.arrays ++ [[]], h.objects⟩, .array h.arrays.length⟩ := rfl
  rw [e, index_idx_array]
  simp [elementsResize]

/-- A failing `operator[](const std::string&)` has written nothing. -/
theorem index_key_atomic (k : Str) (f : Frame) (e : Exn)
    (he : (SValue.index_key k f).1 = .error e) :
    e = .TypeError ∧ (SValue.index_key k f).2 = f := by
  obtain ⟨h, x⟩ := f
  cases x with
  | null => rw [index_key_null] at he; cases he
  | object p => rw [index_key_object] at he; cases he
  | boolean b => exact ⟨by cases he; rfl, rfl⟩
  | number d => exact ⟨by cases he; rfl, rfl⟩
  | string s => exact ⟨by cases he; rfl, rfl⟩
  | array p => exact ⟨by cases he; rfl, rfl⟩

/-- A failing `operator[](size_t)` has written nothing. -/
theorem index_idx_atomic (i : Nat) (f : Frame) (e : Exn)
    (he : (SValue.index_idx i f).1 = .error e) :
    e = .TypeError ∧ (SValue.index_idx i f).2 = f := by
  obtain ⟨h, x⟩ := f
  cases x with
  | null => rw [index_idx_null] at he; cases he
  | array p => rw [index_idx_array] at he; cases he
  | boolean b => exact ⟨by cases he; rfl, rfl⟩
  | number d => exact ⟨by cases he; rfl, rfl⟩
  | string s => exact ⟨by cases he; rfl, rfl⟩
  | object p => exact ⟨by cases he; rfl, rfl⟩

/-- A failing `push_back` has written nothing. -/
theorem push_back_atomic (v : SValue) (f : Frame) (e : Exn)
    (he : (SValue.push_back v f).1 = .error e) :
    e = .TypeError ∧ (SValue.push_back v f).2 = f := by
  obtain ⟨h, x⟩ := f
  cases x with
  | null => rw [push_back_null] at he; cases he
  | array p => rw [push_back_array] at he; cases he
  | boolean b => exact ⟨by cases he; rfl, rfl⟩
  | number d => exact ⟨by cases he; rfl, rfl⟩
  | string s => exact ⟨by cases he; rfl, rfl⟩
  | object p => exact ⟨by cases he; rfl, rfl⟩

/-- A failing `operator[](const char*)` has written nothing. -/
theorem index_cstr_atomic (k : Option Str) (f : Frame) (e : Exn)
    (he : (SValue.index_cstr k f).1 = .error e) :
    (e = .TypeError ∨ e = .RuntimeError) ∧ (SValue.index_cstr k f).2 = f := by
  cases k with
  | none => exact ⟨Or.inr (by cases he; rfl), rfl⟩
  | some s =>
    have h2 := index_key_atomic s f e he
    exact ⟨Or.inl h2.1, h2.2⟩

/-- A failing `operator[](int)` has written nothing. -/
theorem index_int_atomic (j : Int) (f : Frame) (e : Exn)
    (he : (SValue.index_int j f).1 = .error e) :
    (e = .TypeError ∨ e = .RuntimeError) ∧ (SValue.index_int j f).2 = f := by
  by_cases hj : j < 0
  · rw [index_int_neg j hj] at he ⊢
    exact ⟨Or.inr (by cases he; rfl), rfl⟩
  · rw [index_int_nonneg j (not_lt.1 hj)] at he ⊢
    have h2 := index_idx_atomic _ f e he
    exact ⟨Or.inl h2.1, h2.2⟩

/-- A failing keyed assignment has written nothing. -/
theorem assign_key_atomic (k : Str) (val : SValue) (f : Frame) (e : Exn)
    (he : (SValue.assign_key k val f).1 = .error e) :
    e = .TypeError ∧ (SValue.assign_key k val f).2 = f := by
  have h1 := index_key_atomic k f
  unfold SValue.assign_key at he ⊢
  rcases hm : SValue.index_key k f with ⟨r, f1⟩
  rw [hm] at he h1
  cases r with
  | ok a => cases he
  | error e2 =>
    have h3 := h1 e2 rfl
    cases he
    exact h3

/-- A failing indexed assignment has written nothing. -/
theorem assign_idx_atomic (i : Nat) (val : SValue) (f : Frame) (e : Exn)
    (he : (SValue.assign_idx i val f).1 = .error e) :
    e = .TypeError ∧ (SValue.assign_idx i val f).2 = f := by
  have h1 := index_idx_atomic i f
  unfold SValue.assign_idx at he ⊢
  rcases hm : SValue.index_idx i f with ⟨r, f1⟩
  rw [hm] at he h1
  cases r with
  | ok a => cases he
  | error e2 =>
    have h3 := h1 e2 rfl
    cases he
    exact h3

/-- A failing mutation has written nothing. -/
theorem Mutation.run_atomic (mu : Mutation) (f : Frame) (e : Exn)
    (he : (mu.run f).1 = .error e) :
    (e = .TypeError ∨ e = .RuntimeError) ∧ (mu.run f).2 = f := by
  cases mu with
  | push_back v => exact ⟨Or.inl (push_back_atomic v f e he).1, (push_back_atomic v f e he).2⟩
  | assign_key k val =>
    exact ⟨Or.inl (assign_key_atomic k val f e he).1, (assign_key_atomic k val f e he).2⟩
  | assign_idx i val =>
    exact ⟨Or.inl (assign_idx_atomic i val f e he).1, (assign_idx_atomic i val f e he).2⟩
  | index_key k =>
    have h2 := index_key_atomic k f e (Method.discard_error _ f e he)
    exact ⟨Or.inl h2.1, (Method.discard_state _ f).trans h2.2⟩
  | index_cstr k =>
    have h2 := index_cstr_atomic k f e (Method.discard_error _ f e he)
    exact ⟨h2.1, (Method.discard_state _ f).trans h2.2⟩
  | index_idx i =>
    have h2 := index_idx_atomic i f e (Method.discard_error _ f e he)
    exact ⟨Or.inl h2.1, (Method.discard_state _ f).trans h2.2⟩
  | index_int j =>
    have h2 := index_int_atomic j f e (Method.discard_error _ f e he)
    exact ⟨h2.1, (Method.discard_state _ f).trans h2.2⟩

/-- After `obj[key] = val` on a shared body, `find(key)` gives `val`. -/
theorem entriesFind_store_index (k : Str) (val : SValue) (o : List (Str × SValue)) :
    entriesFind k (entriesStore k val (entriesIndex k o)) = some val := by
  induction o with
  | nil => simp [entriesIndex, entriesStore, entriesFind, strLt_irrefl]
  | cons e r ih =>
    obtain ⟨k2, v2⟩ := e
    by_cases h1 : strLt k2 k = true
    · simp [entriesIndex, entriesStore, entriesFind, h1, ih]
    · by_cases h2 : strLt k k2 = true
      · simp [entriesIndex, entriesStore, entriesFind, h1, h2, strLt_irrefl]
      · simp [entriesIndex, entriesStore, entriesFind, h1, h2]

/-- The size of an Array is the length of its body. -/
theorem size_array (h : Heap) (p : Nat) :
    SValue.size ⟨h, .array p⟩ = (.ok (h.arrays.getD p []).length, ⟨h, .array p⟩) := rfl

/-- The size of an Object is the number of entries of its body. -/
theorem size_object (h : Heap) (p : Nat) :
    SValue.size ⟨h, .object p⟩ = (.ok (h.objects.getD p []).length, ⟨h, .object p⟩) := rfl

/-- The call `contains(key)` on an Object: whether `find` finds the key. -/
theorem contains_object (h : Heap) (p : Nat) (k : Str) :
    SValue.contains k ⟨h, .object p⟩ =
      (.ok (entriesFind k (h.objects.getD p [])).isSome, ⟨h, .object p⟩) := rfl

/-- The body written at an allocated address is the body read there. -/
theorem getD_set_same {α : Type} (l : List (List α)) (p : Nat) (b : List α) (hp : p < l.length) :
    (l.set p b).getD p [] = b := by
  simp [List.getD, List.getElem?_set, hp]

/-- The statement `x[key] = val;` on an Object. -/
theorem assign_key_object (h : Heap) (p : Nat) (k : Str) (val : SValue) :
    SValue.assign_key k val ⟨h, .object p⟩ =
      (.ok (), ⟨⟨h.arrays, (h.objects.set p (entriesIndex k (h.objects.getD p []))).set p
        (entriesStore k val ((h.objects.set p (entriesIndex k (h.objects.getD p []))).getD p []))⟩,
        .object p⟩) := rfl

/-- The statement `x[index] = val;` on an Array. -/
theorem assign_idx_array (h : Heap) (p i : Nat) (val : SValue) :
    SValue.assign_idx i val ⟨h, .array p⟩ =
      (.ok (), ⟨(Heap.store (SValue.index_idx i ⟨h, .array p⟩).2.heap (Ref.element p i) val),
        .array p⟩) := by
  unfold SValue.assign_idx
  rw [index_idx_array]

/-- An answer made from the result of a call depends on that result only. -/
theorem Method.answer_congr {α : Type} (m : Method α) (g : α → Answer) (f1 f2 : Frame)
    (h : (m f1).1 = (m f2).1) :
    ((do return g (← m) : Method Answer) f1).1 = ((do return g (← m) : Method Answer) f2).1 := by
  show (match m f1 with
      | (.ok v, f3) => ((Except.ok (g v) : Except Exn Answer), f3)
      | (.error e, f3) => (Except.error e, f3)).1 =
    (match m f2 with
      | (.ok v, f3) => ((Except.ok (g v) : Except Exn Answer), f3)
      | (.error e, f3) => (Except.error e, f3)).1
  revert h
  rcases m f1 with ⟨r1, g1⟩
  rcases m f2 with ⟨r2, g2⟩
  intro h
  cases (h : r1 = r2)
  cases r1 <;> rfl

/-- What a read-only member function answers for a Null, a Boolean, a Number or a String does not
depend on the heap. -/
theorem Query.run_scalar (q : Query) (a : SValue) (h1 h2 : Heap)
    (ha : a = .null ∨ (∃ b, a = .boolean b) ∨ (∃ d, a = .number d) ∨ (∃ s, a = .string s)) :
    (q.run ⟨h1, a⟩).1 = (q.run ⟨h2, a⟩).1 := by
  have neg : ∀ j : Int, (SValue.at_int j ⟨h1, a⟩).1 = (SValue.at_int j ⟨h2, a⟩).1 := by
    intro j
    by_cases hj : j < 0
    · rw [at_int_neg j hj, at_int_neg j hj]
    · rw [at_int_nonneg j (not_lt.1 hj), at_int_nonneg j (not_lt.1 hj)]
      rcases ha with rfl | ⟨b, rfl⟩ | ⟨d, rfl⟩ | ⟨s, rfl⟩ <;> rfl
  cases q with
  | at_int j => exact Method.answer_congr (SValue.at_int j) Answer.value _ _ (neg j)
  | _ => rcases ha with rfl | ⟨b, rfl⟩ | ⟨d, rfl⟩ | ⟨s, rfl⟩ <;> rfl

/-- A mutation leaves an Array an Array with the same body, and an Object an Object with the same
body: only Null is assigned to. -/
theorem Mutation.run_self (mu : Mutation) (h : Heap) (a : SValue)
    (ha : (∃ p, a = .array p) ∨ (∃ p, a = .object p)) : (mu.run ⟨h, a⟩).2.self = a := by
  have key : ∀ k, (SValue.index_key k ⟨h, a⟩).2.self = a := by
    intro k
    rcases ha with ⟨p, rfl⟩ | ⟨p, rfl⟩ <;> rfl
  have idx : ∀ i, (SValue.index_idx i ⟨h, a⟩).2.self = a := by
    intro i
    rcases ha with ⟨p, rfl⟩ | ⟨p, rfl⟩
    · rw [index_idx_array]
    · rfl
  cases mu with
  | push_back v => rcases ha with ⟨p, rfl⟩ | ⟨p, rfl⟩ <;> rfl
  | assign_key k val => rcases ha with ⟨p, rfl⟩ | ⟨p, rfl⟩ <;> rfl
  | assign_idx i val =>
    rcases ha with ⟨p, rfl⟩ | ⟨p, rfl⟩
    · show (SValue.assign_idx i val ⟨h, .array p⟩).2.self = _
      rw [assign_idx_array]
    · rfl
  | index_key k => exact (congrArg Frame.self (Method.discard_state _ _)).trans (key k)
  | index_cstr k =>
    cases k with
    | none => rfl
    | some s => exact (congrArg Frame.self (Method.discard_state _ _)).trans (key s)
  | index_idx i => exact (congrArg Frame.self (Method.discard_state _ _)).trans (idx i)
  | index_int j =>
    refine (congrArg Frame.self (Method.discard_state _ _)).trans ?_
    by_cases hj : j < 0
    · rw [index_int_neg j hj]
    · rw [index_int_nonneg j (not_lt.1 hj)]; exact idx _

/-! ### The layout of containers -/

/-- The array loop writes the texts of the elements with one comma between two of them. -/
theorem serializeElements_eq (a : List Value) :
    serialize.serializeElements a = [','].intercalate (a.map serialize) := by
  induction a with
  | nil => rfl
  | cons x r ih =>
    cases r with
    | nil => simp [serialize.serializeElements, List.intercalate]
    | cons y r2 =>
      rw [serialize.serializeElements, ih]
      simp [List.intercalate]

/-- The object loop writes the texts of the entries with one comma between two of them. -/
theorem serializeEntries_eq (o : List (Str × Value)) :
    serialize.serializeEntries o = [','].intercalate (o.map entryText) := by
  induction o with
  | nil => rfl
  | cons x r ih =>
    obtain ⟨k, v⟩ := x
    cases r with
    | nil => simp [serialize.serializeEntries, List.intercalate, entryText]
    | cons y r2 =>
      rw [serialize.serializeEntries, ih]
      simp [List.intercalate, entryText]

/-- In ascending entries every entry has a smaller key than every later one. -/
theorem pairwise_of_keysAscending (o : ObjectType) (h : keysAscending o = true) :
    List.Pairwise (fun a b => strLt a.1 b.1 = true) o := by
  induction o with
  | nil => exact List.Pairwise.nil
  | cons e r ih =>
    obtain ⟨k, v⟩ := e
    rw [keysAscending_cons] at h
    exact List.Pairwise.cons (fun kv hkv => h.1 kv hkv) (ih h.2)

/-- A key not above a key below every key of the map is not in the map. -/
theorem mapFind_none_of_below (k k1 : Str) (r : ObjectType)
    (hr : ∀ kv ∈ r, strLt k1 kv.1 = true) (hk : strLt k1 k = false) : mapFind k r = none := by
  cases r with
  | nil => rfl
  | cons e r2 =>
    obtain ⟨k3, v3⟩ := e
    have h13 : strLt k1 k3 = true := hr (k3, v3) (List.mem_cons_self _ _)
    have h3 : strLt k3 k = false := by
      cases h : strLt k3 k with
      | false => rfl
      | true => rw [strLt_trans k1 k3 k h13 h] at hk; exact absurd hk (by simp)
    have h4 : strLt k k3 = true := by
      cases h : strLt k k3 with
      | true => rfl
      | false =>
        have e := strLt_connex k k3 h h3
        subst e
        rw [h13] at hk
        exact absurd hk (by simp)
    simp [mapFind, h3, h4]

/-- Two maps that hold the same value for every key have the same entries. -/
theorem entries_eq_of_mapFind_eq (o1 : ObjectType) : ∀ (o2 : ObjectType),
    keysAscending o1 = true → keysAscending o2 = true →
    (∀ k, mapFind k o1 = mapFind k o2) → o1 = o2 := by
  induction o1 with
  | nil =>
    intro o2 _ _ h
    cases o2 with
    | nil => rfl
    | cons e r =>
      obtain ⟨k2, v2⟩ := e
      have := h k2
      simp [mapFind, strLt_irrefl] at this
  | cons e1 r1 ih =>
    obtain ⟨k1, v1⟩ := e1
    intro o2 h1 h2 h
    cases o2 with
    | nil =>
      have := h k1
      simp [mapFind, strLt_irrefl] at this
    | cons e2 r2 =>
      obtain ⟨k2, v2⟩ := e2
      have a1 := h k1
      have a2 := h k2
      simp only [mapFind, strLt_irrefl, Bool.false_eq_true, if_false] at a1 a2
      have hk12 : strLt k1 k2 = false := by
        cases hc : strLt k1 k2 with
        | false => rfl
        | true => simp [hc, strLt_asymm k1 k2 hc] at a1
      have hk21 : strLt k2 k1 = false := by
        cases hc : strLt k2 k1 with
        | false => rfl
        | true => simp [hc, strLt_asymm k2 k1 hc] at a2
      have ek := strLt_connex k1 k2 hk12 hk21
      subst ek
      simp only [strLt_irrefl, Bool.false_eq_true, if_false, Option.some.injEq] at a1
      subst a1
      rw [keysAscending_cons] at h1 h2
      have et : r1 = r2 := by
        apply ih r2 h1.2 h2.2
        intro k
        by_cases hk : strLt k1 k = true
        · have := h k
          simpa [mapFind, hk] using this
        · have hk2 : strLt k1 k = false := by simpa using hk
          rw [mapFind_none_of_below k k1 r1 h1.1 hk2, mapFind_none_of_below k k1 r2 h2.1 hk2]
      rw [et]

/-! ### Escapes -/

/-- The table of the specification is the `switch` of `parseStringValue`. -/
theorem decoded_escape (c : Char) : (StringItem.escape c).decoded = unescape c := by
  unfold unescape
  by_cases h1 : c = '"'
  · subst h1; rfl
  by_cases h2 : c = '\\'
  · subst h2; rfl
  by_cases h3 : c = '/'
  · subst h3; rfl
  by_cases h4 : c = 'b'
  · subst h4; rfl
  by_cases h5 : c = 'f'
  · subst h5; rfl
  by_cases h6 : c = 'n'
  · subst h6; rfl
  by_cases h7 : c = 'r'
  · subst h7; rfl
  by_cases h8 : c = 't'
  · subst h8; rfl
  rw [if_neg h1, if_neg h2, if_neg h3, if_neg h4, if_neg h5, if_neg h6, if_neg h7, if_neg h8]
  unfold StringItem.decoded
  split <;> simp_all

/-- The string loop decodes the items of a literal one after another, up to the closing double
quote. -/
theorem parseStringLoop_items (items : List StringItem)
    (hi : ∀ it ∈ items, it.inside = true) (rest acc : Str) (k : Nat) :
    parseStringLoop (k + items.length + 1)
        (items.flatMap StringItem.text ++ '"' :: rest) acc =
      some (acc ++ items.map StringItem.decoded, rest) := by
  induction items generalizing acc with
  | nil => simp [parseStringLoop_succ, get_cons]
  | cons it r ih =>
    have hr : ∀ it ∈ r, it.inside = true := fun x hx => hi x (List.mem_cons_of_mem _ hx)
    have hit := hi it (List.mem_cons_self _ _)
    show parseStringLoop ((k + r.length + 1) + 1) _ _ = _
    rw [parseStringLoop_succ]
    cases it with
    | plain c =>
      simp only [StringItem.inside, decide_eq_true_eq] at hit
      simp only [List.flatMap_cons, StringItem.text, List.cons_append, List.nil_append, get_cons,
        hit.1, hit.2, if_false]
      rw [ih hr]
      simp [StringItem.decoded]
    | escape c =>
      have e : ('\\' : Char) ≠ '"' := by decide
      simp only [List.flatMap_cons, StringItem.text, List.cons_append, List.nil_append, get_cons,
        e, if_false, if_true]
      rw [ih hr, ← decoded_escape]
      simp

/-! ### Trees without numbers -/

mutual

/-- A tree without Number node whose strings and keys are plain is plain. -/
theorem plain_of_numberFree (v : Value) (hn : v.numberFree = true) (hs : v.stringsPlain = true) :
    v.plain = true :=
  match v with
  | .null => rfl
  | .boolean _ => rfl
  | .number d => by simp [Value.numberFree] at hn
  | .string s => by simpa [Value.plain, Value.stringsPlain] using hs
  | .array a => by
    have h1 : Value.numberFree.elements a = true := by simpa [Value.numberFree] using hn
    have h2 : Value.stringsPlain.elements a = true := by simpa [Value.stringsPlain] using hs
    simpa [Value.plain] using plain_elements a h1 h2
  | .object o => by
    have h1 : Value.numberFree.entries o = true := by simpa [Value.numberFree] using hn
    have h2 : Value.stringsPlain.entries o = true := by simpa [Value.stringsPlain] using hs
    simpa [Value.plain] using plain_entries o h1 h2

/-- Elements without Number node whose strings and keys are plain are plain. -/
theorem plain_elements (a : List Value) (hn : Value.numberFree.elements a = true)
    (hs : Value.stringsPlain.elements a = true) : Value.plain.elements a = true :=
  match a with
  | [] => rfl
  | x :: r => by
    simp only [Value.numberFree.elements, Value.stringsPlain.elements, Bool.and_eq_true] at hn hs
    simp only [Value.plain.elements, Bool.and_eq_true]
    exact ⟨plain_of_numberFree x hn.1 hs.1, plain_elements r hn.2 hs.2⟩

/-- Entries without Number node whose strings and keys are plain are plain. -/
theorem plain_entries (o : List (Str × Value)) (hn : Value.numberFree.entries o = true)
    (hs : Value.stringsPlain.entries o = true) : Value.plain.entries o = true :=
  match o with
  | [] => rfl
  | (k, x) :: r => by
    simp only [Value.numberFree.entries, Value.stringsPlain.entries, Bool.and_eq_true] at hn hs
    simp only [Value.plain.entries, Bool.and_eq_true]
    exact ⟨⟨hs.1.1, plain_of_numberFree x hn.1 hs.1.2⟩, plain_entries r hn.2 hs.2⟩

end

/-- A value whose text the parser reads back is what `Value::parse` returns for its text, with
enough fuel, and no other result comes with less. -/
theorem parse_serialize_of_readsBack (v : Value) (h : ReadsBack v) :
    (∃ n, ∀ m, n ≤ m → Value.parse m (serialize v) = some (.ok v)) ∧
    (∀ m r, Value.parse m (serialize v) = some r → r = .ok v) := by
  obtain ⟨n, hn⟩ := h [] numberEnds_nil
  rw [List.append_nil] at hn
  have key : ∀ m, n ≤ m → Value.parse m (serialize v) = some (.ok v) := by
    intro m hm
    simp [Value.parse, parse_mono hn hm]
  refine ⟨⟨n, key⟩, fun m r hr => ?_⟩
  have h1 := key (max n m) (le_max_left _ _)
  cases hp2 : parse m (serialize v) with
  | none => simp [Value.parse, hp2] at hr
  | some pr =>
    have h2 := parse_mono hp2 (le_max_right n m)
    simp only [Value.parse, h2] at h1
    simp only [Value.parse, hp2] at hr
    cases pr with
    | error e => simp at h1
    | ok vr =>
      obtain ⟨v2, r2⟩ := vr
      simp only [Option.some.injEq, Except.ok.injEq] at h1 hr
      rw [← hr, h1]

/-! ## The claims, continued -/

/-- Claim C11: `push_back(v)` on an Array of size `n` gives the Array with `v` appended: its size
is `n + 1`, the element at `n` is `v`, the elements at `0..n-1` are the ones before; on Null it
gives the Array of the one element `v`; on a Boolean, a Number, a String and an Object it throws
`TypeError`.  Both for values as trees (`v`) and for values whose bodies are shared (`w`, on a
heap `h` in which the body of the Array is allocated; the failing call leaves the state as it
was). -/
theorem C11_push_back_appends (v : Value) (w : SValue) (h : Heap) :
    (∀ a : ArrayType,
      (Value.array a).push_back v = .ok (Value.array (a ++ [v])) ∧
      (Value.array (a ++ [v])).size = a.length + 1 ∧
      (Value.array (a ++ [v])).at_index a.length = .ok v ∧
      (∀ j, j < a.length →
        (Value.array (a ++ [v])).at_index j = (Value.array a).at_index j)) ∧
    (Value.null.push_back v = .ok (Value.array [v]) ∧ (Value.array [v]).size = 1 ∧
      (Value.array [v]).at_index 0 = .ok v) ∧
    (∀ x : Value, x.type = Type_.Boolean ∨ x.type = Type_.Number ∨ x.type = Type_.String ∨
      x.type = Type_.Object → x.push_back v = .error .TypeError) ∧
    (∀ p, p < h.arrays.length →
      ∃ h2, SValue.push_back w ⟨h, .array p⟩ = (.ok (), ⟨h2, .array p⟩) ∧
        (SValue.size ⟨h2, .array p⟩).1 = .ok ((h.arrays.getD p []).length + 1) ∧
        (SValue.at_index (h.arrays.getD p []).length ⟨h2, .array p⟩).1 = .ok w ∧
        (∀ j, j < (h.arrays.getD p []).length →
          (SValue.at_index j ⟨h2, .array p⟩).1 = (SValue.at_index j ⟨h, .array p⟩).1)) ∧
    (∃ h2 p, SValue.push_back w ⟨h, .null⟩ = (.ok (), ⟨h2, .array p⟩) ∧
      (SValue.size ⟨h2, .array p⟩).1 = .ok 1 ∧
      (SValue.at_index 0 ⟨h2, .array p⟩).1 = .ok w) ∧
    (∀ x : SValue, (∃ b, x = .boolean b) ∨ (∃ d, x = .number d) ∨ (∃ s, x = .string s) ∨
      (∃ p, x = .object p) → SValue.push_back w ⟨h, x⟩ = (.error .TypeError, ⟨h, x⟩)) := by
  refine ⟨fun a => ⟨rfl, ?_, ?_, ?_⟩, ⟨rfl, rfl, rfl⟩, ?_, ?_, ?_, ?_⟩
  · simp [Value.size]
  · simp [Value.at_index]
  · intro j hj
    simp [Value.at_index, hj, Nat.lt_succ_of_lt hj, List.getElem?_append_left hj]
  · intro x hx
    cases x <;> simp [Value.type] at hx <;> rfl
  · intro p hp
    refine ⟨_, push_back_array h p w, ?_, ?_, ?_⟩
    · rw [size_array, getD_set_same _ _ _ hp]; simp
    · rw [at_index_array, getD_set_same _ _ _ hp]; simp
    · intro j hj
      rw [at_index_array, at_index_array, getD_set_same _ _ _ hp]
      have e : (h.arrays.getD p [] ++ [w]).get? j = (h.arrays.getD p []).get? j := by
        rw [List.get?_eq_getElem?, List.get?_eq_getElem?]
        exact List.getElem?_append_left hj
      rw [e]
  · refine ⟨_, _, push_back_null h w, ?_, ?_⟩
    · rw [size_array]; simp [List.getD]
    · rw [at_index_array]; simp [List.getD]
  · intro x hx
    rcases hx with ⟨b, rfl⟩ | ⟨d, rfl⟩ | ⟨s, rfl⟩ | ⟨p, rfl⟩ <;> rfl

/-- Claim C11 at the Array `[true]` with its body at the address 0, to which the String `a` is
appended, and at `test_generation` of `examples/main.cpp`, which appends `"a"` and `"b"` to an
empty Array. -/
theorem C11_push_back_appends_witness :
    ((0 : Nat) < (Heap.mk [[SValue.boolean true]] []).arrays.length ∧
      ∃ h2, SValue.push_back (.string ['a']) ⟨⟨[[.boolean true]], []⟩, .array 0⟩ =
          (.ok (), ⟨h2, .array 0⟩) ∧
        (SValue.size ⟨h2, .array 0⟩).1 = .ok 2 ∧
        (SValue.at_index 1 ⟨h2, .array 0⟩).1 = .ok (.string ['a']) ∧
        (∀ j, j < 1 → (SValue.at_index j ⟨h2, .array 0⟩).1 =
          (SValue.at_index j ⟨⟨[[.boolean true]], []⟩, .array 0⟩).1)) ∧
    ((Value.array []).push_back (Value.string ['a']) = .ok (Value.array [Value.string ['a']]) ∧
      (Value.array [Value.string ['a']]).push_back (Value.string ['b']) =
        .ok (Value.array [Value.string ['a'], Value.string ['b']])) :=
  ⟨⟨by decide,
    (C11_push_back_appends Value.null (.string ['a']) ⟨[[.boolean true]], []⟩).2.2.2.1 0
      (by decide)⟩,
    rfl, rfl⟩

/-- Claim C12: `get<bool>` returns a result exactly for a Boolean, `get<int>` and `get<double>`
exactly for a Number, `get<std::string>` exactly for a String, and for a value of any other type
each throws `TypeError` (`get<bool>` on the Number 5, `get<int>` on an Object); the result of
`get<bool>`, `get<double>` and `get<std::string>` is the stored payload, that of `get<int>` the
`static_cast<int>` of the stored double. -/
theorem C12_get_is_strict (x : Value) :
    ((∃ b, x.get_bool = .ok b) ↔ x.type = Type_.Boolean) ∧
    ((∃ i, x.get_int = .ok i) ↔ x.type = Type_.Number) ∧
    ((∃ d, x.get_double = .ok d) ↔ x.type = Type_.Number) ∧
    ((∃ s, x.get_string = .ok s) ↔ x.type = Type_.String) ∧
    (x.type ≠ Type_.Boolean → x.get_bool = .error .TypeError) ∧
    (x.type ≠ Type_.Number → x.get_int = .error .TypeError ∧ x.get_double = .error .TypeError) ∧
    (x.type ≠ Type_.String → x.get_string = .error .TypeError) ∧
    (∀ b, x = Value.boolean b → x.get_bool = .ok b) ∧
    (∀ d, x = Value.number d → x.get_double = .ok d ∧ x.get_int = .ok d.toInt) ∧
    (∀ s, x = Value.string s → x.get_string = .ok s) ∧
    (Value.number (Double.ofInt 5)).get_bool = .error .TypeError ∧
    (Value.object []).get_int = .error .TypeError := by
  cases x <;>
    simp [Value.get_bool, Value.get_int, Value.get_double, Value.get_string, Value.type]

/-- Claim C13: `contains(k)` throws nothing, and is true exactly when the value is an Object with
an entry for `k`; `at(k)` returns the value of that entry exactly when `contains(k)` is true, it
throws `TypeError` when the value is no Object and `RuntimeError` when it is an Object without an
entry for `k`. -/
theorem C13_keyed_lookup (x : Value) (k : Str) (hx : x.wellFormed = true) :
    (x.type ≠ Type_.Object → x.contains k = false ∧ x.at_key k = .error .TypeError) ∧
    (∀ o, x = Value.object o →
      (x.contains k = true ↔ ∃ v, (k, v) ∈ o) ∧
      (∀ v, x.at_key k = .ok v ↔ (k, v) ∈ o) ∧
      (x.contains k = false → x.at_key k = .error .RuntimeError)) ∧
    (x.contains k = true ↔ ∃ v, x.at_key k = .ok v) := by
  cases x with
  | object o =>
    simp only [Value.wellFormed, Bool.and_eq_true] at hx
    have key := fun v => mapFind_eq_some_iff_mem k v o hx.1
    refine ⟨fun h => absurd rfl h, ?_, ?_⟩
    · intro o2 ho
      cases ho
      refine ⟨?_, ?_, ?_⟩
      · rw [Value.contains, Option.isSome_iff_exists]
        exact exists_congr key
      · intro v
        rw [← key v, Value.at_key]
        cases mapFind k o <;> simp
      · rw [Value.contains, Value.at_key]
        cases mapFind k o <;> simp
    · rw [Value.contains, Value.at_key]
      cases mapFind k o <;> simp
  | null => exact ⟨fun _ => ⟨rfl, rfl⟩, (fun o h => by cases h), by simp [Value.contains, Value.at_key]⟩
  | boolean b => exact ⟨fun _ => ⟨rfl, rfl⟩, (fun o h => by cases h), by simp [Value.contains, Value.at_key]⟩
  | number d => exact ⟨fun _ => ⟨rfl, rfl⟩, (fun o h => by cases h), by simp [Value.contains, Value.at_key]⟩
  | string s => exact ⟨fun _ => ⟨rfl, rfl⟩, (fun o h => by cases h), by simp [Value.contains, Value.at_key]⟩
  | array a => exact ⟨fun _ => ⟨rfl, rfl⟩, (fun o h => by cases h), by simp [Value.contains, Value.at_key]⟩

/-- Claim C13 at the Object `{"a":1,"b":[true,null,"x"]}` and the key `a`, which it contains, and
the key `z`, for which `at` throws `RuntimeError`. -/
theorem C13_keyed_lookup_witness :
    scenarioTree.wellFormed = true ∧
    scenarioTree.contains ['a'] = true ∧
    scenarioTree.at_key ['a'] = .ok (Value.number (Double.fin false 1 0)) ∧
    scenarioTree.contains ['z'] = false ∧
    scenarioTree.at_key ['z'] = .error .RuntimeError ∧
    (scenarioTree.contains ['a'] = true ↔ ∃ v, scenarioTree.at_key ['a'] = .ok v) :=
  ⟨by decide, rfl, rfl, rfl, rfl, (C13_keyed_lookup scenarioTree ['a'] (by decide)).2.2⟩

/-- Claim C14, counterexample: `at("k")` on Null throws `TypeError`, which is not the
`RuntimeError` that `at("k")` throws on the empty Object. -/
theorem C14_non_object_is_type_error :
    Value.null.at_key ['k'] = .error .TypeError ∧
    Value.null.at_key ['k'] ≠ .error .RuntimeError ∧
    (Value.object []).at_key ['k'] = .error .RuntimeError :=
  ⟨rfl, (fun h => by cases h), rfl⟩

/-- Claim C14, as amended: `at(k)` on a value that is no Object throws `TypeError`; on an Object
it throws nothing but `RuntimeError`, and throws that when the Object has no entry for `k`. -/
theorem C14_at_key_failure_kinds (x : Value) (k : Str) :
    (x.type ≠ Type_.Object → x.at_key k = .error .TypeError) ∧
    (x.type = Type_.Object → ∀ e, x.at_key k = .error e → e = .RuntimeError) ∧
    (x.type = Type_.Object → x.contains k = false → x.at_key k = .error .RuntimeError) := by
  cases x with
  | object o =>
    refine ⟨fun h => absurd rfl h, fun _ e => ?_, fun _ => ?_⟩
    · rw [Value.at_key]
      cases mapFind k o with
      | none => intro h; cases h; rfl
      | some v => intro h; cases h
    · rw [Value.contains, Value.at_key]
      cases mapFind k o <;> simp
  | null => exact ⟨fun _ => rfl, (fun h => by cases h), (fun h => by cases h)⟩
  | boolean b => exact ⟨fun _ => rfl, (fun h => by cases h), (fun h => by cases h)⟩
  | number d => exact ⟨fun _ => rfl, (fun h => by cases h), (fun h => by cases h)⟩
  | string s => exact ⟨fun _ => rfl, (fun h => by cases h), (fun h => by cases h)⟩
  | array a => exact ⟨fun _ => rfl, (fun h => by cases h), (fun h => by cases h)⟩

/-- Claim C15: `at(i)`, to which the const `operator[](size_t)` forwards, returns the element at
`i` exactly when the value is an Array and `i < size()`; it throws `TypeError` when the value is
no Array and `RuntimeError` when it is an Array and `i` is at or past its end.  The const
`operator[](int)` throws `RuntimeError` for a negative index and forwards any other to `at`. -/
theorem C15_indexed_lookup (x : Value) (i : Nat) (j : Int) :
    (x.type ≠ Type_.Array → x.at_index i = .error .TypeError) ∧
    (∀ a, x = Value.array a →
      (∀ h : i < a.length, x.at_index i = .ok (a.get ⟨i, h⟩)) ∧
      (a.length ≤ i → x.at_index i = .error .RuntimeError)) ∧
    ((∃ v, x.at_index i = .ok v) ↔ x.type = Type_.Array ∧ i < x.size) ∧
    (j < 0 → x.at_int j = .error .RuntimeError) ∧
    (0 ≤ j → x.at_int j = x.at_index j.toNat) := by
  refine ⟨?_, ?_, ?_, fun h => by simp [Value.at_int, h],
    fun h => by simp [Value.at_int, not_lt.2 h]⟩
  · cases x <;> first | (intro _; rfl) | (intro h; exact absurd rfl h)
  · intro a ha
    subst ha
    refine ⟨fun h => ?_, fun h => ?_⟩
    · simp [Value.at_index, List.getElem?_eq_getElem h]
    · simp [Value.at_index, List.getElem?_eq_none h]
  · cases x with
    | array a =>
      simp only [Value.at_index, Value.type, Value.size, true_and, List.get?_eq_getElem?]
      by_cases h : i < a.length
      · simp [List.getElem?_eq_getElem h, h]
      · simp [List.getElem?_eq_none (not_lt.1 h), h]
    | null => simp [Value.at_index, Value.type]
    | boolean b => simp [Value.at_index, Value.type]
    | number d => simp [Value.at_index, Value.type]
    | string s => simp [Value.at_index, Value.type]
    | object o => simp [Value.at_index, Value.type]

/-- Claim C16: a call of `at(key)`, `at(index)`, the const `operator[]`, the mutable
`operator[]` by key or by index (a null key pointer and a negative `int` index included),
`push_back`, keyed or indexed assignment, or `get<T>` that fails, fails with `TypeError` or
`RuntimeError` and ends in the state in which it began: the value and every body on the heap are
as before, so every read-only member function answers as before.  The read-only member functions
(`type`, `is_*`, `contains`, `size`, `at`, the const `operator[]`, `get<T>`) end in the state in
which they began whether they succeed or fail. -/
theorem C16_accessor_failures_atomic (f : Frame) (e : Exn) :
    (∀ q : Query, (q.run f).2 = f) ∧
    (∀ k, (SValue.at_key k f).2 = f) ∧
    (∀ i, (SValue.at_index i f).2 = f) ∧
    (∀ j, (SValue.at_int j f).2 = f) ∧
    (∀ k, (SValue.index_key k f).1 = .error e → (SValue.index_key k f).2 = f) ∧
    (∀ k, (SValue.index_cstr k f).1 = .error e → (SValue.index_cstr k f).2 = f) ∧
    (∀ i, (SValue.index_idx i f).1 = .error e → (SValue.index_idx i f).2 = f) ∧
    (∀ j, (SValue.index_int j f).1 = .error e → (SValue.index_int j f).2 = f) ∧
    (∀ v, (SValue.push_back v f).1 = .error e → (SValue.push_back v f).2 = f) ∧
    (∀ mu : Mutation, (mu.run f).1 = .error e →
      (e = .TypeError ∨ e = .RuntimeError) ∧ (mu.run f).2 = f ∧
        ∀ q : Query, (q.run (mu.run f).2).1 = (q.run f).1) ∧
    SValue.index_cstr none f = (.error .RuntimeError, f) ∧
    (∀ j : Int, j < 0 → SValue.index_int j f = (.error .RuntimeError, f) ∧
      SValue.at_int j f = (.error .RuntimeError, f)) :=
  ⟨fun q => Query.run_state q f, fun k => at_key_state k f, fun i => at_index_state i f,
    fun j => at_int_state j f,
    fun k he => (index_key_atomic k f e he).2, fun k he => (index_cstr_atomic k f e he).2,
    fun i he => (index_idx_atomic i f e he).2, fun j he => (index_int_atomic j f e he).2,
    fun v he => (push_back_atomic v f e he).2,
    fun mu he => ⟨(Mutation.run_atomic mu f e he).1, (Mutation.run_atomic mu f e he).2,
      fun q => by rw [(Mutation.run_atomic mu f e he).2]⟩,
    rfl, fun j hj => ⟨index_int_neg j hj f, at_int_neg j hj f⟩⟩

/-- Claim C16 at the Boolean `true`, on which `push_back` and the mutable `operator[]` throw
`TypeError`, and at a negative index. -/
theorem C16_accessor_failures_atomic_witness :
    (SValue.push_back .null ⟨⟨[], []⟩, .boolean true⟩).1 = .error .TypeError ∧
    (SValue.push_back .null ⟨⟨[], []⟩, .boolean true⟩).2 = ⟨⟨[], []⟩, .boolean true⟩ ∧
    (SValue.index_key ['k'] ⟨⟨[], []⟩, .boolean true⟩).1 = .error .TypeError ∧
    (SValue.index_key ['k'] ⟨⟨[], []⟩, .boolean true⟩).2 = ⟨⟨[], []⟩, .boolean true⟩ ∧
    SValue.index_int (-1) ⟨⟨[[]], []⟩, .array 0⟩ = (.error .RuntimeError, ⟨⟨[[]], []⟩, .array 0⟩) :=
  ⟨rfl,
    (C16_accessor_failures_atomic ⟨⟨[], []⟩, .boolean true⟩ .TypeError).2.2.2.2.2.2.2.2.1
      .null rfl,
    rfl,
    (C16_accessor_failures_atomic ⟨⟨[], []⟩, .boolean true⟩ .TypeError).2.2.2.2.1 ['k'] rfl,
    ((C16_accessor_failures_atomic ⟨⟨[[]], []⟩, .array 0⟩ .RuntimeError).2.2.2.2.2.2.2.2.2.2.2
      (-1) (by decide)).1⟩

/-- Claim C17: for an Object `operator<<` writes an opening brace, the entries as `"key":value`
with one comma between two of them, and a closing brace, nothing else (no whitespace, no comma
after the last entry); the entries come in the order of the map, which is strictly ascending in
the keys, so two Objects that hold the same value for every key have the same text, whatever the
order in which the keys were assigned.  For an Array it writes an opening bracket, the texts of
the elements in index order with one comma between two of them, and a closing bracket.  The empty
Object is written `{}` and the empty Array `[]`. -/
theorem C17_container_layout :
    (∀ o : ObjectType,
      serialize (Value.object o) = '{' :: [','].intercalate (o.map entryText) ++ ['}']) ∧
    (∀ o : ObjectType, keysAscending o = true →
      List.Pairwise (fun a b => strLt a.1 b.1 = true) o) ∧
    (∀ o1 o2 : ObjectType, keysAscending o1 = true → keysAscending o2 = true →
      (∀ k, mapFind k o1 = mapFind k o2) →
      serialize (Value.object o1) = serialize (Value.object o2)) ∧
    (∀ kvs1 kvs2 : List (Str × Value), (∀ k, lastValue k kvs1 = lastValue k kvs2) →
      serialize (Value.object (assignAll [] kvs1)) =
        serialize (Value.object (assignAll [] kvs2))) ∧
    (∀ a : ArrayType,
      serialize (Value.array a) = '[' :: [','].intercalate (a.map serialize) ++ [']']) ∧
    serialize (Value.object []) = ['{', '}'] ∧
    serialize (Value.array []) = ['[', ']'] ∧
    serialize (Value.object (assignAll [] shuffledMembers)) =
      "\x7b\"a\":[],\"b\":true,\"c\":\"x\"\x7d".toList ∧
    serialize (Value.object (assignAll [] sortedMembers)) =
      "\x7b\"a\":[],\"b\":true,\"c\":\"x\"\x7d".toList := by
  refine ⟨fun o => ?_, pairwise_of_keysAscending, fun o1 o2 h1 h2 h => ?_, fun kvs1 kvs2 h => ?_,
    fun a => ?_, rfl, rfl, by decide, by decide⟩
  · rw [serialize, serializeEntries_eq]
  · rw [entries_eq_of_mapFind_eq o1 o2 h1 h2 h]
  · have e : assignAll [] kvs1 = assignAll [] kvs2 := by
      apply entries_eq_of_mapFind_eq _ _ (keysAscending_assignAll kvs1 [] rfl)
        (keysAscending_assignAll kvs2 [] rfl)
      intro k
      rw [mapFind_assignAll, mapFind_assignAll, h k]
    rw [e]
  · rw [serialize, serializeElements_eq]

/-- Claim C18: for a string literal whose closing double quote is the first double quote that
follows no backslash, `parseStringValue` returns, item by item, what stands between the quotes:
an unescaped character as it is, and for a backslash with the character `c` after it the
character of the table (`"`, `\`, `/`, backspace, form feed, line feed, carriage return, tab for
`"`, `\`, `/`, `b`, `f`, `n`, `r`, `t`) and `c` itself for any other `c`; the stream is left after
the closing quote.  One unit of fuel an item, and one for the quote, is enough; `Value::parse`
returns the String of these characters. -/
theorem C18_escape_decoding (items : List StringItem)
    (hi : ∀ it ∈ items, it.inside = true) (rest : Str) (k : Nat) :
    parseStringValue (k + items.length + 1)
        ('"' :: (items.flatMap StringItem.text ++ '"' :: rest)) =
      some (items.map StringItem.decoded, rest) ∧
    Value.parse (k + items.length + 2)
        ('"' :: (items.flatMap StringItem.text ++ '"' :: rest)) =
      some (.ok (Value.string (items.map StringItem.decoded))) ∧
    (∀ c, (StringItem.plain c).decoded = c) ∧
    (StringItem.escape '"').decoded = '"' ∧
    (StringItem.escape '\\').decoded = '\\' ∧
    (StringItem.escape '/').decoded = '/' ∧
    (StringItem.escape 'b').decoded = Char.ofNat 8 ∧
    (StringItem.escape 'f').decoded = Char.ofNat 12 ∧
    (StringItem.escape 'n').decoded = Char.ofNat 10 ∧
    (StringItem.escape 'r').decoded = Char.ofNat 13 ∧
    (StringItem.escape 't').decoded = Char.ofNat 9 ∧
    (∀ c, c ∉ ['"', '\\', '/', 'b', 'f', 'n', 'r', 't'] → (StringItem.escape c).decoded = c) := by
  have h1 : parseStringValue (k + items.length + 1)
      ('"' :: (items.flatMap StringItem.text ++ '"' :: rest)) =
      some (items.map StringItem.decoded, rest) := by
    have := parseStringLoop_items items hi rest [] k
    simpa [parseStringValue, Parser.get] using this
  refine ⟨h1, ?_, fun c => rfl, rfl, rfl, rfl, rfl, rfl, rfl, rfl, rfl, fun c hc => ?_⟩
  · have e : Parser.parse (k + items.length + 1 + 1)
        ('"' :: (items.flatMap StringItem.text ++ '"' :: rest)) =
        parseString (k + items.length + 1)
          ('"' :: (items.flatMap StringItem.text ++ '"' :: rest)) := rfl
    show Value.parse (k + items.length + 1 + 1) _ = _
    unfold Value.parse
    rw [e]
    unfold parseString
    rw [h1]
  · simp only [List.mem_cons, List.mem_singleton, not_or, List.not_mem_nil, or_false] at hc
    rw [decoded_escape]
    unfold unescape
    simp [hc]

/-- Claim C18 at the literal that spells the escape `u0041` after a backslash, which gives the
five characters `u0041`, and at a literal with every escape of the table. -/
theorem C18_escape_decoding_witness :
    (∀ it ∈ unicodeItems, it.inside = true) ∧
    parseStringValue 6 ['"', '\\', 'u', '0', '0', '4', '1', '"'] =
      some (['u', '0', '0', '4', '1'], []) ∧
    (∀ it ∈ escapeItems, it.inside = true) ∧
    Value.parse 13 ['"', 'a', '\\', '"', '\\', '\\', '\\', '/', '\\', 'b', '\\', 'f', '\\', 'n',
        '\\', 'r', '\\', 't', '\\', 'x', ' ', '"', ' '] =
      some (.ok (Value.string ['a', '"', '\\', '/', Char.ofNat 8, Char.ofNat 12, Char.ofNat 10,
        Char.ofNat 13, Char.ofNat 9, 'x', ' '])) :=
  ⟨by decide, (C18_escape_decoding unicodeItems (by decide) [] 0).1, by decide,
    (C18_escape_decoding escapeItems (by decide) [' '] 0).2.1⟩

/-- Claim C19: a copy `b` of an Array or Object `a` has the body of `a`.  After any mutation
through `b` (`push_back`, keyed or indexed assignment, the mutable `operator[]`), `b` is still the
handle that `a` is, so every read-only member function (`size`, `at`, `contains`, ...) answers
through `a` what it answers through `b`; and the mutation is seen through `a`: after
`b.push_back(v)` the size through `a` is one more and `a.at(n)` is `v`, after `b[k] = val` the
key is contained and `a.at(k)` is `val`, after `b[i] = val` with `i` in range `a.at(i)` is `val`,
after `b[i]` with `i` at or past the end (below `SIZE_MAX`) the size through `a` is `i + 1`.  For
a Null, Boolean, Number or String `a` no mutation through the copy changes what any read-only
member function answers through `a`: `push_back` through a copy of Null makes the copy an Array
and leaves `a` Null. -/
theorem C19_copies_alias_one_body (h : Heap) (a : SValue) (mu : Mutation) :
    ((∃ p, a = .array p) ∨ (∃ p, a = .object p) →
      (mu.run ⟨h, a.copy⟩).2.self = a ∧
      ∀ q : Query, (q.run ⟨(mu.run ⟨h, a.copy⟩).2.heap, a⟩).1 =
        (q.run (mu.run ⟨h, a.copy⟩).2).1) ∧
    (∀ p v, a = .array p → p < h.arrays.length →
      (SValue.size ⟨(SValue.push_back v ⟨h, a.copy⟩).2.heap, a⟩).1 =
        .ok ((h.arrays.getD p []).length + 1) ∧
      (SValue.at_index (h.arrays.getD p []).length
        ⟨(SValue.push_back v ⟨h, a.copy⟩).2.heap, a⟩).1 = .ok v) ∧
    (∀ p k val, a = .object p → p < h.objects.length →
      (SValue.contains k ⟨(SValue.assign_key k val ⟨h, a.copy⟩).2.heap, a⟩).1 = .ok true ∧
      (SValue.at_key k ⟨(SValue.assign_key k val ⟨h, a.copy⟩).2.heap, a⟩).1 = .ok val) ∧
    (∀ p i val, a = .array p → p < h.arrays.length → i < (h.arrays.getD p []).length →
      (SValue.at_index i ⟨(SValue.assign_idx i val ⟨h, a.copy⟩).2.heap, a⟩).1 = .ok val) ∧
    (∀ p i, a = .array p → p < h.arrays.length → (h.arrays.getD p []).length ≤ i →
      i + 1 < sizeModulus →
      (SValue.size ⟨(SValue.index_idx i ⟨h, a.copy⟩).2.heap, a⟩).1 = .ok (i + 1)) ∧
    (a = .null ∨ (∃ b, a = .boolean b) ∨ (∃ d, a = .number d) ∨ (∃ s, a = .string s) →
      ∀ q : Query, (q.run ⟨(mu.run ⟨h, a.copy⟩).2.heap, a⟩).1 = (q.run ⟨h, a⟩).1) ∧
    (∀ v, (SValue.type (SValue.push_back v ⟨h, SValue.null.copy⟩).2).1 = .ok Type_.Array ∧
      (SValue.type ⟨(SValue.push_back v ⟨h, SValue.null.copy⟩).2.heap, SValue.null⟩).1 =
        .ok Type_.Null) := by
  refine ⟨fun ha => ?_, ?_, ?_, ?_, ?_, fun ha q => Query.run_scalar q a _ _ ha, fun v => ?_⟩
  · have hs : (mu.run ⟨h, a.copy⟩).2.self = a := Mutation.run_self mu h a ha
    refine ⟨hs, fun q => ?_⟩
    generalize mu.run ⟨h, a.copy⟩ = res at hs ⊢
    obtain ⟨r, h2, s2⟩ := res
    cases hs
    rfl
  · rintro p v rfl hp
    show (SValue.size ⟨(SValue.push_back v ⟨h, .array p⟩).2.heap, .array p⟩).1 = _ ∧
      (SValue.at_index _ ⟨(SValue.push_back v ⟨h, .array p⟩).2.heap, .array p⟩).1 = _
    rw [push_back_array, size_array, at_index_array]
    show Except.ok ((h.arrays.set p (h.arrays.getD p [] ++ [v])).getD p []).length = _ ∧
      (match ((h.arrays.set p (h.arrays.getD p [] ++ [v])).getD p []).get? _ with
        | none => Except.error Exn.RuntimeError
        | some v => Except.ok v) = _
    rw [getD_set_same _ _ _ hp]
    simp
  · rintro p k val rfl hp
    show (SValue.contains k ⟨(SValue.assign_key k val ⟨h, .object p⟩).2.heap, .object p⟩).1 = _ ∧
      (SValue.at_key k ⟨(SValue.assign_key k val ⟨h, .object p⟩).2.heap, .object p⟩).1 = _
    rw [assign_key_object, contains_object, at_key_object]
    show Except.ok (entriesFind k (((h.objects.set p (entriesIndex k (h.objects.getD p []))).set p
        (entriesStore k val
          ((h.objects.set p (entriesIndex k (h.objects.getD p []))).getD p []))).getD p [])).isSome
        = _ ∧
      (match entriesFind k (((h.objects.set p (entriesIndex k (h.objects.getD p []))).set p
        (entriesStore k val
          ((h.objects.set p (entriesIndex k (h.objects.getD p []))).getD p []))).getD p []) with
        | none => Except.error Exn.RuntimeError
        | some v => Except.ok v) = _
    rw [getD_set_same _ _ _ (by rw [List.length_set]; exact hp), getD_set_same _ _ _ hp,
      entriesFind_store_index]
    exact ⟨rfl, rfl⟩
  · rintro p i val rfl hp hi
    show (SValue.at_index i ⟨(SValue.assign_idx i val ⟨h, .array p⟩).2.heap, .array p⟩).1 = _
    rw [assign_idx_array, index_idx_array, if_neg (not_le.2 hi), at_index_array]
    show (match ((h.arrays.set p ((h.arrays.getD p []).set i val)).getD p []).get? i with
        | none => Except.error Exn.RuntimeError
        | some v => Except.ok v) = _
    rw [getD_set_same _ _ _ hp]
    generalize h.arrays.getD p [] = arr at hi
    simp [hi]
  · rintro p i rfl hp hi hlt
    show (SValue.size ⟨(SValue.index_idx i ⟨h, .array p⟩).2.heap, .array p⟩).1 = _
    rw [index_idx_array, if_pos hi, size_array]
    show Except.ok ((h.arrays.set p
      (elementsResize ((i + 1) % sizeModulus) (h.arrays.getD p []))).getD p []).length = _
    rw [getD_set_same _ _ _ hp, Nat.mod_eq_of_lt hlt]
    simp only [elementsResize, List.length_append, List.length_take, List.length_replicate]
    congr 1
    omega
  · show (SValue.type (SValue.push_back v ⟨h, .null⟩).2).1 = _ ∧ _
    rw [push_back_null]
    exact ⟨rfl, rfl⟩

/-- Claim C19 at the Array `[true]` with its body at the address 0: after `push_back` of Null
through a copy, the size through the original is 2 and its element at 1 is Null. -/
theorem C19_copies_alias_one_body_witness :
    (0 : Nat) < (Heap.mk [[SValue.boolean true]] []).arrays.length ∧
    (SValue.size ⟨(SValue.push_back .null
      ⟨⟨[[.boolean true]], []⟩, (SValue.array 0).copy⟩).2.heap, .array 0⟩).1 = .ok 2 ∧
    (SValue.at_index 1 ⟨(SValue.push_back .null
      ⟨⟨[[.boolean true]], []⟩, (SValue.array 0).copy⟩).2.heap, .array 0⟩).1 = .ok .null :=
  ⟨by decide,
    (C19_copies_alias_one_body ⟨[[.boolean true]], []⟩ (.array 0) (.push_back .null)).2.1 0
      .null rfl (by decide)⟩

/-- Claim C20: for a tree without Number node, nested to any depth, in which no string and no key
holds a double quote or a backslash (and every Object body is a map, its keys ascending),
`Value::parse` returns for the text that `operator<<` writes the tree itself: with enough fuel it
returns, and whenever it returns, it returns that tree. -/
theorem C20_parse_inverts_serialize_number_free (v : Value) (hw : v.wellFormed = true)
    (hn : v.numberFree = true) (hs : v.stringsPlain = true) :
    (∃ n, ∀ m, n ≤ m → Value.parse m (serialize v) = some (.ok v)) ∧
    (∀ m r, Value.parse m (serialize v) = some r → r = .ok v) :=
  parse_serialize_of_readsBack v (readsBack_of_plain v (plain_of_numberFree v hn hs) hw)

/-- Claim C20 at a tree with every kind of node but Number. -/
theorem C20_parse_inverts_serialize_number_free_witness :
    numberFreeTree.wellFormed = true ∧ numberFreeTree.numberFree = true ∧
    numberFreeTree.stringsPlain = true ∧
    (∃ n, ∀ m, n ≤ m → Value.parse m (serialize numberFreeTree) = some (.ok numberFreeTree)) ∧
    (∀ m r, Value.parse m (serialize numberFreeTree) = some r → r = .ok numberFreeTree) :=
  ⟨by decide, by decide, by decide,
    C20_parse_inverts_serialize_number_free numberFreeTree (by decide) (by decide) (by decide)⟩

end uJSON
